import Mathlib

/-!
# libCBF-cpp: a counting Bloom filter

A shallow embedding of `src/cbf.h` and `src/cbf.cpp`.

Conventions of the embedding.

* `int` values are mathematical integers kept in the 32-bit two's complement
  range by `wrapInt32` after every arithmetic operation of the source;
  `unsigned int` values are naturals reduced modulo `2^32`; a `BYTE`
  (`unsigned char`) is a natural reduced modulo `256` when it is stored.
* Buffers (`filter`, `HASH_salt`, `overflows`) are lists.  A read outside a
  buffer yields `0` and a write outside a buffer is dropped; in the source
  both are undefined.  `CBF.WF` collects the facts under which every access
  made by the operations is inside its buffer.
* The digest primitives of OpenSSL, the base64 codec, the random source, the
  endianness probe and the salt file are not part of the repository: they are
  the fields of `Env`.
* An exception is a value of `Exception`; the message text is not kept.  The
  operations of a constructed filter work on the object in place, so an
  operation that can throw returns either the new state or the exception
  together with the state the object is left in.
-/

namespace cbf

/-! ## Machine arithmetic -/

/-- The largest value of a 32-bit `int`. -/
def INT_MAX : Int := 2147483647

/-- The smallest value of a 32-bit `int`. -/
def INT_MIN : Int := -2147483648

/-- Two's complement reduction of an integer to the range of a 32-bit `int`. -/
def wrapInt32 (x : Int) : Int := (x + 2147483648) % 4294967296 - 2147483648

/-- Reduction of a natural to the range of a 32-bit `unsigned int`. -/
def wrapUInt32 (x : Nat) : Nat := x % 4294967296

/-- Conversion of an `int` to a `BYTE`: the low eight bits. -/
def toBYTE (x : Int) : Nat := (x % 256).toNat

/-- Conversion `(int)` of a non-negative integral `double`. A value that does
not fit is converted to `INT_MIN` (the result of the x86 conversion
instruction; the C++ standard leaves it undefined). -/
def double_to_int (x : Nat) : Int :=
  if (x : Int) ≤ INT_MAX then (x : Int) else INT_MIN

/-- The largest value of a 64-bit `long` (the LP64 data model of the
platforms on which `cbf.cpp` compiles with `bits/stdc++.h`). -/
def LONG_MAX : Int := 9223372036854775807

/-- Two's complement reduction of an integer to the range of a 64-bit `long`. -/
def wrapInt64 (x : Int) : Int :=
  (x + 9223372036854775808) % 18446744073709551616 - 9223372036854775808

/-! ## Exceptions and the environment -/

/-- The exceptions thrown by the library: `std::invalid_argument`,
`std::runtime_error`, and the allocation failures of `new[]` and
`std::vector` for a negative length. -/
inductive Exception where
  | invalid_argument
  | runtime_error
  | bad_alloc
deriving DecidableEq

deriving instance DecidableEq for Except

/-- The external collaborators of the filter. `SHA1`, `MD4`, `MD5` are the
OpenSSL digests, `RAND_bytes i` is the buffer produced by the `i`-th call of
the random source (`none` when it reports failure), `salt_file path` is the
list of lines of the file at `path` when it can be opened for reading. -/
structure Env where
  SHA1 : List Nat → List Nat
  MD4 : List Nat → List Nat
  MD5 : List Nat → List Nat
  is_big_endian : Int
  base64_encode : List Nat → String
  base64_decode : String → List Nat
  RAND_bytes : Nat → Option (List Nat)
  salt_file : String → Option (List String)

/-! ## The filter -/

/-- The private fields of `class CBF` (`cbf.h`, lines 68-81). -/
structure CBF where
  filter : List Nat
  HASH_salt : List (List Nat)
  bit_mapping : Int
  cells : Int
  cell_size : Int
  size : Int
  HASH_family : Int
  HASH_number : Int
  HASH_digest_length : Int
  members : Int
  unique_members : Int
  MULTIPLICITY_max : Int
  overflows : List Int
  BIG_end : Int
deriving DecidableEq

/-- Constant `CBF::MAX_INPUT_SIZE`. -/
def MAX_INPUT_SIZE : Nat := 128

/-- Constant `CBF::MAX_BIT_MAPPING`. -/
def MAX_BIT_MAPPING : Int := 32

/-- Constant `CBF::MAX_BYTE_MAPPING`. -/
def MAX_BYTE_MAPPING : Nat := 4

/-- Constant `CBF::MAX_MULTIPLICITY`. -/
def MAX_MULTIPLICITY : Int := 65535

/-- Constant `CBF::MAX_HASH_NUMBER`. -/
def MAX_HASH_NUMBER : Int := 1024

/-- OpenSSL constant `SHA_DIGEST_LENGTH`. -/
def SHA_DIGEST_LENGTH : Int := 20

/-- OpenSSL constant `MD4_DIGEST_LENGTH`. -/
def MD4_DIGEST_LENGTH : Int := 16

/-- OpenSSL constant `MD5_DIGEST_LENGTH`. -/
def MD5_DIGEST_LENGTH : Int := 16

namespace CBF

/-- Method `CBF::SetHashDigestLength` (`cbf.cpp`, lines 47-62): the value stored in
`HASH_digest_length` for a hash family code. -/
def SetHashDigestLength (HASH_family : Int) : Int :=
  if HASH_family = 1 then SHA_DIGEST_LENGTH
  else if HASH_family = 4 then MD4_DIGEST_LENGTH
  else if HASH_family = 5 then MD5_DIGEST_LENGTH
  else MD4_DIGEST_LENGTH

/-- Method `CBF::Hash` (`cbf.cpp`, lines 69-84): the digest of the buffer `d`. -/
def Hash (env : Env) (s : CBF) (d : List Nat) : List Nat :=
  if s.HASH_family = 1 then env.SHA1 d
  else if s.HASH_family = 4 then env.MD4 d
  else if s.HASH_family = 5 then env.MD5 d
  else env.MD4 d

/-- Method `CBF::GetCell` (`cbf.cpp`, lines 178-197). -/
def GetCell (s : CBF) (index : Nat) : Int :=
  if s.cell_size = 1 then
    (s.filter.getD index 0 : Int)
  else if s.cell_size = 2 then
    (((s.filter.getD (wrapUInt32 (2 * index)) 0 <<< 8) |||
      s.filter.getD (wrapUInt32 (wrapUInt32 (2 * index) + 1)) 0 : Nat) : Int)
  else
    -1

/-- Method `CBF::SetCell` (`cbf.cpp`, lines 140-174). The `throw` of line 150 comes
before every write, so the object it leaves behind is `s`. -/
def SetCell (s : CBF) (index : Nat) (multiplicity : Int) : Except (Exception × CBF) CBF :=
  let max_multiplicity : Int := if s.cell_size = 1 then 255 else 65535
  let cell_value : Int := s.GetCell index
  let new_cell_value : Int := wrapInt32 (cell_value + multiplicity)
  let n_overflows : Int := wrapInt32 (new_cell_value - max_multiplicity)
  if multiplicity > max_multiplicity ∨ multiplicity < 0 then
    Except.error (Exception.invalid_argument, s)
  else
    let overflows : List Int :=
      if n_overflows > 0 then
        s.overflows.set index (wrapInt32 (s.overflows.getD index 0 + n_overflows))
      else s.overflows
    let new_cell_value : Int := min max_multiplicity new_cell_value
    let filter : List Nat :=
      if s.cell_size = 1 then
        s.filter.set index (toBYTE new_cell_value)
      else if s.cell_size = 2 then
        (s.filter.set (wrapUInt32 (2 * index)) (toBYTE (new_cell_value >>> (8 : Nat)))).set
          (wrapUInt32 (wrapUInt32 (2 * index) + 1)) (toBYTE new_cell_value)
      else s.filter
    Except.ok { s with filter := filter, overflows := overflows }

/-- The body of the round loop of `CBF::Insert` up to the computation of the
cell index (`cbf.cpp`, lines 329-352): salt the input, digest it, keep the
first four bytes, fold them according to `BIG_end` and shift. -/
def Insert.digest_index (env : Env) (s : CBF) (string : List Nat) (k : Nat) : Nat :=
  let buffer : List Nat := (List.range string.length).map fun j =>
    (string.getD j 0 ^^^ (s.HASH_salt.getD k []).getD j 0) % 256
  let digest : List Nat := s.Hash env buffer
  let digest32 : List Nat := (List.range MAX_BYTE_MAPPING).map fun i => digest.getD i 0 % 256
  let digest_index : Nat :=
    if s.BIG_end ≠ 0 then
      wrapUInt32 ((digest32.getD 0 0 <<< 24) ||| (digest32.getD 1 0 <<< 16) |||
        (digest32.getD 2 0 <<< 8) ||| digest32.getD 3 0)
    else
      wrapUInt32 ((digest32.getD 3 0 <<< 24) ||| (digest32.getD 2 0 <<< 16) |||
        (digest32.getD 1 0 <<< 8) ||| digest32.getD 0 0)
  digest_index >>> (MAX_BIT_MAPPING - s.bit_mapping).toNat

/-- The round loop of `CBF::Insert` (`cbf.cpp`, lines 327-355) over the
rounds `ks`; an exception of `SetCell` leaves the loop, and the object stays
as the rounds before it have made it. -/
def Insert.rounds (env : Env) (string : List Nat) (multiplicity : Int) :
    List Nat → CBF → Except (Exception × CBF) CBF
  | [], s => Except.ok s
  | k :: ks, s =>
    match s.SetCell (Insert.digest_index env s string k) multiplicity with
    | Except.error e => Except.error e
    | Except.ok s1 => Insert.rounds env string multiplicity ks s1

/-- Method `CBF::Insert` (`cbf.cpp`, lines 316-362); `string` holds the `size` bytes
of the element. The result is the state of the filter after a normal return,
or the exception thrown together with the state the filter is left in. -/
def Insert (env : Env) (s : CBF) (string : List Nat) (multiplicity : Int) :
    Except (Exception × CBF) CBF :=
  match Insert.rounds env string multiplicity (List.range s.HASH_number.toNat) s with
  | Except.error e => Except.error e
  | Except.ok s1 =>
    Except.ok { s1 with
      unique_members := wrapInt32 (s1.unique_members + 1)
      members := wrapInt32 (s1.members + multiplicity) }

/-- The body of the round loop of `CBF::Check` up to the computation of the
cell index (`cbf.cpp`, lines 383-405). -/
def Check.digest_index (env : Env) (s : CBF) (string : List Nat) (k : Nat) : Nat :=
  let buffer : List Nat := (List.range string.length).map fun j =>
    (string.getD j 0 ^^^ (s.HASH_salt.getD k []).getD j 0) % 256
  let digest : List Nat := s.Hash env buffer
  let digest32 : List Nat := (List.range MAX_BYTE_MAPPING).map fun i => digest.getD i 0 % 256
  let digest_index : Nat :=
    if s.BIG_end ≠ 0 then
      wrapUInt32 ((digest32.getD 0 0 <<< 24) ||| (digest32.getD 1 0 <<< 16) |||
        (digest32.getD 2 0 <<< 8) ||| digest32.getD 3 0)
    else
      wrapUInt32 ((digest32.getD 3 0 <<< 24) ||| (digest32.getD 2 0 <<< 16) |||
        (digest32.getD 1 0 <<< 8) ||| digest32.getD 0 0)
  digest_index >>> (MAX_BIT_MAPPING - s.bit_mapping).toNat

/-- The round loop of `CBF::Check` (`cbf.cpp`, lines 381-413) over the rounds
`ks`, started with the running minimum `counter`; the loop is left as soon as
the running minimum is `0`. -/
def Check.rounds (env : Env) (s : CBF) (string : List Nat) : List Nat → Int → Int
  | [], counter => counter
  | k :: ks, counter =>
    let current_counter : Int := s.GetCell (Check.digest_index env s string k)
    let counter : Int := min counter current_counter
    if counter = 0 then counter else Check.rounds env s string ks counter

/-- Method `CBF::Check` (`cbf.cpp`, lines 368-416). -/
def Check (env : Env) (s : CBF) (string : List Nat) : Int :=
  Check.rounds env s string (List.range s.HASH_number.toNat) INT_MAX

/-- Method `CBF::GetOverallOverflows` (`cbf.cpp`, lines 509-516). -/
def GetOverallOverflows (s : CBF) : Int :=
  s.overflows.foldl (fun total value => wrapInt32 (total + value)) 0

/-- Method `CBF::GetOverflownCells` (`cbf.cpp`, lines 519-528). -/
def GetOverflownCells (s : CBF) : Int :=
  s.overflows.foldl
    (fun total value => if value ≠ 0 then wrapInt32 (total + 1) else total) 0

/-- Method `CBF::GetFilterSparsity` (`cbf.cpp`, lines 419-430), the `float`
arithmetic read as exact rational arithmetic. The loop runs over
`i = 1, ..., cells - 1`. -/
def GetFilterSparsity (s : CBF) : ℚ :=
  let e : Int := (List.range' 1 (s.cells - 1).toNat).foldl
    (fun e i => if s.GetCell i ≠ 0 then wrapInt32 (e + 1) else e) 0
  (e : ℚ) / (s.cells : ℚ)

/-- Method `CBF::GetFilterAPrioriFpp` (`cbf.cpp`, lines 480-488), the `double`
arithmetic read as exact rational arithmetic. The exponent
`HASH_number * unique_members` is a product of two `int`. -/
def GetFilterAPrioriFpp (s : CBF) : ℚ :=
  let p : ℚ := 1 - 1 / (s.cells : ℚ)
  let p : ℚ := 1 - p ^ wrapInt32 (s.HASH_number * s.unique_members)
  p ^ s.HASH_number

/-- Method `CBF::GetFilterFpp` (`cbf.cpp`, lines 492-506), the `double`
arithmetic read as exact rational arithmetic. The loop runs over
`i = 1, ..., cells - 1`. -/
def GetFilterFpp (s : CBF) : ℚ :=
  let c : Int := (List.range' 1 (s.cells - 1).toNat).foldl
    (fun c i => if s.GetCell i > 0 then wrapInt32 (c + 1) else c) 0
  let p : ℚ := (c : ℚ) / (s.cells : ℚ)
  p ^ s.HASH_number

/-- The first four bytes of the digest of round `k`, the array `digest32` of
`CBF::Insert` and of `CBF::Check` (`cbf.cpp`, lines 329-338 and 383-392). -/
def digest32 (env : Env) (s : CBF) (string : List Nat) (k : Nat) : List Nat :=
  let buffer : List Nat := (List.range string.length).map fun j =>
    (string.getD j 0 ^^^ (s.HASH_salt.getD k []).getD j 0) % 256
  let digest : List Nat := s.Hash env buffer
  (List.range MAX_BYTE_MAPPING).map fun i => digest.getD i 0 % 256

/-- The loop of the cell-contents branch of `CBF::SaveToDisk` (`cbf.cpp`,
lines 289-304, taken for `mode = 0`), started at the byte index `i` with the
lines `out` already written. A line of the file is given by the number
printed on it. `fuel` bounds the number of iterations: the loop of the source
does not end when `cell_size` is not positive. -/
def SaveToDisk.loop (s : CBF) : Nat → Int → List Nat → Option (List Nat)
  | 0, i, out => if i < s.size then none else some out
  | fuel + 1, i, out =>
    if i < s.size then
      let out : List Nat :=
        if s.cell_size = 1 then
          out ++ [wrapUInt32 (s.filter.getD i.toNat 0)]
        else if s.cell_size = 2 then
          out ++ [wrapUInt32 ((s.filter.getD i.toNat 0 <<< 8) |||
            s.filter.getD (wrapInt32 (i + 1)).toNat 0)]
        else out
      SaveToDisk.loop s fuel (wrapInt32 (i + s.cell_size)) out
    else some out

/-- Method `CBF::SaveToDisk` (`cbf.cpp`, lines 260-307) with `mode = 0`: the
lines of the cell-contents dump, when the loop ends within `fuel`
iterations. -/
def SaveToDisk.cells (s : CBF) (fuel : Nat) : Option (List Nat) :=
  SaveToDisk.loop s fuel 0 []

/-- Method `CBF::LoadHashSalt` (`cbf.cpp`, lines 118-133) on a salt file given by
its lines (each line of the file ends with a line break, so a `getline`
after the last line leaves the empty string in `line`). `memcpy` takes
`MAX_INPUT_SIZE` bytes from the decoded line. The function has no failure
path; it is given the result type of `CreateHashSalt`. -/
def LoadHashSalt (env : Env) (HASH_number : Int) (lines : List String) :
    Except Exception (List (List Nat)) :=
  Except.ok ((List.range HASH_number.toNat).map fun i =>
    let line : String := lines.getD i ""
    let decoded : List Nat := env.base64_decode line
    (List.range MAX_INPUT_SIZE).map fun j => decoded.getD j 0 % 256)

/-- The round loop of `CBF::CreateHashSalt` (`cbf.cpp`, lines 98-110). -/
def CreateHashSalt.loop (env : Env) : List Nat → Except Exception (List (List Nat))
  | [] => Except.ok []
  | i :: is =>
    match env.RAND_bytes i with
    | none => Except.error Exception.runtime_error
    | some buffer =>
      match CreateHashSalt.loop env is with
      | Except.error e => Except.error e
      | Except.ok salts =>
        Except.ok (((List.range MAX_INPUT_SIZE).map fun j => buffer.getD j 0 % 256) :: salts)

/-- Method `CBF::CreateHashSalt` (`cbf.cpp`, lines 91-113): the salts stored in
`HASH_salt` (the file written along the way is not kept). -/
def CreateHashSalt (env : Env) (HASH_number : Int) : Except Exception (List (List Nat)) :=
  CreateHashSalt.loop env (List.range HASH_number.toNat)

end CBF

/-- The inner loop of `binomialCoeff` (`cbf.cpp`, lines 444-445) for the row
`i`: `j` runs from `min(i, k)` down to `1`, and `C[j] = C[j] + C[j-1]` is an
addition of two `long`. -/
def binomialCoeff.row (k : Int) (C : List Int) (i : Nat) : List Int :=
  (List.range' 1 (min (i : Int) k).toNat).reverse.foldl
    (fun C j => C.set j (wrapInt64 (C.getD j 0 + C.getD (j - 1) 0))) C

/-- Function `binomialCoeff` (`cbf.cpp`, lines 432-448). The array `C` has
`k + 1` entries, the sum being an `int`; the rows are those of
`i = 1, ..., n` (for `n = INT_MAX` the increment of `i` past `n` is undefined
in the source). -/
def binomialCoeff (n k : Int) : Int :=
  let C : List Int := List.replicate (wrapInt32 (k + 1)).toNat 0
  let C : List Int := C.set 0 1
  let C : List Int := (List.range' 1 n.toNat).foldl (binomialCoeff.row k) C
  C.getD k.toNat 0

/-- The constructor `CBF::CBF` (`cbf.h`, lines 128-197); a class constructor
has no name of its own to keep. -/
def CBF.construct (env : Env) (bit_mapping HASH_family HASH_number MULTIPLICITY_max : Int)
    (salt_path : String) (forced_cell_size : Int) : Except Exception CBF :=
  if bit_mapping ≤ 0 ∨ bit_mapping > MAX_BIT_MAPPING then
    Except.error Exception.invalid_argument
  else if MULTIPLICITY_max ≤ 0 ∨ MULTIPLICITY_max > MAX_MULTIPLICITY then
    Except.error Exception.invalid_argument
  else if HASH_number ≤ 0 ∨ HASH_number > MAX_HASH_NUMBER then
    Except.error Exception.invalid_argument
  else if salt_path.length = 0 then
    Except.error Exception.invalid_argument
  else if forced_cell_size > 0 ∧ forced_cell_size > 2 then
    Except.error Exception.invalid_argument
  else
    let BIG_end : Int := env.is_big_endian
    let cell_size : Int :=
      if forced_cell_size > 0 then forced_cell_size
      else if MULTIPLICITY_max ≤ 255 then 1
      else 2
    let HASH_digest_length : Int := CBF.SetHashDigestLength HASH_family
    let salts : Except Exception (List (List Nat)) :=
      match env.salt_file salt_path with
      | some lines => CBF.LoadHashSalt env HASH_number lines
      | none => CBF.CreateHashSalt env HASH_number
    match salts with
    | Except.error e => Except.error e
    | Except.ok HASH_salt =>
      let cells : Int := double_to_int (2 ^ bit_mapping.toNat)
      let size : Int := wrapInt32 (cell_size * cells)
      if size < 0 then
        Except.error Exception.bad_alloc
      else if cells < 0 then
        Except.error Exception.bad_alloc
      else
        Except.ok
          { filter := List.replicate size.toNat 0
            HASH_salt := HASH_salt
            bit_mapping := bit_mapping
            cells := cells
            cell_size := cell_size
            size := size
            HASH_family := HASH_family
            HASH_number := HASH_number
            HASH_digest_length := HASH_digest_length
            members := 0
            unique_members := 0
            MULTIPLICITY_max := MULTIPLICITY_max
            overflows := List.replicate cells.toNat 0
            BIG_end := BIG_end }

/-! ## Well-formed states -/

/-- The largest value of a cell: `max_multiplicity` of `CBF::SetCell`
(`cbf.cpp`, line 141), `255` for one-byte cells and `65535` for two-byte
cells. -/
def CBF.max_counter (s : CBF) : Int := if s.cell_size = 1 then 255 else 65535

/-- The facts about a filter state that the constructor establishes and
`Insert` keeps: the geometry of the buffers, the ranges of the configuration,
and that every `int` of the state is in the range of its type. -/
structure CBF.WF (s : CBF) : Prop where
  cell_size : s.cell_size = 1 ∨ s.cell_size = 2
  bit_mapping_pos : 1 ≤ s.bit_mapping
  bit_mapping_le : s.bit_mapping ≤ 30
  cells : s.cells = 2 ^ s.bit_mapping.toNat
  size : s.size = s.cell_size * s.cells
  size_le : s.size ≤ 2147483647
  filter_length : (s.filter.length : Int) = s.size
  filter_bytes : ∀ b ∈ s.filter, b < 256
  overflows_length : (s.overflows.length : Int) = s.cells
  HASH_number_pos : 1 ≤ s.HASH_number
  HASH_number_le : s.HASH_number ≤ 1024
  overflows_int : ∀ v ∈ s.overflows, INT_MIN ≤ v ∧ v ≤ INT_MAX
  members_int : INT_MIN ≤ s.members ∧ s.members ≤ INT_MAX
  unique_members_int : INT_MIN ≤ s.unique_members ∧ s.unique_members ≤ INT_MAX

/-- The configuration of `s1` is that of `s`: every field other than the cell
array, the overflow ledger and the two aggregate counters is the same. -/
structure CBF.SameConfig (s s1 : CBF) : Prop where
  HASH_salt : s1.HASH_salt = s.HASH_salt
  bit_mapping : s1.bit_mapping = s.bit_mapping
  cells : s1.cells = s.cells
  cell_size : s1.cell_size = s.cell_size
  size : s1.size = s.size
  HASH_family : s1.HASH_family = s.HASH_family
  HASH_number : s1.HASH_number = s.HASH_number
  HASH_digest_length : s1.HASH_digest_length = s.HASH_digest_length
  MULTIPLICITY_max : s1.MULTIPLICITY_max = s.MULTIPLICITY_max
  BIG_end : s1.BIG_end = s.BIG_end

/-! ## Reachable states -/

/-- The elements an operation can be given: at most `MAX_INPUT_SIZE` bytes. -/
def IsElement (string : List Nat) : Prop :=
  string.length ≤ MAX_INPUT_SIZE ∧ ∀ b ∈ string, b < 256

instance (string : List Nat) : Decidable (IsElement string) := by
  unfold IsElement; infer_instance

/-- The filter states reachable from a freshly constructed filter by `Insert`
calls that return normally. -/
inductive Reachable (env : Env) : CBF → Prop where
  | fresh (bit_mapping HASH_family HASH_number MULTIPLICITY_max : Int) (salt_path : String)
      (forced_cell_size : Int) (s : CBF)
      (h : CBF.construct env bit_mapping HASH_family HASH_number MULTIPLICITY_max salt_path
        forced_cell_size = Except.ok s) : Reachable env s
  | insert (s s1 : CBF) (string : List Nat) (multiplicity : Int)
      (hs : Reachable env s) (he : IsElement string)
      (h : s.Insert env string multiplicity = Except.ok s1) : Reachable env s1

/-- A sequence of `Insert` calls, one per pair of an element and its
multiplicity, in the order of the list (the insertion loop of the test
application, `test-app-cbf.cpp`, lines 212-225); the first exception ends the
sequence. -/
def CBF.InsertAll (env : Env) : CBF → List (List Nat × Int) → Except (Exception × CBF) CBF
  | s, [] => Except.ok s
  | s, (string, multiplicity) :: calls =>
    match s.Insert env string multiplicity with
    | Except.error e => Except.error e
    | Except.ok s1 => CBF.InsertAll env s1 calls

/-- The minimum of the cells of all the rounds of an element, as the
specification words the result of `Check`: every round is read and the
smallest value is kept, with no early exit. -/
def CBF.Check_minimum (env : Env) (s : CBF) (string : List Nat) : Int :=
  ((List.range s.HASH_number.toNat).map fun k =>
    s.GetCell (CBF.Check.digest_index env s string k)).foldl min INT_MAX

/-- The sparsity as the specification words it: the number of cells of the
whole filter, cell 0 included, that read other than `0`, divided by the
number of cells. -/
def CBF.GetFilterSparsity_spec (s : CBF) : ℚ :=
  (((List.range s.cells.toNat).countP fun i => decide (s.GetCell i ≠ 0) : Nat) : ℚ) /
    (s.cells : ℚ)

/-- The a-posteriori false positive probability as the specification words
it: the fraction of the cells of the whole filter, cell 0 included, that read
above `0`, raised to the power `HASH_number`. -/
def CBF.GetFilterFpp_spec (s : CBF) : ℚ :=
  ((((List.range s.cells.toNat).countP fun i => decide (s.GetCell i > 0) : Nat) : ℚ) /
    (s.cells : ℚ)) ^ s.HASH_number

/-- The a-priori false positive probability as the specification words it:
`(1 - (1 - 1/cells)^(HASH_number * unique_members))^HASH_number`, the product
in the exponent taken over the integers. -/
def CBF.GetFilterAPrioriFpp_spec (s : CBF) : ℚ :=
  (1 - (1 - 1 / (s.cells : ℚ)) ^ (s.HASH_number * s.unique_members)) ^ s.HASH_number

/-- The number of rounds `k` of the list `ks` that map the element `string`
to the cell `j`. -/
def CBF.hits (env : Env) (s : CBF) (string : List Nat) (ks : List Nat) (j : Nat) : Nat :=
  ks.countP fun k => decide (CBF.Insert.digest_index env s string k = j)

/-- A sample environment, for concrete runs: each digest repeats one byte
computed from the sum of the input bytes, the `i`-th random buffer repeats
the byte `16 * i`, no salt file exists and the host is little-endian. -/
def sampleEnv : Env where
  SHA1 := fun d => List.replicate 20 ((d.sum + 1) % 256)
  MD4 := fun d => List.replicate 16 (d.sum % 256)
  MD5 := fun d => List.replicate 16 ((d.sum + 128) % 256)
  is_big_endian := 0
  base64_encode := fun _ => ""
  base64_decode := fun _ => []
  RAND_bytes := fun i => some (List.replicate 128 (16 * i % 256))
  salt_file := fun _ => none

/-- The filter constructed in `sampleEnv` with `bit_mapping = 4`, hash family
`4`, `HASH_number = 2` and `MULTIPLICITY_max = 255`: sixteen one-byte cells. -/
def sampleFilter : CBF where
  filter := List.replicate 16 0
  HASH_salt := [List.replicate 128 0, List.replicate 128 16]
  bit_mapping := 4
  cells := 16
  cell_size := 1
  size := 16
  HASH_family := 4
  HASH_number := 2
  HASH_digest_length := 16
  members := 0
  unique_members := 0
  MULTIPLICITY_max := 255
  overflows := List.replicate 16 0
  BIG_end := 0

/-- The state of `sampleFilter` after `Insert("A", 5)` and `Insert("A", 252)`,
the scenario of the specification: the two cells of "A" are cells 4 and 5. -/
def sampleFilter.afterScenario : CBF :=
  { sampleFilter with
    filter := [0, 0, 0, 0, 255, 255, 0, 0, 0, 0, 0, 0, 0, 0, 0, 0]
    overflows := [0, 0, 0, 0, 2, 2, 0, 0, 0, 0, 0, 0, 0, 0, 0, 0]
    members := 257
    unique_members := 2 }

/-- The filter constructed in `sampleEnv` with `bit_mapping = 1`, hash family
`4`, `HASH_number = 1` and `MULTIPLICITY_max = 65535`: two two-byte cells. -/
def wideFilter : CBF where
  filter := [0, 0, 0, 0]
  HASH_salt := [List.replicate 128 0]
  bit_mapping := 1
  cells := 2
  cell_size := 2
  size := 4
  HASH_family := 4
  HASH_number := 1
  HASH_digest_length := 16
  members := 0
  unique_members := 0
  MULTIPLICITY_max := 65535
  overflows := [0, 0]
  BIG_end := 0

/-- The state of `wideFilter` after `n + 1` calls `Insert("A", 65535)`: the
cell of the element is saturated and the `int` fields have gone through
`n + 1` additions. -/
def wideSaturated (n : Nat) : CBF :=
  { wideFilter with
    filter := [255, 255, 0, 0]
    overflows := [wrapInt32 (65535 * n), 0]
    members := wrapInt32 (65535 * (n + 1))
    unique_members := wrapInt32 (n + 1) }

/-- The filter constructed in `sampleEnv` with `bit_mapping = 1`, hash family
`4`, `HASH_number = 2` and `MULTIPLICITY_max = 65535`: two two-byte cells and
two rounds. The two rounds of the element with the bytes `100, 3` map to
cell 0 and to cell 1. -/
def pairFilter : CBF where
  filter := [0, 0, 0, 0]
  HASH_salt := [List.replicate 128 0, List.replicate 128 16]
  bit_mapping := 1
  cells := 2
  cell_size := 2
  size := 4
  HASH_family := 4
  HASH_number := 2
  HASH_digest_length := 16
  members := 0
  unique_members := 0
  MULTIPLICITY_max := 65535
  overflows := [0, 0]
  BIG_end := 0

/-- A state of `pairFilter` in which both cells are saturated, with the ledger
entries `a` and `b` and the aggregate counters `x` and `y`. -/
def pairState (a b x y : Int) : CBF :=
  { pairFilter with
    filter := [255, 255, 255, 255]
    overflows := [a, b]
    members := x
    unique_members := y }

/-- The state of `pairFilter` after `n + 1` calls `Insert` of the element
`100, 3` with multiplicity `65535`. -/
def pairSaturated (n : Nat) : CBF :=
  pairState (wrapInt32 (65535 * n)) (wrapInt32 (65535 * n)) (wrapInt32 (65535 * (n + 1)))
    (wrapInt32 (n + 1))

/-- The filter constructed in `sampleEnv` with `bit_mapping = 1`, hash family
`4`, `HASH_number = 1024` and `MULTIPLICITY_max = 255`: two one-byte cells
and the largest number of rounds the constructor accepts. -/
def roundsFilter : CBF where
  filter := [0, 0]
  HASH_salt := (List.range 1024).map fun i =>
    (List.range MAX_INPUT_SIZE).map fun j => (List.replicate 128 (16 * i % 256)).getD j 0 % 256
  bit_mapping := 1
  cells := 2
  cell_size := 1
  size := 2
  HASH_family := 4
  HASH_number := 1024
  HASH_digest_length := 16
  members := 0
  unique_members := 0
  MULTIPLICITY_max := 255
  overflows := [0, 0]
  BIG_end := 0

/-- The state of `roundsFilter` after `n` calls `Insert` with multiplicity
`0`. -/
def roundsInserted (n : Nat) : CBF :=
  { roundsFilter with unique_members := wrapInt32 n }

/-- A sample environment with a salt file: the file has the single line
`AQI=`, which decodes to the two bytes `1, 2`; everything else is as in
`sampleEnv`. -/
def shortFileEnv : Env :=
  { sampleEnv with
    base64_decode := fun line => if line = "AQI=" then [1, 2] else []
    salt_file := fun _ => some ["AQI="] }

/-! ## The MD4 digest and an environment with a salt file -/

/-- Rotation of a 32-bit word to the left by `n` bits. -/
def MD4.rotl (x n : Nat) : Nat := ((x <<< n) ||| (x >>> (32 - n))) % 4294967296

/-- The padding of RFC 1320: the byte `128`, zero bytes up to 56 modulo 64,
and the length of the message in bits as eight bytes, the low one first. -/
def MD4.pad (msg : List Nat) : List Nat :=
  msg ++ [128] ++ List.replicate ((119 - msg.length % 64) % 64) 0 ++
    (List.range 8).map fun i => ((8 * msg.length) >>> (8 * i)) % 256

/-- The sixteen 32-bit words of the block that starts at byte `off`, each
read with its low byte first. -/
def MD4.words (bytes : List Nat) (off : Nat) : List Nat :=
  (List.range 16).map fun k =>
    bytes.getD (off + 4 * k) 0 + bytes.getD (off + 4 * k + 1) 0 <<< 8 +
      bytes.getD (off + 4 * k + 2) 0 <<< 16 + bytes.getD (off + 4 * k + 3) 0 <<< 24

/-- One step of a round of RFC 1320: `a = (a + f(b, c, d) + X[k] + c0) <<< s`,
followed by the rotation of the four registers. -/
def MD4.step (f : Nat → Nat → Nat → Nat) (c0 : Nat) (X : List Nat)
    (st : Nat × Nat × Nat × Nat) (ks : Nat × Nat) : Nat × Nat × Nat × Nat :=
  (st.2.2.2,
    MD4.rotl ((st.1 + f st.2.1 st.2.2.1 st.2.2.2 + X.getD ks.1 0 + c0) % 4294967296) ks.2,
    st.2.1, st.2.2.1)

/-- The three rounds of RFC 1320 on one block of sixteen words. -/
def MD4.block (st : Nat × Nat × Nat × Nat) (X : List Nat) : Nat × Nat × Nat × Nat :=
  let r1 : List (Nat × Nat) := (List.range 16).map fun i => (i, [3, 7, 11, 19].getD (i % 4) 0)
  let r2 : List (Nat × Nat) :=
    (List.range 16).map fun i => (i % 4 * 4 + i / 4, [3, 5, 9, 13].getD (i % 4) 0)
  let r3 : List (Nat × Nat) :=
    (List.range 16).map fun i =>
      ([0, 8, 4, 12, 2, 10, 6, 14, 1, 9, 5, 13, 3, 11, 7, 15].getD i 0,
        [3, 9, 11, 15].getD (i % 4) 0)
  let s1 := r1.foldl
    (MD4.step (fun x y z => (x &&& y) ||| ((x ^^^ 4294967295) &&& z)) 0 X) st
  let s2 := r2.foldl
    (MD4.step (fun x y z => (x &&& y) ||| (x &&& z) ||| (y &&& z)) 1518500249 X) s1
  let s3 := r3.foldl (MD4.step (fun x y z => x ^^^ y ^^^ z) 1859775393 X) s2
  ((st.1 + s3.1) % 4294967296, (st.2.1 + s3.2.1) % 4294967296,
    (st.2.2.1 + s3.2.2.1) % 4294967296, (st.2.2.2 + s3.2.2.2) % 4294967296)

/-- The MD4 message digest of RFC 1320, the function that the `MD4` of
OpenSSL computes: the sixteen bytes of the digest of the message `msg`. -/
def MD4.digest (msg : List Nat) : List Nat :=
  let bytes := MD4.pad msg
  let st := (List.range (bytes.length / 64)).foldl
    (fun st b => MD4.block st (MD4.words bytes (64 * b)))
    (1732584193, 4023233417, 2562383102, 271733878)
  [st.1, st.2.1, st.2.2.1, st.2.2.2].flatMap fun w =>
    (List.range 4).map fun i => (w >>> (8 * i)) % 256

/-- The line of a salt file that is the base64 encoding of `MAX_INPUT_SIZE`
zero bytes: 171 letters `A` and one `=`. -/
def zeroSaltLine : String :=
  "AAAAAAAAAAAAAAAAAAAAAAAAAAAAAAAAAAAAAAAAAAAAAAAAAAAAAAAAAAAAAAAAAAAAAAAAAAAAAAAAAAAAAAAAAAAAAAAAAAAAAAAAAAAAAAAAAAAAAAAAAAAAAAAAAAAAAAAAAAAAAAAAAAAAAAAAAAAAAAAAAAAAAAAAAAA="

/-- An environment with the MD4 of RFC 1320 and a salt file: the file
`salts.txt` has the one line `zeroSaltLine`, which the codec decodes to 128
zero bytes; `big_end` is what the endianness probe returns. The other fields
are those of `sampleEnv`; a filter with the hash family 4 and a salt file
does not use them. -/
def md4Env (big_end : Int) : Env :=
  { sampleEnv with
    MD4 := MD4.digest
    is_big_endian := big_end
    base64_decode := fun line => if line = zeroSaltLine then List.replicate 128 0 else []
    salt_file := fun path => if path = "salts.txt" then some [zeroSaltLine] else none }

/-- The filter constructed in `md4Env big_end` with `bit_mapping = 1`, hash
family `4`, `HASH_number = 1` and `MULTIPLICITY_max = 255`: two one-byte
cells and the salt of 128 zero bytes read from `salts.txt`. -/
def zeroSaltFilter (big_end : Int) : CBF where
  filter := [0, 0]
  HASH_salt := [List.replicate 128 0]
  bit_mapping := 1
  cells := 2
  cell_size := 1
  size := 2
  HASH_family := 4
  HASH_number := 1
  HASH_digest_length := 16
  members := 0
  unique_members := 0
  MULTIPLICITY_max := 255
  overflows := [0, 0]
  BIG_end := big_end

/-- The state of `zeroSaltFilter big_end` after `Insert("F", 1)`: the MD4 digest
of the one byte "F" is `189bb272 d916eea5 b99b2a57 2ad93e9a`, so its round
maps to cell 0 whatever the endianness is. -/
def zeroSaltInserted (big_end : Int) : CBF :=
  { zeroSaltFilter big_end with
    filter := [1, 0]
    members := 1
    unique_members := 1 }

/-! ## Machine arithmetic and buffers: basic lemmas -/

theorem byte_fold (hi lo : Nat) (h : lo < 256) : (hi <<< 8 ||| lo) = 256 * hi + lo := by
  rw [Nat.shiftLeft_eq, Nat.mul_comm]
  exact (Nat.mul_add_lt_is_or (i := 8) h hi).symm

theorem toBYTE_lo (v : Int) (h0 : 0 ≤ v) : toBYTE v = v.toNat % 256 := by
  unfold toBYTE; omega

theorem toBYTE_hi (v : Int) (h0 : 0 ≤ v) (h1 : v ≤ 65535) :
    toBYTE (v >>> (8 : Nat)) = v.toNat / 256 := by
  unfold toBYTE
  rw [Int.shiftRight_eq_div_pow]
  norm_num
  omega

theorem wrapInt32_id (x : Int) (h0 : -2147483648 ≤ x) (h1 : x ≤ 2147483647) :
    wrapInt32 x = x := by
  unfold wrapInt32; omega

theorem wrapInt32_range (x : Int) : INT_MIN ≤ wrapInt32 x ∧ wrapInt32 x ≤ INT_MAX := by
  unfold wrapInt32 INT_MIN INT_MAX; omega

theorem wrapUInt32_id (x : Nat) (h : x < 4294967296) : wrapUInt32 x = x := by
  unfold wrapUInt32; omega

/-- Number of cells of a well-formed state, as a natural. -/
theorem WF_cells_nat {s : CBF} (h : s.WF) : ∃ n : Nat, s.cells = n ∧ 2 ≤ n ∧ n ≤ 1073741824 ∧
    s.overflows.length = n ∧ (s.cell_size = 1 → s.filter.length = n) ∧
    (s.cell_size = 2 → s.filter.length = 2 * n) := by
  obtain ⟨b, hb⟩ : ∃ b : Nat, s.bit_mapping = b := ⟨s.bit_mapping.toNat, by have := h.bit_mapping_pos; omega⟩
  have hb1 : 1 ≤ b := by have := h.bit_mapping_pos; omega
  have hb2 : b ≤ 30 := by have := h.bit_mapping_le; omega
  refine ⟨2 ^ b, ?_, ?_, ?_, ?_, ?_, ?_⟩
  · rw [h.cells, hb]; simp
  · calc 2 = 2 ^ 1 := by norm_num
      _ ≤ 2 ^ b := Nat.pow_le_pow_right (by norm_num) hb1
  · calc 2 ^ b ≤ 2 ^ 30 := Nat.pow_le_pow_right (by norm_num) hb2
      _ = 1073741824 := by norm_num
  · have := h.overflows_length
    rw [h.cells, hb] at this; simp at this; exact_mod_cast this
  · intro hc
    have h1 := h.filter_length
    rw [h.size, hc, h.cells, hb] at h1; simp at h1; exact_mod_cast h1
  · intro hc
    have h1 := h.filter_length
    rw [h.size, hc, h.cells, hb] at h1; simp at h1; exact_mod_cast h1

theorem getD_lt_of_bytes (l : List Nat) (h : ∀ b ∈ l, b < 256) (i : Nat) : l.getD i 0 < 256 := by
  rw [List.getD_eq_getElem?_getD]
  rcases hi : l[i]? with _ | b
  · simp
  · simp only [Option.getD_some]
    exact h b (List.mem_iff_getElem?.2 ⟨i, hi⟩)

theorem GetCell_range {s : CBF} (h : s.WF) (i : Nat) :
    0 ≤ s.GetCell i ∧ s.GetCell i ≤ s.max_counter := by
  unfold CBF.GetCell CBF.max_counter
  rcases h.cell_size with hc | hc
  · rw [if_pos hc, if_pos hc]
    have := getD_lt_of_bytes s.filter h.filter_bytes i
    omega
  · have h1 := getD_lt_of_bytes s.filter h.filter_bytes (wrapUInt32 (2 * i))
    have h2 := getD_lt_of_bytes s.filter h.filter_bytes (wrapUInt32 (wrapUInt32 (2 * i) + 1))
    have hne : ¬ s.cell_size = 1 := by omega
    rw [if_neg hne, if_pos hc, if_neg hne, byte_fold _ _ h2]
    omega

/-- For a valid multiplicity `SetCell` returns normally, and the state it
returns is the old one with new `filter` and `overflows` buffers. -/
theorem SetCell_eq {s : CBF} (h : s.WF) (i : Nat) (m : Int) (h0 : 0 ≤ m)
    (h1 : m ≤ s.max_counter) :
    s.SetCell i m = Except.ok { s with
      filter :=
        if s.cell_size = 1 then
          s.filter.set i (toBYTE (min s.max_counter (s.GetCell i + m)))
        else
          (s.filter.set (wrapUInt32 (2 * i))
            (toBYTE (min s.max_counter (s.GetCell i + m) >>> (8 : Nat)))).set
            (wrapUInt32 (wrapUInt32 (2 * i) + 1)) (toBYTE (min s.max_counter (s.GetCell i + m)))
      overflows :=
        if s.GetCell i + m > s.max_counter then
          s.overflows.set i
            (wrapInt32 (s.overflows.getD i 0 + (s.GetCell i + m - s.max_counter)))
        else s.overflows } := by
  have hr := GetCell_range h i
  have hmax : s.max_counter = 255 ∨ s.max_counter = 65535 := by
    unfold CBF.max_counter; split <;> simp
  have hw1 : wrapInt32 (s.GetCell i + m) = s.GetCell i + m :=
    wrapInt32_id _ (by omega) (by omega)
  have hw2 : wrapInt32 (s.GetCell i + m - s.max_counter) = s.GetCell i + m - s.max_counter :=
    wrapInt32_id _ (by omega) (by omega)
  have hv : ¬ (m > s.max_counter ∨ m < 0) := by omega
  unfold CBF.SetCell
  have hmc : (if s.cell_size = 1 then (255 : Int) else 65535) = s.max_counter := rfl
  simp only [hmc]
  rw [if_neg hv, hw1, hw2]
  have hpos : (s.GetCell i + m - s.max_counter > 0) = (s.GetCell i + m > s.max_counter) := by
    apply propext; constructor <;> intro _ <;> omega
  simp only [hpos]
  rcases h.cell_size with hc | hc
  · simp only [hc, if_true]
  · have hne : ¬ s.cell_size = 1 := by omega
    simp only [if_neg hne, if_pos hc]

theorem getD_set {α : Type} (l : List α) (i j : Nat) (a d : α) :
    (l.set i a).getD j d = if i = j ∧ i < l.length then a else l.getD j d := by
  simp only [List.getD_eq_getElem?_getD, List.getElem?_set]
  by_cases hij : i = j
  · subst hij
    by_cases hl : i < l.length
    · simp [hl]
    · simp [hl, List.getElem?_eq_none (Nat.le_of_not_lt hl)]
  · simp [hij]

theorem mem_set_bytes (l : List Nat) (h : ∀ b ∈ l, b < 256) (i a : Nat) (ha : a < 256) :
    ∀ b ∈ l.set i a, b < 256 := by
  intro b hb
  rcases List.mem_or_eq_of_mem_set hb with hb | hb
  · exact h b hb
  · omega

theorem toBYTE_lt (x : Int) : toBYTE x < 256 := by
  unfold toBYTE; omega

/-- The value read back from cell `i` after `SetCell` on cell `i`. -/
theorem SetCell_GetCell_same {s s1 : CBF} (h : s.WF) (i : Nat) (hi : (i : Int) < s.cells)
    (m : Int) (h0 : 0 ≤ m) (h1 : m ≤ s.max_counter) (hs : s.SetCell i m = Except.ok s1) :
    s1.GetCell i = min s.max_counter (s.GetCell i + m) := by
  rw [SetCell_eq h i m h0 h1] at hs
  injection hs with hs
  subst hs
  obtain ⟨n, hn, hn2, hn3, hno, hf1, hf2⟩ := WF_cells_nat h
  have hin : i < n := by omega
  have hr := GetCell_range h i
  have hmax : s.max_counter = 255 ∨ s.max_counter = 65535 := by
    unfold CBF.max_counter; split <;> simp
  generalize hv : min s.max_counter (s.GetCell i + m) = v
  have hv0 : 0 ≤ v := by omega
  have hv1 : v ≤ s.max_counter := by omega
  rcases h.cell_size with hc | hc
  · have hm255 : s.max_counter = 255 := by unfold CBF.max_counter; simp [hc]
    unfold CBF.GetCell
    simp only [hc, if_true]
    rw [getD_set, if_pos ⟨rfl, by rw [hf1 hc]; exact hin⟩, toBYTE_lo v hv0]
    omega
  · have hne : ¬ s.cell_size = 1 := by omega
    have hm : s.max_counter = 65535 := by unfold CBF.max_counter; simp [hne]
    have ha : wrapUInt32 (2 * i) = 2 * i := wrapUInt32_id _ (by omega)
    have hb : wrapUInt32 (2 * i + 1) = 2 * i + 1 := wrapUInt32_id _ (by omega)
    unfold CBF.GetCell
    simp only [if_neg hne, if_pos hc, ha, hb]
    rw [getD_set, if_neg (by omega), getD_set, if_pos ⟨rfl, by rw [hf2 hc]; omega⟩,
      getD_set, if_pos ⟨rfl, by rw [List.length_set, hf2 hc]; omega⟩,
      byte_fold _ _ (toBYTE_lt _), toBYTE_hi v hv0 (by omega), toBYTE_lo v hv0]
    omega

/-- A `SetCell` on cell `i` leaves the value read from any other cell. -/
theorem SetCell_GetCell_other {s s1 : CBF} (h : s.WF) (i : Nat) (hi : (i : Int) < s.cells)
    (m : Int) (h0 : 0 ≤ m) (h1 : m ≤ s.max_counter) (hs : s.SetCell i m = Except.ok s1)
    (j : Nat) (hj : (j : Int) < s.cells) (hij : j ≠ i) :
    s1.GetCell j = s.GetCell j := by
  rw [SetCell_eq h i m h0 h1] at hs
  injection hs with hs
  subst hs
  obtain ⟨n, hn, hn2, hn3, hno, hf1, hf2⟩ := WF_cells_nat h
  have hin : i < n := by omega
  have hjn : j < n := by omega
  rcases h.cell_size with hc | hc
  · unfold CBF.GetCell
    simp only [hc, if_true]
    rw [getD_set, if_neg (by omega)]
  · have hne : ¬ s.cell_size = 1 := by omega
    have ha : wrapUInt32 (2 * i) = 2 * i := wrapUInt32_id _ (by omega)
    have hb : wrapUInt32 (2 * i + 1) = 2 * i + 1 := wrapUInt32_id _ (by omega)
    have ha2 : wrapUInt32 (2 * j) = 2 * j := wrapUInt32_id _ (by omega)
    have hb2 : wrapUInt32 (2 * j + 1) = 2 * j + 1 := wrapUInt32_id _ (by omega)
    unfold CBF.GetCell
    simp only [if_neg hne, if_pos hc, ha, hb, ha2, hb2]
    rw [getD_set, if_neg (by omega), getD_set, if_neg (by omega),
      getD_set, if_neg (by omega), getD_set, if_neg (by omega)]

/-- A `SetCell` keeps a state well formed. -/
theorem SetCell_WF {s s1 : CBF} (h : s.WF) (i : Nat)
    (m : Int) (h0 : 0 ≤ m) (h1 : m ≤ s.max_counter) (hs : s.SetCell i m = Except.ok s1) :
    s1.WF := by
  rw [SetCell_eq h i m h0 h1] at hs
  injection hs with hs
  subst hs
  refine ⟨h.cell_size, h.bit_mapping_pos, h.bit_mapping_le, h.cells, h.size, h.size_le,
    ?_, ?_, ?_, h.HASH_number_pos, h.HASH_number_le, ?_, h.members_int, h.unique_members_int⟩
  rotate_right
  · show ∀ v ∈ (ite _ _ _ : List Int), INT_MIN ≤ v ∧ v ≤ INT_MAX
    split
    · intro v hv
      rcases List.mem_or_eq_of_mem_set hv with hv | hv
      · exact h.overflows_int v hv
      · rw [hv]; exact wrapInt32_range _
    · exact h.overflows_int
  · show ((ite _ _ _ : List Nat).length : Int) = s.size
    split
    · rw [List.length_set]; exact h.filter_length
    · rw [List.length_set, List.length_set]; exact h.filter_length
  · show ∀ b ∈ (ite _ _ _ : List Nat), b < 256
    split
    · exact mem_set_bytes _ h.filter_bytes _ _ (toBYTE_lt _)
    · exact mem_set_bytes _ (mem_set_bytes _ h.filter_bytes _ _ (toBYTE_lt _)) _ _ (toBYTE_lt _)
  · show ((ite _ _ _ : List Int).length : Int) = s.cells
    split
    · rw [List.length_set]; exact h.overflows_length
    · exact h.overflows_length

/-! ## The round loops -/

theorem CBF.SameConfig.refl (s : CBF) : s.SameConfig s :=
  ⟨rfl, rfl, rfl, rfl, rfl, rfl, rfl, rfl, rfl, rfl⟩

theorem CBF.SameConfig.trans {s s1 s2 : CBF} (h1 : s.SameConfig s1) (h2 : s1.SameConfig s2) :
    s.SameConfig s2 :=
  ⟨h2.HASH_salt.trans h1.HASH_salt, h2.bit_mapping.trans h1.bit_mapping,
    h2.cells.trans h1.cells, h2.cell_size.trans h1.cell_size, h2.size.trans h1.size,
    h2.HASH_family.trans h1.HASH_family, h2.HASH_number.trans h1.HASH_number,
    h2.HASH_digest_length.trans h1.HASH_digest_length,
    h2.MULTIPLICITY_max.trans h1.MULTIPLICITY_max, h2.BIG_end.trans h1.BIG_end⟩

theorem CBF.SameConfig.max_counter {s s1 : CBF} (h : s.SameConfig s1) :
    s1.max_counter = s.max_counter := by
  unfold CBF.max_counter; rw [h.cell_size]

/-- The cell index of a round depends on the configuration only. -/
theorem CBF.SameConfig.digest_index {s s1 : CBF} (h : s.SameConfig s1) (env : Env)
    (string : List Nat) (k : Nat) :
    CBF.Insert.digest_index env s1 string k = CBF.Insert.digest_index env s string k := by
  unfold CBF.Insert.digest_index CBF.Hash
  rw [h.HASH_salt, h.HASH_family, h.BIG_end, h.bit_mapping]

/-- The round loops of `Insert` and `Check` compute the same cell index. -/
theorem Check_digest_index_eq (env : Env) (s : CBF) (string : List Nat) (k : Nat) :
    CBF.Check.digest_index env s string k = CBF.Insert.digest_index env s string k := rfl

/-- The cell index of a round is inside the filter. -/
theorem digest_index_lt {s : CBF} (h : s.WF) (env : Env) (string : List Nat) (k : Nat) :
    ((CBF.Insert.digest_index env s string k : Nat) : Int) < s.cells := by
  have key : ∀ x : Nat, ((wrapUInt32 x >>> (MAX_BIT_MAPPING - s.bit_mapping).toNat : Nat) : Int)
      < s.cells := by
    intro x
    have hp := h.bit_mapping_pos
    have hl := h.bit_mapping_le
    rw [h.cells]
    unfold wrapUInt32 MAX_BIT_MAPPING
    rw [Nat.shiftRight_eq_div_pow]
    obtain ⟨n, hn⟩ : ∃ n : Nat, s.bit_mapping = n := ⟨s.bit_mapping.toNat, by omega⟩
    rw [hn]
    have h32 : ((32 : Int) - n).toNat = 32 - n := by omega
    rw [h32]; simp only [Int.toNat_ofNat]
    have hn32 : n ≤ 32 := by omega
    have hlt : x % 4294967296 / 2 ^ (32 - n) < 2 ^ n := by
      rw [Nat.div_lt_iff_lt_mul (by positivity)]
      have hpow : 2 ^ n * 2 ^ (32 - n) = 4294967296 := by
        rw [← pow_add]
        have : n + (32 - n) = 32 := by omega
        rw [this]; norm_num
      rw [hpow]; exact Nat.mod_lt _ (by norm_num)
    exact_mod_cast hlt
  unfold CBF.Insert.digest_index
  simp only
  split
  · exact key _
  · exact key _

theorem SetCell_SameConfig {s s1 : CBF} (h : s.WF) (i : Nat)
    (m : Int) (h0 : 0 ≤ m) (h1 : m ≤ s.max_counter) (hs : s.SetCell i m = Except.ok s1) :
    s.SameConfig s1 ∧ s1.members = s.members ∧ s1.unique_members = s.unique_members := by
  rw [SetCell_eq h i m h0 h1] at hs
  injection hs with hs
  subst hs
  exact ⟨⟨rfl, rfl, rfl, rfl, rfl, rfl, rfl, rfl, rfl, rfl⟩, rfl, rfl⟩

/-- A `SetCell` fails exactly for a multiplicity outside `[0, max_counter]`, and then with
`std::invalid_argument`. -/
theorem SetCell_error (s : CBF) (i : Nat) (m : Int) (hm : m < 0 ∨ s.max_counter < m) :
    s.SetCell i m = Except.error (Exception.invalid_argument, s) := by
  unfold CBF.SetCell
  have hmc : (if s.cell_size = 1 then (255 : Int) else 65535) = s.max_counter := rfl
  simp only [hmc]
  rw [if_pos (by omega)]

theorem SetCell_ok {s : CBF} (h : s.WF) (i : Nat) (m : Int) (h0 : 0 ≤ m)
    (h1 : m ≤ s.max_counter) : ∃ s1, s.SetCell i m = Except.ok s1 :=
  ⟨_, SetCell_eq h i m h0 h1⟩

theorem SetCell_GetCell_le {s s1 : CBF} (h : s.WF) (i : Nat) (hi : (i : Int) < s.cells)
    (m : Int) (h0 : 0 ≤ m) (h1 : m ≤ s.max_counter) (hs : s.SetCell i m = Except.ok s1)
    (j : Nat) (hj : (j : Int) < s.cells) : s.GetCell j ≤ s1.GetCell j := by
  by_cases hij : j = i
  · subst hij
    rw [SetCell_GetCell_same h j hi m h0 h1 hs]
    have := GetCell_range h j
    omega
  · rw [SetCell_GetCell_other h i hi m h0 h1 hs j hj hij]

/-- The round loop of `Insert` for a valid multiplicity: it returns normally,
keeps the configuration, never lowers a cell and leaves at least the
multiplicity in the cell of every round it ran. -/
theorem Insert_rounds_spec (env : Env) (string : List Nat) (m : Int) (ks : List Nat) :
    ∀ s : CBF, s.WF → 0 ≤ m → m ≤ s.max_counter →
    ∃ s1, CBF.Insert.rounds env string m ks s = Except.ok s1 ∧ s1.WF ∧ s.SameConfig s1 ∧
      s1.members = s.members ∧ s1.unique_members = s.unique_members ∧
      (∀ j : Nat, (j : Int) < s.cells → s.GetCell j ≤ s1.GetCell j) ∧
      (∀ k ∈ ks, m ≤ s1.GetCell (CBF.Insert.digest_index env s string k)) := by
  induction ks with
  | nil =>
    intro s h _ _
    exact ⟨s, rfl, h, CBF.SameConfig.refl s, rfl, rfl, fun _ _ => le_refl _, by simp⟩
  | cons k ks ih =>
    intro s h h0 h1
    obtain ⟨s1, hs1⟩ := SetCell_ok h (CBF.Insert.digest_index env s string k) m h0 h1
    have hlt := digest_index_lt h env string k
    have hwf1 := SetCell_WF h _ m h0 h1 hs1
    obtain ⟨hc1, hm1, hu1⟩ := SetCell_SameConfig h _ m h0 h1 hs1
    obtain ⟨s2, hs2, hwf2, hc2, hm2, hu2, hmono, hge⟩ :=
      ih s1 hwf1 h0 (by rw [hc1.max_counter]; exact h1)
    refine ⟨s2, ?_, hwf2, hc1.trans hc2, hm2.trans hm1, hu2.trans hu1, ?_, ?_⟩
    · simp only [CBF.Insert.rounds, hs1, hs2]
    · intro j hj
      exact le_trans (SetCell_GetCell_le h _ hlt m h0 h1 hs1 j hj)
        (hmono j (by rw [hc1.cells]; exact hj))
    · intro k' hk'
      rcases List.mem_cons.1 hk' with rfl | hk'
      · have hsame := SetCell_GetCell_same h _ hlt m h0 h1 hs1
        have hr := GetCell_range h (CBF.Insert.digest_index env s string k')
        have := hmono (CBF.Insert.digest_index env s string k') (by rw [hc1.cells]; exact hlt)
        omega
      · have := hge k' hk'
        rwa [hc1.digest_index] at this

/-! ## Construction -/

/-- What a successful construction establishes: the state is well formed, the
buffers are zeroed and both aggregate counters are `0`. -/
theorem construct_spec {env : Env} {bit_mapping HASH_family HASH_number MULTIPLICITY_max : Int}
    {salt_path : String} {forced_cell_size : Int} {s : CBF}
    (h : CBF.construct env bit_mapping HASH_family HASH_number MULTIPLICITY_max salt_path
      forced_cell_size = Except.ok s) :
    s.WF ∧ (∀ b ∈ s.filter, b = 0) ∧ (∀ v ∈ s.overflows, v = 0) ∧
      s.members = 0 ∧ s.unique_members = 0 ∧
      s.bit_mapping = bit_mapping ∧ s.HASH_number = HASH_number ∧
      s.HASH_family = HASH_family ∧ s.MULTIPLICITY_max = MULTIPLICITY_max := by
  unfold CBF.construct at h
  by_cases hbm : bit_mapping ≤ 0 ∨ bit_mapping > MAX_BIT_MAPPING
  · rw [if_pos hbm] at h; exact absurd h (by simp)
  rw [if_neg hbm] at h
  by_cases hmm : MULTIPLICITY_max ≤ 0 ∨ MULTIPLICITY_max > MAX_MULTIPLICITY
  · rw [if_pos hmm] at h; exact absurd h (by simp)
  rw [if_neg hmm] at h
  by_cases hhn : HASH_number ≤ 0 ∨ HASH_number > MAX_HASH_NUMBER
  · rw [if_pos hhn] at h; exact absurd h (by simp)
  rw [if_neg hhn] at h
  by_cases hsp : salt_path.length = 0
  · rw [if_pos hsp] at h; exact absurd h (by simp)
  rw [if_neg hsp] at h
  by_cases hfc : forced_cell_size > 0 ∧ forced_cell_size > 2
  · rw [if_pos hfc] at h; exact absurd h (by simp)
  rw [if_neg hfc] at h
  simp only at h
  generalize hcs : (if forced_cell_size > 0 then forced_cell_size
      else if MULTIPLICITY_max ≤ 255 then 1 else 2) = cs at h
  split at h
  · exact absurd h (by simp)
  simp only [MAX_BIT_MAPPING, MAX_MULTIPLICITY, MAX_HASH_NUMBER] at hbm hmm hhn
  obtain ⟨n, hn⟩ : ∃ n : Nat, bit_mapping = n := ⟨bit_mapping.toNat, by omega⟩
  subst hn
  rw [Int.toNat_ofNat] at h
  have hn1 : 1 ≤ n := by omega
  have h2 : 2 ≤ 2 ^ n := by
    calc 2 = 2 ^ 1 := by norm_num
      _ ≤ 2 ^ n := Nat.pow_le_pow_right (by norm_num) hn1
  have hcs12 : cs = 1 ∨ cs = 2 := by
    rw [← hcs]
    split
    · omega
    · split <;> simp
  by_cases hsize : wrapInt32 (cs * double_to_int (2 ^ n)) < 0
  · rw [if_pos hsize] at h; exact absurd h (by simp)
  rw [if_neg hsize] at h
  by_cases hcells : double_to_int (2 ^ n) < 0
  · rw [if_pos hcells] at h; exact absurd h (by simp)
  rw [if_neg hcells] at h
  have hcn : double_to_int (2 ^ n) = ((2 ^ n : Nat) : Int) ∧ n ≤ 30 := by
    unfold double_to_int INT_MAX INT_MIN at hcells ⊢
    split at hcells
    · rename_i hle
      refine ⟨by rw [if_pos hle], ?_⟩
      by_contra hcon
      have : 2 ^ 31 ≤ 2 ^ n := Nat.pow_le_pow_right (by norm_num) (by omega)
      have h31 : (2 : Nat) ^ 31 = 2147483648 := by norm_num
      omega
    · omega
  obtain ⟨hce, hn30⟩ := hcn
  have h30 : 2 ^ n ≤ 1073741824 := by
    calc 2 ^ n ≤ 2 ^ 30 := Nat.pow_le_pow_right (by norm_num) hn30
      _ = 1073741824 := by norm_num
  rw [hce] at hsize h
  have hw : wrapInt32 (cs * ((2 ^ n : Nat) : Int)) = cs * ((2 ^ n : Nat) : Int) ∧
      cs * ((2 ^ n : Nat) : Int) ≤ 2147483647 := by
    unfold wrapInt32 at hsize ⊢
    rcases hcs12 with rfl | rfl <;> omega
  obtain ⟨hw, hwle⟩ := hw
  rw [hw] at h
  injection h with h
  subst h
  refine ⟨⟨hcs12, by show (1 : Int) ≤ n; omega, by show (n : Int) ≤ 30; omega, ?_, rfl, hwle,
    ?_, ?_, ?_, by show 1 ≤ HASH_number; omega, by show HASH_number ≤ 1024; omega,
    ?_, by show INT_MIN ≤ (0 : Int) ∧ (0 : Int) ≤ INT_MAX; decide,
    by show INT_MIN ≤ (0 : Int) ∧ (0 : Int) ≤ INT_MAX; decide⟩,
    ?_, ?_, rfl, rfl, rfl, rfl, rfl, rfl⟩
  · show ((2 ^ n : Nat) : Int) = 2 ^ (n : Int).toNat
    simp
  · show ((List.replicate (cs * ((2 ^ n : Nat) : Int)).toNat 0).length : Int) = cs * ((2 ^ n : Nat) : Int)
    rw [List.length_replicate]
    rcases hcs12 with rfl | rfl <;> omega
  · intro b hb
    have : b = 0 := List.eq_of_mem_replicate hb
    omega
  · show ((List.replicate ((2 ^ n : Nat) : Int).toNat 0).length : Int) = ((2 ^ n : Nat) : Int)
    rw [List.length_replicate]; omega
  · intro v hv
    have : v = 0 := List.eq_of_mem_replicate hv
    rw [this]; decide
  · intro b hb; exact List.eq_of_mem_replicate hb
  · intro b hb; exact List.eq_of_mem_replicate hb

/-- A successful `Insert` was given a multiplicity in `[0, max_counter]`. -/
theorem Insert_ok_valid {env : Env} {s s1 : CBF} (h : s.WF) {string : List Nat} {m : Int}
    (hs : s.Insert env string m = Except.ok s1) : 0 ≤ m ∧ m ≤ s.max_counter := by
  by_contra hcon
  have hm : m < 0 ∨ s.max_counter < m := by omega
  obtain ⟨n, hn⟩ : ∃ n : Nat, s.HASH_number.toNat = n + 1 :=
    ⟨s.HASH_number.toNat - 1, by have := h.HASH_number_pos; omega⟩
  unfold CBF.Insert at hs
  rw [hn, List.range_succ_eq_map] at hs
  simp only [CBF.Insert.rounds, SetCell_error s _ m hm] at hs
  exact absurd hs (by simp)

/-- An `Insert` with a valid multiplicity on a well-formed state. -/
theorem Insert_spec (env : Env) {s : CBF} (h : s.WF) (string : List Nat) (m : Int)
    (h0 : 0 ≤ m) (h1 : m ≤ s.max_counter) :
    ∃ s1, s.Insert env string m = Except.ok s1 ∧ s1.WF ∧ s.SameConfig s1 ∧
      s1.members = wrapInt32 (s.members + m) ∧
      s1.unique_members = wrapInt32 (s.unique_members + 1) ∧
      (∀ j : Nat, (j : Int) < s.cells → s.GetCell j ≤ s1.GetCell j) ∧
      (∀ k : Nat, (k : Int) < s.HASH_number →
        m ≤ s1.GetCell (CBF.Insert.digest_index env s string k)) := by
  obtain ⟨s1, hs1, hwf, hc, hm, hu, hmono, hge⟩ :=
    Insert_rounds_spec env string m (List.range s.HASH_number.toNat) s h h0 h1
  refine ⟨{ s1 with unique_members := wrapInt32 (s1.unique_members + 1)
                    members := wrapInt32 (s1.members + m) },
    by simp only [CBF.Insert, hs1], ?_, ?_, ?_, ?_, ?_, ?_⟩
  · exact ⟨hwf.cell_size, hwf.bit_mapping_pos, hwf.bit_mapping_le, hwf.cells, hwf.size,
      hwf.size_le, hwf.filter_length, hwf.filter_bytes, hwf.overflows_length,
      hwf.HASH_number_pos, hwf.HASH_number_le, hwf.overflows_int, wrapInt32_range _,
      wrapInt32_range _⟩
  · exact ⟨hc.HASH_salt, hc.bit_mapping, hc.cells, hc.cell_size, hc.size, hc.HASH_family,
      hc.HASH_number, hc.HASH_digest_length, hc.MULTIPLICITY_max, hc.BIG_end⟩
  · show wrapInt32 (s1.members + m) = _
    rw [hm]
  · show wrapInt32 (s1.unique_members + 1) = _
    rw [hu]
  · intro j hj
    exact hmono j hj
  · intro k hk
    exact hge k (List.mem_range.2 (by omega))

/-! ## Reachable states are well formed -/

theorem Insert_WF {env : Env} {s s1 : CBF} (h : s.WF) {string : List Nat} {m : Int}
    (hs : s.Insert env string m = Except.ok s1) : s1.WF := by
  obtain ⟨h0, h1⟩ := Insert_ok_valid h hs
  obtain ⟨s2, hs2, hwf, _⟩ := Insert_spec env h string m h0 h1
  rw [hs] at hs2
  injection hs2 with hs2
  rw [hs2]; exact hwf

theorem Insert_SameConfig {env : Env} {s s1 : CBF} (h : s.WF) {string : List Nat} {m : Int}
    (hs : s.Insert env string m = Except.ok s1) : s.SameConfig s1 := by
  obtain ⟨h0, h1⟩ := Insert_ok_valid h hs
  obtain ⟨s2, hs2, _, hc, _⟩ := Insert_spec env h string m h0 h1
  rw [hs] at hs2
  injection hs2 with hs2
  rw [hs2]; exact hc

theorem Insert_GetCell_le {env : Env} {s s1 : CBF} (h : s.WF) {string : List Nat} {m : Int}
    (hs : s.Insert env string m = Except.ok s1) (j : Nat) (hj : (j : Int) < s.cells) :
    s.GetCell j ≤ s1.GetCell j := by
  obtain ⟨h0, h1⟩ := Insert_ok_valid h hs
  obtain ⟨s2, hs2, _, _, _, _, hmono, _⟩ := Insert_spec env h string m h0 h1
  rw [hs] at hs2
  injection hs2 with hs2
  rw [hs2]; exact hmono j hj

theorem Reachable.WF {env : Env} {s : CBF} (h : Reachable env s) : s.WF := by
  induction h with
  | fresh _ _ _ _ _ _ s h => exact (construct_spec h).1
  | insert s s1 string m _ _ h ih => exact Insert_WF ih h

theorem InsertAll_WF {env : Env} (calls : List (List Nat × Int)) :
    ∀ {s s1 : CBF}, s.WF → s.InsertAll env calls = Except.ok s1 →
      s1.WF ∧ s.SameConfig s1 ∧ ∀ j : Nat, (j : Int) < s.cells → s.GetCell j ≤ s1.GetCell j := by
  induction calls with
  | nil =>
    intro s s1 h hs
    simp only [CBF.InsertAll] at hs
    injection hs with hs
    subst hs
    exact ⟨h, CBF.SameConfig.refl s, fun _ _ => le_refl _⟩
  | cons c calls ih =>
    intro s s1 h hs
    obtain ⟨string, m⟩ := c
    simp only [CBF.InsertAll] at hs
    split at hs
    · exact absurd hs (by simp)
    · rename_i s2 hs2
      have hwf2 := Insert_WF h hs2
      have hc2 := Insert_SameConfig h hs2
      obtain ⟨hwf1, hc1, hmono⟩ := ih hwf2 hs
      refine ⟨hwf1, hc2.trans hc1, ?_⟩
      intro j hj
      exact le_trans (Insert_GetCell_le h hs2 j hj) (hmono j (by rw [hc2.cells]; exact hj))

/-! ## The round loop of `Check` -/

/-- Lower bound for the round loop of `Check`. -/
theorem Check_rounds_ge (env : Env) (s : CBF) (string : List Nat) (m : Int) (ks : List Nat) :
    ∀ counter : Int, m ≤ counter →
      (∀ k ∈ ks, m ≤ s.GetCell (CBF.Check.digest_index env s string k)) →
      m ≤ CBF.Check.rounds env s string ks counter := by
  induction ks with
  | nil => intro counter hc _; exact hc
  | cons k ks ih =>
    intro counter hc hk
    have h1 := hk k (List.mem_cons_self _ _)
    simp only [CBF.Check.rounds]
    split
    · exact le_min hc h1
    · exact ih _ (le_min hc h1) (fun k' hk' => hk k' (List.mem_cons_of_mem _ hk'))

/-! ## The sample filter -/

set_option maxRecDepth 100000 in
theorem sampleFilter_construct :
    CBF.construct sampleEnv 4 4 2 255 "salts.txt" 0 = Except.ok sampleFilter := by
  decide

theorem sampleFilter_Reachable : Reachable sampleEnv sampleFilter :=
  Reachable.fresh 4 4 2 255 "salts.txt" 0 sampleFilter sampleFilter_construct

/-! ## C1: no under-count -/

/-- C1. In every state reachable from a freshly constructed filter, `Insert`
of an element `e` (of any length, so also of at most 128 bytes) with a
multiplicity `m` in `[0, max_counter]` returns normally, `Check e` then
returns at least `m`, and it still returns at least `m` after any further
sequence of `Insert` calls that return normally, on any elements. -/
theorem C1_no_under_count (env : Env) (s : CBF) (hs : Reachable env s) (e : List Nat)
    (m : Int) (h0 : 0 ≤ m) (h1 : m ≤ s.max_counter) :
    ∃ s1, s.Insert env e m = Except.ok s1 ∧ m ≤ s1.Check env e ∧
      ∀ (calls : List (List Nat × Int)) (s2 : CBF),
        s1.InsertAll env calls = Except.ok s2 → m ≤ s2.Check env e := by
  have hwf := hs.WF
  obtain ⟨s1, hs1, hwf1, hc1, _, _, _, hge⟩ := Insert_spec env hwf e m h0 h1
  have hmax : m ≤ INT_MAX := by
    have : s.max_counter = 255 ∨ s.max_counter = 65535 := by
      unfold CBF.max_counter; split <;> simp
    unfold INT_MAX; omega
  have hcells : ∀ k : Nat, k ∈ List.range s1.HASH_number.toNat →
      m ≤ s1.GetCell (CBF.Check.digest_index env s1 e k) := by
    intro k hk
    rw [Check_digest_index_eq, hc1.digest_index]
    have hk' := List.mem_range.1 hk
    rw [hc1.HASH_number] at hk'
    exact hge k (by omega)
  refine ⟨s1, hs1, Check_rounds_ge env s1 e m _ INT_MAX hmax hcells, ?_⟩
  intro calls s2 hs2
  obtain ⟨hwf2, hc2, hmono⟩ := InsertAll_WF calls hwf1 hs2
  refine Check_rounds_ge env s2 e m _ INT_MAX hmax ?_
  intro k hk
  rw [Check_digest_index_eq, hc2.digest_index]
  have hk' := List.mem_range.1 hk
  rw [hc2.HASH_number] at hk'
  have hlt := digest_index_lt hwf1 env e k
  exact le_trans (hcells k (List.mem_range.2 hk')) (by
    rw [Check_digest_index_eq]; exact hmono _ hlt)

/-- C1 at the sample filter: `Insert` of the element "A" with multiplicity 5. -/
theorem C1_no_under_count_witness :
    ∃ s1, sampleFilter.Insert sampleEnv [65] 5 = Except.ok s1 ∧ 5 ≤ s1.Check sampleEnv [65] ∧
      ∀ (calls : List (List Nat × Int)) (s2 : CBF),
        s1.InsertAll sampleEnv calls = Except.ok s2 → 5 ≤ s2.Check sampleEnv [65] :=
  C1_no_under_count sampleEnv sampleFilter sampleFilter_Reachable [65] 5 (by decide) (by decide)

/-! ## C2: `Check` returns the minimum over the rounds -/

theorem foldl_min_zero (vs : List Int) (h : ∀ v ∈ vs, 0 ≤ v) : vs.foldl min 0 = 0 := by
  induction vs with
  | nil => rfl
  | cons v vs ih =>
    have hv := h v (List.mem_cons_self _ _)
    rw [List.foldl_cons, min_eq_left hv]
    exact ih (fun w hw => h w (List.mem_cons_of_mem _ hw))

theorem foldl_min_le (vs : List Int) : ∀ c : Int, vs.foldl min c ≤ c ∧
    ∀ v ∈ vs, vs.foldl min c ≤ v := by
  induction vs with
  | nil => intro c; exact ⟨le_refl _, by simp⟩
  | cons v vs ih =>
    intro c
    obtain ⟨h1, h2⟩ := ih (min c v)
    rw [List.foldl_cons]
    refine ⟨le_trans h1 (min_le_left _ _), ?_⟩
    intro w hw
    rcases List.mem_cons.1 hw with rfl | hw
    · exact le_trans h1 (min_le_right _ _)
    · exact h2 w hw

theorem foldl_min_mem (vs : List Int) : ∀ c : Int, vs.foldl min c = c ∨ vs.foldl min c ∈ vs := by
  induction vs with
  | nil => intro c; exact Or.inl rfl
  | cons v vs ih =>
    intro c
    rw [List.foldl_cons]
    rcases ih (min c v) with h | h
    · rcases min_choice c v with hc | hc
      · left; rw [h, hc]
      · right; rw [h, hc]; exact List.mem_cons_self _ _
    · right; exact List.mem_cons_of_mem _ h

/-- The round loop of `Check`, with its early exit, computes the running
minimum over all the rounds when no cell reads below `0`. -/
theorem Check_rounds_eq_foldl (env : Env) (s : CBF) (string : List Nat) (ks : List Nat)
    (h : ∀ k ∈ ks, 0 ≤ s.GetCell (CBF.Check.digest_index env s string k)) :
    ∀ counter : Int, CBF.Check.rounds env s string ks counter =
      (ks.map fun k => s.GetCell (CBF.Check.digest_index env s string k)).foldl min counter := by
  induction ks with
  | nil => intro counter; rfl
  | cons k ks ih =>
    intro counter
    have ih' := ih (fun k' hk' => h k' (List.mem_cons_of_mem _ hk'))
    simp only [CBF.Check.rounds, List.map_cons, List.foldl_cons]
    split
    · rename_i h0
      rw [h0, foldl_min_zero]
      intro v hv
      obtain ⟨k', hk', rfl⟩ := List.mem_map.1 hv
      exact h k' (List.mem_cons_of_mem _ hk')
    · exact ih' _

/-- C2. In a well-formed filter state, for every element, `Check` returns the
minimum of `GetCell` over the cell indices of all the rounds `k` in
`[0, HASH_number)`: the loop with the early exit returns the value of the
full minimum, which is below the cell of every round and is the cell of some
round; and `Check` returns `0` as soon as the cell of one round reads `0`. -/
theorem C2_check_is_minimum (env : Env) (s : CBF) (hwf : s.WF) (e : List Nat) :
    s.Check env e = s.Check_minimum env e ∧
    (∀ k : Nat, (k : Int) < s.HASH_number →
      s.Check env e ≤ s.GetCell (CBF.Check.digest_index env s e k)) ∧
    (∃ k : Nat, (k : Int) < s.HASH_number ∧
      s.Check env e = s.GetCell (CBF.Check.digest_index env s e k)) ∧
    ((∃ k : Nat, (k : Int) < s.HASH_number ∧
      s.GetCell (CBF.Check.digest_index env s e k) = 0) → s.Check env e = 0) := by
  have heq : s.Check env e = s.Check_minimum env e :=
    Check_rounds_eq_foldl env s e _ (fun k _ => (GetCell_range hwf _).1) INT_MAX
  have hle : ∀ k : Nat, (k : Int) < s.HASH_number →
      s.Check env e ≤ s.GetCell (CBF.Check.digest_index env s e k) := by
    intro k hk
    rw [heq]
    exact (foldl_min_le _ INT_MAX).2 _
      (List.mem_map.2 ⟨k, List.mem_range.2 (by omega), rfl⟩)
  have hpos := hwf.HASH_number_pos
  refine ⟨heq, hle, ?_, ?_⟩
  · rcases foldl_min_mem ((List.range s.HASH_number.toNat).map fun k =>
      s.GetCell (CBF.Check.digest_index env s e k)) INT_MAX with h | h
    · exfalso
      have h0 := hle 0 (by omega)
      have hr := (GetCell_range hwf (CBF.Check.digest_index env s e 0)).2
      have hmax : s.max_counter = 255 ∨ s.max_counter = 65535 := by
        unfold CBF.max_counter; split <;> simp
      rw [heq] at h0
      unfold CBF.Check_minimum at h0
      rw [h] at h0
      unfold INT_MAX at h0
      omega
    · obtain ⟨k, hk, hkv⟩ := List.mem_map.1 h
      refine ⟨k, by have := List.mem_range.1 hk; omega, ?_⟩
      rw [heq]; exact hkv.symm
  · rintro ⟨k, hk, hz⟩
    have h1 := hle k hk
    have h2 : 0 ≤ s.Check env e :=
      Check_rounds_ge env s e 0 _ INT_MAX (by decide) (fun k _ => (GetCell_range hwf _).1)
    omega

/-- C2 at the sample filter and the element "A". -/
theorem C2_check_is_minimum_witness :
    sampleFilter.Check sampleEnv [65] = sampleFilter.Check_minimum sampleEnv [65] ∧
    (∀ k : Nat, (k : Int) < sampleFilter.HASH_number →
      sampleFilter.Check sampleEnv [65] ≤
        sampleFilter.GetCell (CBF.Check.digest_index sampleEnv sampleFilter [65] k)) ∧
    (∃ k : Nat, (k : Int) < sampleFilter.HASH_number ∧
      sampleFilter.Check sampleEnv [65] =
        sampleFilter.GetCell (CBF.Check.digest_index sampleEnv sampleFilter [65] k)) ∧
    ((∃ k : Nat, (k : Int) < sampleFilter.HASH_number ∧
      sampleFilter.GetCell (CBF.Check.digest_index sampleEnv sampleFilter [65] k) = 0) →
      sampleFilter.Check sampleEnv [65] = 0) :=
  C2_check_is_minimum sampleEnv sampleFilter sampleFilter_Reachable.WF [65]

/-! ## The sample filter with two-byte cells -/

set_option maxRecDepth 100000 in
theorem wideFilter_construct :
    CBF.construct sampleEnv 1 4 1 65535 "salts.txt" 0 = Except.ok wideFilter := by
  decide

theorem wideSaturated_zero :
    wideFilter.Insert sampleEnv [65] 65535 = Except.ok (wideSaturated 0) := by
  decide

theorem wideSaturated_GetCell (n : Nat) : (wideSaturated n).GetCell 0 = 65535 := by
  simp [CBF.GetCell, wideSaturated, wideFilter, wrapUInt32]
theorem wrapInt32_add_left (a b : Int) : wrapInt32 (wrapInt32 a + b) = wrapInt32 (a + b) := by
  unfold wrapInt32; omega
theorem wideSaturated_SetCell (n : Nat) : (wideSaturated n).SetCell 0 65535 = Except.ok
      { wideSaturated n with overflows := [wrapInt32 (65535 * (n + 1 : Nat)), 0] } := by
    unfold CBF.SetCell
    rw [wideSaturated_GetCell]
    simp only [wideSaturated, wideFilter]
    have h1 : wrapInt32 (65535 + 65535) = 131070 := by decide
    have h2 : wrapInt32 (131070 - 65535) = 65535 := by decide
    have h3 : toBYTE ((65535 : Int) >>> (8 : Nat)) = 255 := by decide
    have h4 : toBYTE (65535 : Int) = 255 := by decide
    have h5 : wrapUInt32 (2 * 0) = 0 := by decide
    have h6 : wrapUInt32 (0 + 1) = 1 := by decide
    have h7 : min (65535 : Int) 131070 = 65535 := by decide
    have h8 : ((2 : Int) = 1) = False := by decide
    simp only [h8, if_false, if_true, h1, h2, h7, h3, h4, h5, h6, wrapInt32_add_left]
    rw [if_neg (by decide : ¬ ((65535 : Int) > 65535 ∨ (65535 : Int) < 0)),
      if_pos (by decide : (65535 : Int) > 0)]
    rw [List.set_cons_zero, List.set_cons_succ, List.set_cons_zero, List.set_cons_zero]
    have h9 : (65535 * (n : Int) + 65535) = 65535 * ((n + 1 : Nat) : Int) := by
      push_cast; ring
    rw [List.getD_cons_zero, wrapInt32_add_left, h9]

theorem wideSaturated_succ (n : Nat) :
    (wideSaturated n).Insert sampleEnv [65] 65535 = Except.ok (wideSaturated (n + 1)) := by
  have hidx : CBF.Insert.digest_index sampleEnv (wideSaturated n) [65] 0 = 0 := by
    have hc : wideFilter.SameConfig (wideSaturated n) :=
      ⟨rfl, rfl, rfl, rfl, rfl, rfl, rfl, rfl, rfl, rfl⟩
    rw [hc.digest_index]; decide
  have hr : List.range (wideSaturated n).HASH_number.toNat = [0] := by
    show List.range (1 : Int).toNat = [0]
    decide
  unfold CBF.Insert
  rw [hr]
  simp only [CBF.Insert.rounds, hidx, wideSaturated_SetCell]
  have hm : wrapInt32 ((wideSaturated n).members + 65535) =
      wrapInt32 (65535 * (((n + 1 : Nat) : Int) + 1)) := by
    show wrapInt32 (wrapInt32 (65535 * ((n : Int) + 1)) + 65535) = _
    rw [wrapInt32_add_left]
    have : 65535 * ((n : Int) + 1) + 65535 = 65535 * (((n + 1 : Nat) : Int) + 1) := by
      push_cast; ring
    rw [this]
  have hu : wrapInt32 ((wideSaturated n).unique_members + 1) =
      wrapInt32 (((n + 1 : Nat) : Int) + 1) := by
    show wrapInt32 (wrapInt32 ((n : Int) + 1) + 1) = _
    rw [wrapInt32_add_left]
    have : (n : Int) + 1 + 1 = ((n + 1 : Nat) : Int) + 1 := by push_cast; ring
    rw [this]
  rw [hm, hu]
  rfl

theorem wideSaturated_Reachable (n : Nat) : Reachable sampleEnv (wideSaturated n) := by
  induction n with
  | zero =>
    exact Reachable.insert wideFilter _ [65] 65535
      (Reachable.fresh 1 4 1 65535 "salts.txt" 0 wideFilter wideFilter_construct)
      (by decide) wideSaturated_zero
  | succ n ih =>
    exact Reachable.insert _ _ [65] 65535 ih (by decide) (wideSaturated_succ n)

/-! ## C3: the effect of `SetCell` on the cell and on the ledger -/

/-- The ledger after `SetCell`. -/
theorem SetCell_overflows {s s1 : CBF} (h : s.WF) (i : Nat) (m : Int) (h0 : 0 ≤ m)
    (h1 : m ≤ s.max_counter) (hs : s.SetCell i m = Except.ok s1) :
    s1.overflows =
      if s.GetCell i + m > s.max_counter then
        s.overflows.set i
          (wrapInt32 (s.overflows.getD i 0 + (s.GetCell i + m - s.max_counter)))
      else s.overflows := by
  rw [SetCell_eq h i m h0 h1] at hs
  injection hs with hs
  subst hs
  rfl

theorem getD_int {l : List Int} (h : ∀ v ∈ l, INT_MIN ≤ v ∧ v ≤ INT_MAX) (i : Nat) :
    INT_MIN ≤ l.getD i 0 ∧ l.getD i 0 ≤ INT_MAX := by
  rw [List.getD_eq_getElem?_getD]
  rcases hi : l[i]? with _ | b
  · simp only [Option.getD_none]; decide
  · simp only [Option.getD_some]
    exact h b (List.mem_iff_getElem?.2 ⟨i, hi⟩)

/-- C3, as the code has it. In a well-formed state, for a cell index
`i < cells` and a multiplicity `m` in `[0, max_counter]`, `SetCell i m`
returns normally, makes `GetCell i` equal to `min max_counter (old + m)` and
stores in `overflows[i]` the 32-bit two's complement reduction of
`overflows[i] + max 0 (old + m - max_counter)`; the entry has grown by exactly
`max 0 (old + m - max_counter)` whenever that sum is at most `INT_MAX`, and
the ledger is untouched when `old + m ≤ max_counter`. -/
theorem C3_set_cell (s : CBF) (hwf : s.WF) (i : Nat) (hi : (i : Int) < s.cells) (m : Int)
    (h0 : 0 ≤ m) (h1 : m ≤ s.max_counter) :
    ∃ s1, s.SetCell i m = Except.ok s1 ∧
      s1.GetCell i = min s.max_counter (s.GetCell i + m) ∧
      s1.overflows.getD i 0 =
        wrapInt32 (s.overflows.getD i 0 + max 0 (s.GetCell i + m - s.max_counter)) ∧
      (s.overflows.getD i 0 + max 0 (s.GetCell i + m - s.max_counter) ≤ INT_MAX →
        s1.overflows.getD i 0 =
          s.overflows.getD i 0 + max 0 (s.GetCell i + m - s.max_counter)) ∧
      (s.GetCell i + m ≤ s.max_counter → s1.overflows = s.overflows) := by
  obtain ⟨s1, hs1⟩ := SetCell_ok hwf i m h0 h1
  have hov := SetCell_overflows hwf i m h0 h1 hs1
  obtain ⟨n, hn, _, _, hno, _, _⟩ := WF_cells_nat hwf
  have hil : i < s.overflows.length := by omega
  have hr := getD_int hwf.overflows_int i
  unfold INT_MIN INT_MAX at hr
  have hwrap : s1.overflows.getD i 0 =
      wrapInt32 (s.overflows.getD i 0 + max 0 (s.GetCell i + m - s.max_counter)) := by
    rw [hov]
    split
    · rename_i hgt
      rw [getD_set, if_pos ⟨rfl, hil⟩, max_eq_right (by omega)]
    · rename_i hle
      rw [max_eq_left (by omega), add_zero, wrapInt32_id _ hr.1 hr.2]
  refine ⟨s1, hs1, SetCell_GetCell_same hwf i hi m h0 h1 hs1, hwrap, ?_, ?_⟩
  · intro hfit
    rw [hwrap]
    have hge : 0 ≤ max 0 (s.GetCell i + m - s.max_counter) := le_max_left _ _
    unfold INT_MAX at hfit
    exact wrapInt32_id _ (by omega) hfit
  · intro hle
    rw [hov, if_neg (by omega)]

/-- C3 at the sample filter: `SetCell` on cell 4 with multiplicity 5. -/
theorem C3_set_cell_witness :
    ∃ s1, sampleFilter.SetCell 4 5 = Except.ok s1 ∧
      s1.GetCell 4 = min sampleFilter.max_counter (sampleFilter.GetCell 4 + 5) ∧
      s1.overflows.getD 4 0 =
        wrapInt32 (sampleFilter.overflows.getD 4 0 +
          max 0 (sampleFilter.GetCell 4 + 5 - sampleFilter.max_counter)) ∧
      (sampleFilter.overflows.getD 4 0 +
          max 0 (sampleFilter.GetCell 4 + 5 - sampleFilter.max_counter) ≤ INT_MAX →
        s1.overflows.getD 4 0 =
          sampleFilter.overflows.getD 4 0 +
            max 0 (sampleFilter.GetCell 4 + 5 - sampleFilter.max_counter)) ∧
      (sampleFilter.GetCell 4 + 5 ≤ sampleFilter.max_counter →
        s1.overflows = sampleFilter.overflows) :=
  C3_set_cell sampleFilter sampleFilter_Reachable.WF 4 (by decide) 5 (by decide) (by decide)

/-- C3 fails as it is stated. The state `wideSaturated 32768` is reached from
a freshly constructed filter with two-byte cells by 32769 calls
`Insert("A", 65535)`; its cell 0 holds `65535` and its ledger entry
`2147450880`. `SetCell(0, 65535)` has `65535` to add to the entry; the sum
`2147516415` is not an `int`, and the entry becomes `-2147450881`. -/
theorem C3_counterexample :
    Reachable sampleEnv (wideSaturated 32768) ∧
    (wideSaturated 32768).cells = 2 ∧
    (wideSaturated 32768).max_counter = 65535 ∧
    (wideSaturated 32768).GetCell 0 = 65535 ∧
    (wideSaturated 32768).overflows.getD 0 0 = 2147450880 ∧
    ∃ s1, (wideSaturated 32768).SetCell 0 65535 = Except.ok s1 ∧
      s1.overflows.getD 0 0 = -2147450881 ∧
      s1.overflows.getD 0 0 ≠ (wideSaturated 32768).overflows.getD 0 0 +
        max 0 ((wideSaturated 32768).GetCell 0 + 65535 - (wideSaturated 32768).max_counter) :=
  ⟨wideSaturated_Reachable 32768, by decide, by decide, by decide, by decide,
    _, wideSaturated_SetCell 32768, by decide, by decide⟩

/-! ## C4, C5: validation of the multiplicity -/

/-- In any state, `SetCell` with a multiplicity in `[0, max_counter]` returns
normally and keeps `cell_size`. -/
theorem SetCell_valid (s : CBF) (i : Nat) (m : Int) (h0 : 0 ≤ m) (h1 : m ≤ s.max_counter) :
    ∃ s1, s.SetCell i m = Except.ok s1 ∧ s1.cell_size = s.cell_size := by
  unfold CBF.SetCell
  have hmc : (if s.cell_size = 1 then (255 : Int) else 65535) = s.max_counter := rfl
  simp only [hmc]
  rw [if_neg (by omega)]
  exact ⟨_, rfl, rfl⟩

/-- In any state, the round loop of `Insert` with a multiplicity in
`[0, max_counter]` returns normally. -/
theorem Insert_rounds_valid (env : Env) (string : List Nat) (m : Int) (h0 : 0 ≤ m)
    (ks : List Nat) :
    ∀ s : CBF, m ≤ s.max_counter → ∃ s1, CBF.Insert.rounds env string m ks s = Except.ok s1 := by
  induction ks with
  | nil => intro s _; exact ⟨s, rfl⟩
  | cons k ks ih =>
    intro s h1
    obtain ⟨s1, hs1, hc⟩ := SetCell_valid s (CBF.Insert.digest_index env s string k) m h0 h1
    obtain ⟨s2, hs2⟩ := ih s1 (by unfold CBF.max_counter at h1 ⊢; rw [hc]; exact h1)
    exact ⟨s2, by simp only [CBF.Insert.rounds, hs1, hs2]⟩

/-- In any state, a round loop of `Insert` that throws does so in the first
round it runs: the exception is `std::invalid_argument`, the multiplicity is
outside `[0, max_counter]` and the state is the one the loop started in. -/
theorem Insert_rounds_error (env : Env) (string : List Nat) (m : Int) (ks : List Nat)
    (s : CBF) (ex : Exception) (s1 : CBF)
    (h : CBF.Insert.rounds env string m ks s = Except.error (ex, s1)) :
    ex = Exception.invalid_argument ∧ s1 = s ∧ (m < 0 ∨ s.max_counter < m) := by
  cases ks with
  | nil => simp [CBF.Insert.rounds] at h
  | cons k ks =>
    by_cases hv : m < 0 ∨ s.max_counter < m
    · simp only [CBF.Insert.rounds, SetCell_error s _ m hv] at h
      injection h with h
      injection h with h1 h2
      exact ⟨h1.symm, h2.symm, hv⟩
    · exfalso
      obtain ⟨s2, hs2⟩ := Insert_rounds_valid env string m (by omega) (k :: ks) s (by omega)
      rw [hs2] at h
      exact absurd h (by simp)

/-- In any state, an `Insert` that throws leaves the filter as it was. -/
theorem Insert_error (env : Env) (s : CBF) (string : List Nat) (m : Int)
    (ex : Exception) (s1 : CBF) (h : s.Insert env string m = Except.error (ex, s1)) :
    ex = Exception.invalid_argument ∧ s1 = s ∧ (m < 0 ∨ s.max_counter < m) := by
  unfold CBF.Insert at h
  split at h
  · rename_i e he
    injection h with h
    subst h
    exact Insert_rounds_error env string m _ s ex s1 he
  · exact absurd h (by simp)

/-- C4. In a well-formed state, `Insert e m` throws `std::invalid_argument`
if and only if `m < 0` or `m > max_counter`; every `m` in `[0, max_counter]`
is accepted, whatever the cells hold; and an `Insert` that throws leaves the
whole state, so the cell array, the ledger, `members` and `unique_members`,
as it was. -/
theorem C4_insert_validation (env : Env) (s : CBF) (hwf : s.WF) (e : List Nat) (m : Int) :
    ((∃ s1, s.Insert env e m = Except.error (Exception.invalid_argument, s1)) ↔
      (m < 0 ∨ s.max_counter < m)) ∧
    (0 ≤ m → m ≤ s.max_counter → ∃ s1, s.Insert env e m = Except.ok s1) ∧
    (∀ (ex : Exception) (s1 : CBF), s.Insert env e m = Except.error (ex, s1) →
      s1.filter = s.filter ∧ s1.overflows = s.overflows ∧ s1.members = s.members ∧
      s1.unique_members = s.unique_members ∧ s1 = s) := by
  refine ⟨⟨?_, ?_⟩, ?_, ?_⟩
  · rintro ⟨s1, hs1⟩
    exact (Insert_error env s e m _ s1 hs1).2.2
  · intro hv
    refine ⟨s, ?_⟩
    cases hr : s.Insert env e m with
    | error p =>
      obtain ⟨ex, s1⟩ := p
      obtain ⟨h1, h2, _⟩ := Insert_error env s e m ex s1 hr
      rw [h1, h2]
    | ok s1 =>
      have := Insert_ok_valid hwf hr
      omega
  · intro h0 h1
    obtain ⟨s1, hs1, _⟩ := Insert_spec env hwf e m h0 h1
    exact ⟨s1, hs1⟩
  · intro ex s1 hs1
    obtain ⟨_, h2, _⟩ := Insert_error env s e m ex s1 hs1
    subst h2
    exact ⟨rfl, rfl, rfl, rfl, rfl⟩

/-- C4 at the sample filter: the element "A" with multiplicity 256. -/
theorem C4_insert_validation_witness :
    ((∃ s1, sampleFilter.Insert sampleEnv [65] 256 =
        Except.error (Exception.invalid_argument, s1)) ↔
      ((256 : Int) < 0 ∨ sampleFilter.max_counter < 256)) ∧
    ((0 : Int) ≤ 256 → 256 ≤ sampleFilter.max_counter →
      ∃ s1, sampleFilter.Insert sampleEnv [65] 256 = Except.ok s1) ∧
    (∀ (ex : Exception) (s1 : CBF),
      sampleFilter.Insert sampleEnv [65] 256 = Except.error (ex, s1) →
      s1.filter = sampleFilter.filter ∧ s1.overflows = sampleFilter.overflows ∧
      s1.members = sampleFilter.members ∧
      s1.unique_members = sampleFilter.unique_members ∧ s1 = sampleFilter) :=
  C4_insert_validation sampleEnv sampleFilter sampleFilter_Reachable.WF [65] 256

/-- C5, as the code has it. In any state, for any element and multiplicity,
an `Insert` that throws does so with `std::invalid_argument` in its first
round, for a multiplicity outside `[0, max_counter]`, and leaves the filter
as it was: no round has written a cell before the exception. Once the
`SetCell` of one round has returned normally, the rounds after it return
normally too. -/
theorem C5_no_partial_mutation (env : Env) (s : CBF) (e : List Nat) (m : Int) :
    (∀ (ex : Exception) (s1 : CBF), s.Insert env e m = Except.error (ex, s1) →
      ex = Exception.invalid_argument ∧ s1 = s ∧ (m < 0 ∨ s.max_counter < m)) ∧
    (∀ (k : Nat) (ks : List Nat) (s1 : CBF),
      s.SetCell (CBF.Insert.digest_index env s e k) m = Except.ok s1 →
      ∃ s2, CBF.Insert.rounds env e m ks s1 = Except.ok s2) := by
  constructor
  · intro ex s1 h
    unfold CBF.Insert at h
    split at h
    · rename_i p he
      injection h with h
      subst h
      exact Insert_rounds_error env e m _ s ex s1 he
    · exact absurd h (by simp)
  · intro k ks s1 h1
    by_cases hv : m < 0 ∨ s.max_counter < m
    · rw [SetCell_error s _ m hv] at h1
      exact absurd h1 (by simp)
    · obtain ⟨s1', hs1', hc⟩ :=
        SetCell_valid s (CBF.Insert.digest_index env s e k) m (by omega) (by omega)
      rw [hs1'] at h1
      injection h1 with h1
      subst h1
      exact Insert_rounds_valid env e m (by omega) ks s1'
        (by unfold CBF.max_counter at hv ⊢; rw [hc]; omega)

/-- C5 at the sample filter: the element "A" with multiplicity 256 is refused
in round 0 and the filter is as it was. -/
theorem C5_no_partial_mutation_witness :
    sampleFilter.Insert sampleEnv [65] 256 =
        Except.error (Exception.invalid_argument, sampleFilter) ∧
      (Exception.invalid_argument = Exception.invalid_argument ∧ sampleFilter = sampleFilter ∧
        ((256 : Int) < 0 ∨ sampleFilter.max_counter < 256)) :=
  ⟨by decide, (C5_no_partial_mutation sampleEnv sampleFilter [65] 256).1
    Exception.invalid_argument sampleFilter (by decide)⟩

/-- C5 fails as it is stated: there is no environment, state, element and
multiplicity for which `Insert` throws and leaves a state other than the one
it started in; and once a round of `Insert` has returned normally, the rounds
after it never throw. -/
theorem C5_counterexample :
    (¬ ∃ (env : Env) (s : CBF) (e : List Nat) (m : Int) (ex : Exception) (s1 : CBF),
      s.Insert env e m = Except.error (ex, s1) ∧ s1 ≠ s) ∧
    (¬ ∃ (env : Env) (s : CBF) (e : List Nat) (m : Int) (k : Nat) (ks : List Nat)
        (s1 : CBF) (ex : Exception) (s2 : CBF),
      s.SetCell (CBF.Insert.digest_index env s e k) m = Except.ok s1 ∧
      CBF.Insert.rounds env e m ks s1 = Except.error (ex, s2)) := by
  constructor
  · rintro ⟨env, s, e, m, ex, s1, h, hne⟩
    exact hne (Insert_error env s e m ex s1 h).2.1
  · rintro ⟨env, s, e, m, k, ks, s1, ex, s2, h1, h2⟩
    by_cases hv : m < 0 ∨ s.max_counter < m
    · rw [SetCell_error s _ m hv] at h1
      exact absurd h1 (by simp)
    · obtain ⟨s1', hs1', hc⟩ :=
        SetCell_valid s (CBF.Insert.digest_index env s e k) m (by omega) (by omega)
      rw [hs1'] at h1
      injection h1 with h1
      subst h1
      obtain ⟨s3, hs3⟩ := Insert_rounds_valid env e m (by omega) ks s1'
        (by unfold CBF.max_counter at hv ⊢; rw [hc]; omega)
      rw [hs3] at h2
      exact absurd h2 (by simp)

/-! ## Invariants of the reachable states -/

/-- A property that every valid `SetCell` on a well-formed state keeps is kept
by the round loop of `Insert`. -/
theorem Insert_rounds_invariant (P : CBF → Prop)
    (hstep : ∀ (s s1 : CBF) (i : Nat) (m : Int), s.WF → (i : Int) < s.cells → 0 ≤ m →
      m ≤ s.max_counter → P s → s.SetCell i m = Except.ok s1 → P s1)
    (env : Env) (string : List Nat) (m : Int) (h0 : 0 ≤ m) (ks : List Nat) :
    ∀ s s1 : CBF, s.WF → m ≤ s.max_counter → P s →
      CBF.Insert.rounds env string m ks s = Except.ok s1 → P s1 := by
  induction ks with
  | nil =>
    intro s s1 _ _ hP h
    simp only [CBF.Insert.rounds] at h
    injection h with h
    rw [← h]; exact hP
  | cons k ks ih =>
    intro s s1 hwf h1 hP h
    obtain ⟨s2, hs2⟩ := SetCell_ok hwf (CBF.Insert.digest_index env s string k) m h0 h1
    simp only [CBF.Insert.rounds, hs2] at h
    have hlt := digest_index_lt hwf env string k
    have hc := (SetCell_SameConfig hwf _ m h0 h1 hs2).1
    exact ih s2 s1 (SetCell_WF hwf _ m h0 h1 hs2) (by rw [hc.max_counter]; exact h1)
      (hstep s s2 _ m hwf hlt h0 h1 hP hs2) h

/-- A property that holds after construction, that every valid `SetCell` on a
well-formed state keeps and that does not depend on the two aggregate
counters holds in every reachable state. -/
theorem Reachable_invariant (P : CBF → Prop) (env : Env)
    (hfresh : ∀ (bit_mapping HASH_family HASH_number MULTIPLICITY_max : Int)
      (salt_path : String) (forced_cell_size : Int) (s : CBF),
      CBF.construct env bit_mapping HASH_family HASH_number MULTIPLICITY_max salt_path
        forced_cell_size = Except.ok s → P s)
    (hstep : ∀ (s s1 : CBF) (i : Nat) (m : Int), s.WF → (i : Int) < s.cells → 0 ≤ m →
      m ≤ s.max_counter → P s → s.SetCell i m = Except.ok s1 → P s1)
    (hagg : ∀ (s : CBF) (u v : Int), P s → P { s with unique_members := u, members := v })
    {s : CBF} (h : Reachable env s) : P s := by
  induction h with
  | fresh bm hf hn mm sp fcs s h => exact hfresh bm hf hn mm sp fcs s h
  | insert s s1 string m hs _ h ih =>
    have hwf := hs.WF
    obtain ⟨h0, h1⟩ := Insert_ok_valid hwf h
    unfold CBF.Insert at h
    split at h
    · exact absurd h (by simp)
    · rename_i s2 hs2
      injection h with h
      rw [← h]
      exact hagg s2 _ _
        (Insert_rounds_invariant P hstep env string m h0 _ s s2 hwf h1 ih hs2)

/-! ## C6: the saturation invariant -/

/-- A ledger entry other than `0` belongs to a saturated cell. -/
theorem SetCell_saturated (s s1 : CBF) (i : Nat) (m : Int) (hwf : s.WF)
    (hi : (i : Int) < s.cells) (h0 : 0 ≤ m) (h1 : m ≤ s.max_counter)
    (hP : ∀ j : Nat, (j : Int) < s.cells → s.overflows.getD j 0 ≠ 0 →
      s.GetCell j = s.max_counter)
    (hs : s.SetCell i m = Except.ok s1) :
    ∀ j : Nat, (j : Int) < s1.cells → s1.overflows.getD j 0 ≠ 0 →
      s1.GetCell j = s1.max_counter := by
  have hc := (SetCell_SameConfig hwf i m h0 h1 hs).1
  have hov := SetCell_overflows hwf i m h0 h1 hs
  have hsame := SetCell_GetCell_same hwf i hi m h0 h1 hs
  have hr := GetCell_range hwf i
  intro j hj hne
  rw [hc.cells] at hj
  rw [hc.max_counter]
  by_cases hji : j = i
  · subst hji
    rw [hsame]
    by_cases hgt : s.GetCell j + m > s.max_counter
    · exact min_eq_left (by omega)
    · rw [hov, if_neg hgt] at hne
      have := hP j hj hne
      rw [this]
      exact min_eq_left (by omega)
  · rw [SetCell_GetCell_other hwf i hi m h0 h1 hs j hj hji]
    apply hP j hj
    rw [hov] at hne
    split at hne
    · rwa [getD_set, if_neg (fun h => hji h.1.symm)] at hne
    · exact hne

/-- C6. In every state reachable from a freshly constructed filter by `Insert`
calls, every cell `i` has `0 ≤ GetCell i ≤ max_counter`, and `overflows[i] > 0`
implies `GetCell i = max_counter`. -/
theorem C6_saturation_invariant (env : Env) (s : CBF) (hs : Reachable env s) (i : Nat)
    (hi : (i : Int) < s.cells) :
    0 ≤ s.GetCell i ∧ s.GetCell i ≤ s.max_counter ∧
      (s.overflows.getD i 0 > 0 → s.GetCell i = s.max_counter) := by
  have hr := GetCell_range hs.WF i
  refine ⟨hr.1, hr.2, ?_⟩
  intro hpos
  have hinv : ∀ j : Nat, (j : Int) < s.cells → s.overflows.getD j 0 ≠ 0 →
      s.GetCell j = s.max_counter := by
    refine Reachable_invariant (fun t => ∀ j : Nat, (j : Int) < t.cells →
      t.overflows.getD j 0 ≠ 0 → t.GetCell j = t.max_counter) env ?_ ?_ ?_ hs
    · intro bm hf hn mm sp fcs t ht j _ hne
      exfalso
      apply hne
      have hz := (construct_spec ht).2.2.1
      rw [List.getD_eq_getElem?_getD]
      rcases hj : t.overflows[j]? with _ | v
      · rfl
      · simp only [Option.getD_some]
        exact hz v (List.mem_iff_getElem?.2 ⟨j, hj⟩)
    · intro t t1 k m hwf hk h0 h1 hP ht
      exact SetCell_saturated t t1 k m hwf hk h0 h1 hP ht
    · intro t u v hP
      exact hP
  exact hinv i hi (by omega)

/-- C6 at a state whose ledger is not empty: the two-byte sample filter after
two calls `Insert("A", 65535)`, cell 0. -/
theorem C6_saturation_invariant_witness :
    (0 ≤ (wideSaturated 1).GetCell 0 ∧ (wideSaturated 1).GetCell 0 ≤ (wideSaturated 1).max_counter ∧
      ((wideSaturated 1).overflows.getD 0 0 > 0 →
        (wideSaturated 1).GetCell 0 = (wideSaturated 1).max_counter)) ∧
    (wideSaturated 1).overflows.getD 0 0 > 0 :=
  ⟨C6_saturation_invariant sampleEnv (wideSaturated 1) (wideSaturated_Reachable 1) 0 (by decide),
    by decide⟩

/-! ## C7: exact count without collision -/

/-- Every cell of a filter whose bytes are all `0` reads `0`. -/
theorem GetCell_zero {s : CBF} (hwf : s.WF) (hz : ∀ b ∈ s.filter, b = 0) (j : Nat) :
    s.GetCell j = 0 := by
  have hget : ∀ i : Nat, s.filter.getD i 0 = 0 := by
    intro i
    rw [List.getD_eq_getElem?_getD]
    rcases hi : s.filter[i]? with _ | b
    · rfl
    · simp only [Option.getD_some]
      exact hz b (List.mem_iff_getElem?.2 ⟨i, hi⟩)
  unfold CBF.GetCell
  rcases hwf.cell_size with hc | hc
  · rw [if_pos hc, hget]; rfl
  · rw [if_neg (by omega), if_pos hc, hget, hget]; rfl

/-- The cells after the round loop of `Insert` over rounds with pairwise
distinct cell indices: the cell of each round has gone through one
`SetCell`, every other cell is as it was. -/
theorem Insert_rounds_cells (env : Env) (string : List Nat) (m : Int) (h0 : 0 ≤ m)
    (ks : List Nat) :
    ∀ s s1 : CBF, s.WF → m ≤ s.max_counter →
      (ks.map (CBF.Insert.digest_index env s string)).Nodup →
      CBF.Insert.rounds env string m ks s = Except.ok s1 →
      ∀ j : Nat, (j : Int) < s.cells →
        s1.GetCell j =
          if j ∈ ks.map (CBF.Insert.digest_index env s string) then
            min s.max_counter (s.GetCell j + m)
          else s.GetCell j := by
  induction ks with
  | nil =>
    intro s s1 _ _ _ h j _
    simp only [CBF.Insert.rounds] at h
    injection h with h
    subst h
    simp
  | cons k ks ih =>
    intro s s1 hwf h1 hnd h j hj
    obtain ⟨s2, hs2⟩ := SetCell_ok hwf (CBF.Insert.digest_index env s string k) m h0 h1
    simp only [CBF.Insert.rounds, hs2] at h
    have hlt := digest_index_lt hwf env string k
    have hc := (SetCell_SameConfig hwf _ m h0 h1 hs2).1
    have hidx : CBF.Insert.digest_index env s2 string = CBF.Insert.digest_index env s string :=
      funext (hc.digest_index env string)
    rw [List.map_cons, List.nodup_cons] at hnd
    have ih' := ih s2 s1 (SetCell_WF hwf _ m h0 h1 hs2) (by rw [hc.max_counter]; exact h1)
      (by rw [hidx]; exact hnd.2) h j (by rw [hc.cells]; exact hj)
    rw [hidx, hc.max_counter] at ih'
    rw [ih']
    simp only [List.map_cons, List.mem_cons]
    by_cases hjk : j = CBF.Insert.digest_index env s string k
    · subst hjk
      rw [if_neg hnd.1, if_pos (Or.inl rfl)]
      exact SetCell_GetCell_same hwf _ hlt m h0 h1 hs2
    · rw [SetCell_GetCell_other hwf _ hlt m h0 h1 hs2 j hj hjk]
      by_cases hmem : j ∈ ks.map (CBF.Insert.digest_index env s string)
      · rw [if_pos hmem, if_pos (Or.inr hmem)]
      · rw [if_neg hmem, if_neg (by tauto)]

/-- The round loop of `Check` when the cells of all its rounds hold the same
value `v`. -/
theorem Check_rounds_const (env : Env) (s : CBF) (string : List Nat) (v : Int)
    (ks : List Nat) :
    ∀ counter : Int, v ≤ counter → ks ≠ [] →
      (∀ k ∈ ks, s.GetCell (CBF.Check.digest_index env s string k) = v) →
      CBF.Check.rounds env s string ks counter = v := by
  induction ks with
  | nil => intro _ _ h; exact absurd rfl h
  | cons k ks ih =>
    intro counter hc _ hk
    have h1 := hk k (List.mem_cons_self _ _)
    simp only [CBF.Check.rounds, h1, min_eq_right hc]
    split
    · rfl
    · cases ks with
      | nil => rfl
      | cons k' ks' =>
        exact ih v (le_refl _) (by simp) (fun k'' hk'' => hk k'' (List.mem_cons_of_mem _ hk''))

/-- Pairwise distinct cell indices of the rounds, as a list without
duplicates. -/
theorem rounds_nodup (env : Env) (s : CBF) (string : List Nat)
    (hdist : ∀ k1 k2 : Nat, (k1 : Int) < s.HASH_number → (k2 : Int) < s.HASH_number →
      k1 ≠ k2 → CBF.Insert.digest_index env s string k1 ≠
        CBF.Insert.digest_index env s string k2) :
    ((List.range s.HASH_number.toNat).map (CBF.Insert.digest_index env s string)).Nodup := by
  refine List.Nodup.map_on ?_ (List.nodup_range _)
  intro k1 hk1 k2 hk2 heq
  by_contra hne
  have h1 := List.mem_range.1 hk1
  have h2 := List.mem_range.1 hk2
  exact hdist k1 k2 (by omega) (by omega) hne heq

/-- An `Insert` of an element whose rounds have pairwise distinct cell indices:
the cell of every round has gone through exactly one `SetCell`. -/
theorem Insert_cells_distinct (env : Env) {s s1 : CBF} (hwf : s.WF) (string : List Nat)
    (m : Int) (h0 : 0 ≤ m) (h1 : m ≤ s.max_counter)
    (hdist : ∀ k1 k2 : Nat, (k1 : Int) < s.HASH_number → (k2 : Int) < s.HASH_number →
      k1 ≠ k2 → CBF.Insert.digest_index env s string k1 ≠
        CBF.Insert.digest_index env s string k2)
    (hs : s.Insert env string m = Except.ok s1) (k : Nat) (hk : (k : Int) < s.HASH_number) :
    s1.GetCell (CBF.Insert.digest_index env s string k) =
      min s.max_counter (s.GetCell (CBF.Insert.digest_index env s string k) + m) := by
  unfold CBF.Insert at hs
  split at hs
  · exact absurd hs (by simp)
  · rename_i s2 hs2
    injection hs with hs
    subst hs
    have := Insert_rounds_cells env string m h0 _ s s2 hwf h1
      (rounds_nodup env s string hdist) hs2 _ (digest_index_lt hwf env string k)
    rw [if_pos (List.mem_map.2 ⟨k, List.mem_range.2 (by omega), rfl⟩)] at this
    exact this

/-- C7. On a freshly constructed filter, if the cell indices of the
`HASH_number` rounds of the element `e` are pairwise distinct and only `e` is
inserted, with multiplicities `m1, ..., mn` in `[0, max_counter]`, then every
`Insert` returns normally and afterwards `Check e = min max_counter
(m1 + ... + mn)`. The scenario of the specification is the case
`bit_mapping = 4`, one-byte cells, `HASH_number = 2`, multiplicities `5` and
then `252`: `Check` gives `min 255 5 = 5` and then `min 255 257 = 255`. -/
theorem C7_exact_count (env : Env)
    (bit_mapping HASH_family HASH_number MULTIPLICITY_max : Int) (salt_path : String)
    (forced_cell_size : Int) (s0 : CBF)
    (hc : CBF.construct env bit_mapping HASH_family HASH_number MULTIPLICITY_max salt_path
      forced_cell_size = Except.ok s0)
    (e : List Nat)
    (hdist : ∀ k1 k2 : Nat, (k1 : Int) < s0.HASH_number → (k2 : Int) < s0.HASH_number →
      k1 ≠ k2 → CBF.Insert.digest_index env s0 e k1 ≠ CBF.Insert.digest_index env s0 e k2)
    (ms : List Int) (hms : ∀ m ∈ ms, 0 ≤ m ∧ m ≤ s0.max_counter) :
    ∃ s, s0.InsertAll env (ms.map fun m => (e, m)) = Except.ok s ∧
      s.Check env e = min s0.max_counter ms.sum := by
  have hwf0 := (construct_spec hc).1
  have hz0 := (construct_spec hc).2.1
  have hmax : s0.max_counter = 255 ∨ s0.max_counter = 65535 := by
    unfold CBF.max_counter; split <;> simp
  -- the state after some of the calls: the cell of every round holds the capped sum
  have key : ∀ (ms : List Int), (∀ m ∈ ms, 0 ≤ m ∧ m ≤ s0.max_counter) →
      ∀ (s : CBF) (acc : Int), s.WF → s0.SameConfig s → 0 ≤ acc →
      (∀ k : Nat, (k : Int) < s0.HASH_number →
        s.GetCell (CBF.Insert.digest_index env s0 e k) = min s0.max_counter acc) →
      ∃ s1, s.InsertAll env (ms.map fun m => (e, m)) = Except.ok s1 ∧ s1.WF ∧
        s0.SameConfig s1 ∧
        ∀ k : Nat, (k : Int) < s0.HASH_number →
          s1.GetCell (CBF.Insert.digest_index env s0 e k) =
            min s0.max_counter (acc + ms.sum) := by
    intro ms
    induction ms with
    | nil =>
      intro _ s acc hwf hcfg _ hcells
      exact ⟨s, rfl, hwf, hcfg, by simpa using hcells⟩
    | cons m ms ih =>
      intro hms s acc hwf hcfg hacc hcells
      obtain ⟨hm0, hm1⟩ := hms m (List.mem_cons_self _ _)
      have hm1' : m ≤ s.max_counter := by rw [hcfg.max_counter]; exact hm1
      obtain ⟨s1, hs1, hwf1, hcfg1, _⟩ := Insert_spec env hwf e m hm0 hm1'
      have hidx : CBF.Insert.digest_index env s e = CBF.Insert.digest_index env s0 e :=
        funext (hcfg.digest_index env e)
      have hdist' : ∀ k1 k2 : Nat, (k1 : Int) < s.HASH_number → (k2 : Int) < s.HASH_number →
          k1 ≠ k2 → CBF.Insert.digest_index env s e k1 ≠
            CBF.Insert.digest_index env s e k2 := by
        rw [hidx, hcfg.HASH_number]; exact hdist
      have hcells1 : ∀ k : Nat, (k : Int) < s0.HASH_number →
          s1.GetCell (CBF.Insert.digest_index env s0 e k) = min s0.max_counter (acc + m) := by
        intro k hk
        have := Insert_cells_distinct env hwf e m hm0 hm1' hdist' hs1 k
          (by rw [hcfg.HASH_number]; exact hk)
        rw [hidx, hcfg.max_counter, hcells k hk] at this
        rw [this]
        rcases hmax with h | h <;> rw [h] <;> omega
      obtain ⟨s2, hs2, hwf2, hcfg2, hcells2⟩ :=
        ih (fun m' hm' => hms m' (List.mem_cons_of_mem _ hm')) s1 (acc + m) hwf1
          (hcfg.trans hcfg1) (by omega) hcells1
      refine ⟨s2, ?_, hwf2, hcfg2, ?_⟩
      · simp only [List.map_cons, CBF.InsertAll, hs1, hs2]
      · intro k hk
        rw [hcells2 k hk, List.sum_cons, add_assoc]
  obtain ⟨s, hs, hwf, hcfg, hcells⟩ := key ms hms s0 0 hwf0 (CBF.SameConfig.refl s0)
    (le_refl _) (by
      intro k _
      rw [GetCell_zero hwf0 hz0]
      rcases hmax with h | h <;> rw [h] <;> rfl)
  refine ⟨s, hs, ?_⟩
  rw [zero_add] at hcells
  have hne : List.range s.HASH_number.toNat ≠ [] := by
    have := hwf.HASH_number_pos
    intro h
    have h2 := congrArg List.length h
    rw [List.length_range] at h2
    simp only [List.length_nil] at h2
    omega
  have hsum : 0 ≤ ms.sum := List.sum_nonneg (fun m hm => (hms m hm).1)
  refine Check_rounds_const env s e _ _ INT_MAX ?_ hne ?_
  · unfold INT_MAX; rcases hmax with h | h <;> rw [h] <;> omega
  · intro k hk
    have hk' := List.mem_range.1 hk
    rw [Check_digest_index_eq, hcfg.digest_index]
    exact hcells k (by rw [← hcfg.HASH_number]; omega)


/-- The two rounds of the element "A" fall into distinct cells of the sample
filter (cells 4 and 5). -/
theorem sampleFilter_distinct (k1 k2 : Nat) (h1 : (k1 : Int) < sampleFilter.HASH_number)
    (h2 : (k2 : Int) < sampleFilter.HASH_number) (hne : k1 ≠ k2) :
    CBF.Insert.digest_index sampleEnv sampleFilter [65] k1 ≠
      CBF.Insert.digest_index sampleEnv sampleFilter [65] k2 := by
  have h1' : k1 < 2 := by
    have : sampleFilter.HASH_number = 2 := rfl
    omega
  have h2' : k2 < 2 := by
    have : sampleFilter.HASH_number = 2 := rfl
    omega
  interval_cases k1 <;> interval_cases k2 <;> first | exact absurd rfl hne | decide

/-- C7 at the sample filter, in the scenario of the specification: "A" is
inserted with multiplicity 5, and then with multiplicity 252. -/
theorem C7_exact_count_witness :
    (∃ s, sampleFilter.InsertAll sampleEnv ([5].map fun m => ([65], m)) = Except.ok s ∧
      s.Check sampleEnv [65] = min sampleFilter.max_counter ([5] : List Int).sum) ∧
    (∃ s, sampleFilter.InsertAll sampleEnv ([5, 252].map fun m => ([65], m)) = Except.ok s ∧
      s.Check sampleEnv [65] = min sampleFilter.max_counter ([5, 252] : List Int).sum) ∧
    min sampleFilter.max_counter ([5] : List Int).sum = 5 ∧
    min sampleFilter.max_counter ([5, 252] : List Int).sum = 255 :=
  ⟨C7_exact_count sampleEnv 4 4 2 255 "salts.txt" 0 sampleFilter sampleFilter_construct [65]
      sampleFilter_distinct [5] (by decide),
    C7_exact_count sampleEnv 4 4 2 255 "salts.txt" 0 sampleFilter sampleFilter_construct [65]
      sampleFilter_distinct [5, 252] (by decide),
    by decide, by decide⟩

/-! ## The overflow ledger -/

/-- The ledger entry of cell `i` after `SetCell` on cell `i`. -/
theorem SetCell_ledger_same {s s1 : CBF} (hwf : s.WF) (i : Nat) (hi : (i : Int) < s.cells)
    (m : Int) (h0 : 0 ≤ m) (h1 : m ≤ s.max_counter) (hs : s.SetCell i m = Except.ok s1) :
    s1.overflows.getD i 0 =
      wrapInt32 (s.overflows.getD i 0 + max 0 (s.GetCell i + m - s.max_counter)) := by
  have hov := SetCell_overflows hwf i m h0 h1 hs
  obtain ⟨n, hn, _, _, hno, _, _⟩ := WF_cells_nat hwf
  have hil : i < s.overflows.length := by omega
  have hr := getD_int hwf.overflows_int i
  unfold INT_MIN INT_MAX at hr
  rw [hov]
  split
  · rw [getD_set, if_pos ⟨rfl, hil⟩, max_eq_right (by omega)]
  · rw [max_eq_left (by omega), add_zero, wrapInt32_id _ hr.1 hr.2]

/-- A `SetCell` on cell `i` leaves the ledger entry of any other cell. -/
theorem SetCell_ledger_other {s s1 : CBF} (hwf : s.WF) (i : Nat)
    (m : Int) (h0 : 0 ≤ m) (h1 : m ≤ s.max_counter) (hs : s.SetCell i m = Except.ok s1)
    (j : Nat) (hij : j ≠ i) : s1.overflows.getD j 0 = s.overflows.getD j 0 := by
  rw [SetCell_overflows hwf i m h0 h1 hs]
  split
  · rw [getD_set, if_neg (fun h => hij h.1.symm)]
  · rfl

/-- The ledger after the round loop of `Insert` over rounds with pairwise
distinct cell indices. -/
theorem Insert_rounds_ledger (env : Env) (string : List Nat) (m : Int) (h0 : 0 ≤ m)
    (ks : List Nat) :
    ∀ s s1 : CBF, s.WF → m ≤ s.max_counter →
      (ks.map (CBF.Insert.digest_index env s string)).Nodup →
      CBF.Insert.rounds env string m ks s = Except.ok s1 →
      ∀ j : Nat, (j : Int) < s.cells →
        s1.overflows.getD j 0 =
          if j ∈ ks.map (CBF.Insert.digest_index env s string) then
            wrapInt32 (s.overflows.getD j 0 + max 0 (s.GetCell j + m - s.max_counter))
          else s.overflows.getD j 0 := by
  induction ks with
  | nil =>
    intro s s1 _ _ _ h j _
    simp only [CBF.Insert.rounds] at h
    injection h with h
    subst h
    simp
  | cons k ks ih =>
    intro s s1 hwf h1 hnd h j hj
    obtain ⟨s2, hs2⟩ := SetCell_ok hwf (CBF.Insert.digest_index env s string k) m h0 h1
    simp only [CBF.Insert.rounds, hs2] at h
    have hlt := digest_index_lt hwf env string k
    have hc := (SetCell_SameConfig hwf _ m h0 h1 hs2).1
    have hidx : CBF.Insert.digest_index env s2 string = CBF.Insert.digest_index env s string :=
      funext (hc.digest_index env string)
    rw [List.map_cons, List.nodup_cons] at hnd
    have ih' := ih s2 s1 (SetCell_WF hwf _ m h0 h1 hs2) (by rw [hc.max_counter]; exact h1)
      (by rw [hidx]; exact hnd.2) h j (by rw [hc.cells]; exact hj)
    rw [hidx, hc.max_counter] at ih'
    rw [ih']
    simp only [List.map_cons, List.mem_cons]
    by_cases hjk : j = CBF.Insert.digest_index env s string k
    · subst hjk
      rw [if_neg hnd.1, if_pos (Or.inl rfl)]
      exact SetCell_ledger_same hwf _ hlt m h0 h1 hs2
    · rw [SetCell_ledger_other hwf _ m h0 h1 hs2 j hjk,
        SetCell_GetCell_other hwf _ hlt m h0 h1 hs2 j hj hjk]
      by_cases hmem : j ∈ ks.map (CBF.Insert.digest_index env s string)
      · rw [if_pos hmem, if_pos (Or.inr hmem)]
      · rw [if_neg hmem, if_neg (by tauto)]

/-- An `Insert` of an element whose rounds have pairwise distinct cell indices:
the cells and the ledger, entry by entry. -/
theorem Insert_distinct (env : Env) {s s1 : CBF} (hwf : s.WF) (string : List Nat)
    (m : Int) (h0 : 0 ≤ m) (h1 : m ≤ s.max_counter)
    (hdist : ∀ k1 k2 : Nat, (k1 : Int) < s.HASH_number → (k2 : Int) < s.HASH_number →
      k1 ≠ k2 → CBF.Insert.digest_index env s string k1 ≠
        CBF.Insert.digest_index env s string k2)
    (hs : s.Insert env string m = Except.ok s1) (j : Nat) (hj : (j : Int) < s.cells) :
    (s1.GetCell j =
      if j ∈ (List.range s.HASH_number.toNat).map (CBF.Insert.digest_index env s string) then
        min s.max_counter (s.GetCell j + m)
      else s.GetCell j) ∧
    (s1.overflows.getD j 0 =
      if j ∈ (List.range s.HASH_number.toNat).map (CBF.Insert.digest_index env s string) then
        wrapInt32 (s.overflows.getD j 0 + max 0 (s.GetCell j + m - s.max_counter))
      else s.overflows.getD j 0) := by
  unfold CBF.Insert at hs
  split at hs
  · exact absurd hs (by simp)
  · rename_i s2 hs2
    injection hs with hs
    subst hs
    exact ⟨Insert_rounds_cells env string m h0 _ s s2 hwf h1
        (rounds_nodup env s string hdist) hs2 j hj,
      Insert_rounds_ledger env string m h0 _ s s2 hwf h1
        (rounds_nodup env s string hdist) hs2 j hj⟩

/-- The loop of `GetOverallOverflows` computes the 32-bit reduction of the sum
of the ledger. -/
theorem foldl_wrap_sum (l : List Int) : ∀ a : Int,
    l.foldl (fun total value => wrapInt32 (total + value)) (wrapInt32 a) =
      wrapInt32 (a + l.sum) := by
  induction l with
  | nil => intro a; simp
  | cons v l ih =>
    intro a
    rw [List.foldl_cons, wrapInt32_add_left, ih, List.sum_cons, add_assoc]

theorem GetOverallOverflows_eq (s : CBF) : s.GetOverallOverflows = wrapInt32 s.overflows.sum := by
  have h := foldl_wrap_sum s.overflows 0
  rw [zero_add] at h
  exact h

/-- A list is the list of its entries. -/
theorem list_eq_map_getD (l : List Int) :
    l = (List.range l.length).map fun j => l.getD j 0 := by
  apply List.ext_getElem
  · simp
  · intro n h1 h2
    simp [List.getD_eq_getElem?_getD, List.getElem?_eq_getElem h1]

/-! ## C8: the ledger in the scenario of the specification -/

theorem sum_two_cells : ∀ i0 < 16, ∀ i1 < 16, i0 ≠ i1 →
    ((List.range 16).map fun j => if j = i0 ∨ j = i1 then (2 : Int) else 0).sum = 4 := by
  decide

/-- C8, as the code has it. In the scenario `bit_mapping = 4`, one-byte cells,
`HASH_number = 2`, on a freshly constructed filter where the two rounds of the
element map to distinct cells: `Insert(e, 5)` gives `Check(e) = 5`, a further
`Insert(e, 252)` gives `Check(e) = 255`, each of the two cells of the element
has then lost `5 + 252 - 255 = 2` to saturation, so each of the two ledger
entries is `2` and `GetOverallOverflows() = 4`. -/
theorem C8_overflow_scenario (env : Env) (HASH_family MULTIPLICITY_max : Int)
    (salt_path : String) (forced_cell_size : Int) (s0 : CBF)
    (hc : CBF.construct env 4 HASH_family 2 MULTIPLICITY_max salt_path forced_cell_size =
      Except.ok s0)
    (hcs : s0.cell_size = 1) (e : List Nat)
    (hd : CBF.Insert.digest_index env s0 e 0 ≠ CBF.Insert.digest_index env s0 e 1) :
    ∃ s1 s2, s0.Insert env e 5 = Except.ok s1 ∧ s1.Check env e = 5 ∧
      s1.Insert env e 252 = Except.ok s2 ∧ s2.Check env e = 255 ∧
      s2.overflows.getD (CBF.Insert.digest_index env s0 e 0) 0 = 2 ∧
      s2.overflows.getD (CBF.Insert.digest_index env s0 e 1) 0 = 2 ∧
      s2.GetOverallOverflows = 4 := by
  obtain ⟨hwf0, hz0, hl0, _, _, hbm, hhn, _, _⟩ := construct_spec hc
  have hmax : s0.max_counter = 255 := by unfold CBF.max_counter; rw [if_pos hcs]
  have hcells : s0.cells = 16 := by rw [hwf0.cells, hbm]; rfl
  have hrange : List.range s0.HASH_number.toNat = [0, 1] := by rw [hhn]; rfl
  generalize hi0 : CBF.Insert.digest_index env s0 e 0 = i0 at hd ⊢
  generalize hi1 : CBF.Insert.digest_index env s0 e 1 = i1 at hd ⊢
  have hi0lt : (i0 : Int) < 16 := by rw [← hi0, ← hcells]; exact digest_index_lt hwf0 env e 0
  have hi1lt : (i1 : Int) < 16 := by rw [← hi1, ← hcells]; exact digest_index_lt hwf0 env e 1
  have hmem : ∀ j : Nat,
      j ∈ (List.range s0.HASH_number.toNat).map (CBF.Insert.digest_index env s0 e) ↔
        (j = i0 ∨ j = i1) := by
    intro j
    rw [hrange]
    simp only [List.map_cons, List.map_nil, List.mem_cons, List.mem_singleton, hi0, hi1,
      List.not_mem_nil, or_false]
  have hdist : ∀ k1 k2 : Nat, (k1 : Int) < s0.HASH_number → (k2 : Int) < s0.HASH_number →
      k1 ≠ k2 → CBF.Insert.digest_index env s0 e k1 ≠ CBF.Insert.digest_index env s0 e k2 := by
    intro k1 k2 h1 h2 hne
    rw [hhn] at h1 h2
    have h1' : k1 < 2 := by omega
    have h2' : k2 < 2 := by omega
    interval_cases k1 <;> interval_cases k2
    · exact absurd rfl hne
    · rw [hi0, hi1]; exact hd
    · rw [hi0, hi1]; exact fun h => hd h.symm
    · exact absurd rfl hne
  have hledger0 : ∀ j : Nat, s0.overflows.getD j 0 = 0 := by
    intro j
    rw [List.getD_eq_getElem?_getD]
    rcases hj : s0.overflows[j]? with _ | v
    · rfl
    · simp only [Option.getD_some]
      exact hl0 v (List.mem_iff_getElem?.2 ⟨j, hj⟩)
  -- the first call
  obtain ⟨s1, hs1, hwf1, hcfg1, _⟩ := Insert_spec env hwf0 e 5 (by decide) (by rw [hmax]; decide)
  have hst1 : ∀ j : Nat, (j : Int) < 16 →
      s1.GetCell j = (if j = i0 ∨ j = i1 then 5 else 0) ∧ s1.overflows.getD j 0 = 0 := by
    intro j hj
    obtain ⟨h1, h2⟩ := Insert_distinct env hwf0 e 5 (by decide) (by rw [hmax]; decide) hdist hs1 j
      (by rw [hcells]; exact hj)
    rw [GetCell_zero hwf0 hz0, hmax] at h1 h2
    rw [hledger0] at h2
    simp only [hmem] at h1 h2
    constructor
    · rw [h1]; split <;> rfl
    · rw [h2]; split <;> rfl
  -- the second call
  have hmax1 : s1.max_counter = 255 := by rw [hcfg1.max_counter]; exact hmax
  have hidx1 : CBF.Insert.digest_index env s1 e = CBF.Insert.digest_index env s0 e :=
    funext (hcfg1.digest_index env e)
  obtain ⟨s2, hs2, hwf2, hcfg2, _⟩ :=
    Insert_spec env hwf1 e 252 (by decide) (by rw [hmax1]; decide)
  have hst2 : ∀ j : Nat, (j : Int) < 16 →
      s2.GetCell j = (if j = i0 ∨ j = i1 then 255 else 0) ∧
      s2.overflows.getD j 0 = (if j = i0 ∨ j = i1 then 2 else 0) := by
    intro j hj
    obtain ⟨h1, h2⟩ := Insert_distinct env hwf1 e 252 (by decide) (by rw [hmax1]; decide)
      (by rw [hidx1, hcfg1.HASH_number]; exact hdist) hs2 j
      (by rw [hcfg1.cells, hcells]; exact hj)
    rw [hmax1, hidx1, hcfg1.HASH_number, (hst1 j hj).1] at h1 h2
    rw [(hst1 j hj).2] at h2
    simp only [hmem] at h1 h2
    constructor
    · rw [h1]; split <;> rfl
    · rw [h2]; split <;> rfl
  have hne1 : List.range s1.HASH_number.toNat ≠ [] := by
    rw [hcfg1.HASH_number, hrange]; simp
  have hne2 : List.range s2.HASH_number.toNat ≠ [] := by
    rw [hcfg2.HASH_number, hcfg1.HASH_number, hrange]; simp
  refine ⟨s1, s2, hs1, ?_, hs2, ?_, ?_, ?_, ?_⟩
  · refine Check_rounds_const env s1 e 5 _ INT_MAX (by decide) hne1 ?_
    intro k hk
    rw [Check_digest_index_eq, hidx1]
    have hk' : CBF.Insert.digest_index env s0 e k = i0 ∨
        CBF.Insert.digest_index env s0 e k = i1 :=
      (hmem _).1 (List.mem_map.2 ⟨k, by rw [← hcfg1.HASH_number]; exact hk, rfl⟩)
    have hlt := digest_index_lt hwf0 env e k
    rw [hcells] at hlt
    rw [(hst1 _ hlt).1, if_pos hk']
  · refine Check_rounds_const env s2 e 255 _ INT_MAX (by decide) hne2 ?_
    intro k hk
    rw [Check_digest_index_eq, (hcfg1.trans hcfg2).digest_index]
    have hk' : CBF.Insert.digest_index env s0 e k = i0 ∨
        CBF.Insert.digest_index env s0 e k = i1 :=
      (hmem _).1 (List.mem_map.2 ⟨k, by
        rw [← hcfg1.HASH_number, ← hcfg2.HASH_number]; exact hk, rfl⟩)
    have hlt := digest_index_lt hwf0 env e k
    rw [hcells] at hlt
    rw [(hst2 _ hlt).1, if_pos hk']
  · rw [(hst2 i0 hi0lt).2, if_pos (Or.inl rfl)]
  · rw [(hst2 i1 hi1lt).2, if_pos (Or.inr rfl)]
  · have hlen : s2.overflows.length = 16 := by
      have := hwf2.overflows_length
      rw [hcfg2.cells, hcfg1.cells, hcells] at this
      omega
    rw [GetOverallOverflows_eq, list_eq_map_getD s2.overflows, hlen]
    have hmap : ((List.range 16).map fun j => s2.overflows.getD j 0) =
        (List.range 16).map fun j => if j = i0 ∨ j = i1 then (2 : Int) else 0 := by
      apply List.map_congr_left
      intro j hj
      exact (hst2 j (by have := List.mem_range.1 hj; omega)).2
    rw [hmap, sum_two_cells i0 (by omega) i1 (by omega) hd]
    rfl

/-- C8 at the sample filter and the element "A". -/
theorem C8_overflow_scenario_witness :
    ∃ s1 s2, sampleFilter.Insert sampleEnv [65] 5 = Except.ok s1 ∧ s1.Check sampleEnv [65] = 5 ∧
      s1.Insert sampleEnv [65] 252 = Except.ok s2 ∧ s2.Check sampleEnv [65] = 255 ∧
      s2.overflows.getD (CBF.Insert.digest_index sampleEnv sampleFilter [65] 0) 0 = 2 ∧
      s2.overflows.getD (CBF.Insert.digest_index sampleEnv sampleFilter [65] 1) 0 = 2 ∧
      s2.GetOverallOverflows = 4 :=
  C8_overflow_scenario sampleEnv 4 255 "salts.txt" 0 sampleFilter sampleFilter_construct rfl [65]
    (by decide)

/-- C8 fails as it is stated. The sample filter is constructed with
`bit_mapping = 4`, one-byte cells and `HASH_number = 2`; the two rounds of "A"
map to the distinct cells 4 and 5; after `Insert("A", 5)`, `Check("A")` is 5;
after the further `Insert("A", 252)` the ledger holds 2 for cell 4 and 2 for
cell 5, and `GetOverallOverflows()` is 4, not 2. -/
theorem C8_counterexample :
    CBF.construct sampleEnv 4 4 2 255 "salts.txt" 0 = Except.ok sampleFilter ∧
    sampleFilter.cell_size = 1 ∧
    CBF.Insert.digest_index sampleEnv sampleFilter [65] 0 = 4 ∧
    CBF.Insert.digest_index sampleEnv sampleFilter [65] 1 = 5 ∧
    ∃ s1 s2, sampleFilter.Insert sampleEnv [65] 5 = Except.ok s1 ∧
      s1.Check sampleEnv [65] = 5 ∧
      s1.Insert sampleEnv [65] 252 = Except.ok s2 ∧
      s2.overflows = [0, 0, 0, 0, 2, 2, 0, 0, 0, 0, 0, 0, 0, 0, 0, 0] ∧
      s2.GetOverallOverflows = 4 ∧ s2.GetOverallOverflows ≠ 2 :=
  ⟨sampleFilter_construct, rfl, by decide, by decide,
    { sampleFilter with
      filter := [0, 0, 0, 0, 5, 5, 0, 0, 0, 0, 0, 0, 0, 0, 0, 0]
      members := 5
      unique_members := 1 },
    { sampleFilter with
      filter := [0, 0, 0, 0, 255, 255, 0, 0, 0, 0, 0, 0, 0, 0, 0, 0]
      overflows := [0, 0, 0, 0, 2, 2, 0, 0, 0, 0, 0, 0, 0, 0, 0, 0]
      members := 257
      unique_members := 2 },
    by decide, by decide, by decide, rfl, by decide, by decide⟩

/-! ## C9: the aggregate counters -/

theorem wideSaturated_InsertAll (k : Nat) : ∀ n : Nat,
    (wideSaturated n).InsertAll sampleEnv (List.replicate k ([65], 65535)) =
      Except.ok (wideSaturated (n + k)) := by
  induction k with
  | zero => intro n; simp only [List.replicate_zero, CBF.InsertAll, Nat.add_zero]
  | succ k ih =>
    intro n
    have h := ih (n + 1)
    have hn : n + 1 + k = n + (k + 1) := by omega
    rw [hn] at h
    rw [List.replicate_succ]
    unfold CBF.InsertAll
    rw [wideSaturated_succ]
    exact h

theorem wideFilter_InsertAll (k : Nat) :
    wideFilter.InsertAll sampleEnv (List.replicate (k + 1) ([65], 65535)) =
      Except.ok (wideSaturated k) := by
  have h := wideSaturated_InsertAll k 0
  rw [Nat.zero_add] at h
  rw [List.replicate_succ]
  unfold CBF.InsertAll
  rw [wideSaturated_zero]
  exact h

theorem wrapInt32_add_fits (a b : Int) (ha : INT_MIN ≤ a) (hb : 0 ≤ b)
    (h : a + b ≤ INT_MAX) : wrapInt32 (a + b) = a + b := by
  unfold INT_MIN at ha
  unfold INT_MAX at h
  exact wrapInt32_id _ (by omega) h

/-- The aggregate counters after a sequence of `Insert` calls. -/
theorem InsertAll_aggregate (env : Env) (calls : List (List Nat × Int)) :
    ∀ s s1 : CBF, s.WF → s.InsertAll env calls = Except.ok s1 →
      s1.unique_members = wrapInt32 (s.unique_members + calls.length) ∧
      s1.members = wrapInt32 (s.members + (calls.map Prod.snd).sum) ∧
      0 ≤ (calls.map Prod.snd).sum := by
  induction calls with
  | nil =>
    intro s s1 hwf h
    simp only [CBF.InsertAll] at h
    injection h with h
    subst h
    have hu := hwf.unique_members_int
    have hm := hwf.members_int
    unfold INT_MIN INT_MAX at hu hm
    simp only [List.length_nil, Nat.cast_zero, add_zero, List.map_nil, List.sum_nil]
    exact ⟨(wrapInt32_id _ hu.1 hu.2).symm, (wrapInt32_id _ hm.1 hm.2).symm, le_refl _⟩
  | cons c calls ih =>
    intro s s1 hwf h
    obtain ⟨e, m⟩ := c
    simp only [CBF.InsertAll] at h
    split at h
    · exact absurd h (by simp)
    · rename_i s2 hs2
      obtain ⟨h0, h1⟩ := Insert_ok_valid hwf hs2
      obtain ⟨s2', hs2', hwf2, _, hm2, hu2, _⟩ := Insert_spec env hwf e m h0 h1
      rw [hs2] at hs2'
      injection hs2' with hs2'
      subst hs2'
      obtain ⟨hu, hm, hsum⟩ := ih s2 s1 hwf2 h
      rw [hu2, wrapInt32_add_left] at hu
      rw [hm2, wrapInt32_add_left] at hm
      refine ⟨?_, ?_, ?_⟩
      · rw [hu, List.length_cons]
        have : s.unique_members + 1 + (calls.length : Int) =
            s.unique_members + ((calls.length + 1 : Nat) : Int) := by push_cast; ring
        rw [this]
      · rw [hm, List.map_cons, List.sum_cons]
        have : s.members + m + (List.map Prod.snd calls).sum =
            s.members + (m + (List.map Prod.snd calls).sum) := by ring
        rw [this]
      · rw [List.map_cons, List.sum_cons]; exact add_nonneg h0 hsum

/-- C9, as the code has it. Let `s` be the state reached from a freshly
constructed filter by a sequence of `Insert` calls that returned normally.
Then `unique_members` is the number of calls and `members` the sum of their
multiplicities, both reduced to a 32-bit `int`: they are that number and that
sum themselves as long as these are at most `INT_MAX`. Every further `Insert`
that returns normally sets `unique_members` to the reduction of
`unique_members + 1` and `members` to the reduction of `members + m`, whether
or not the element was inserted before: it adds exactly `1` and exactly `m`
unless the result would exceed `INT_MAX`. -/
theorem C9_aggregate_counters (env : Env)
    (bit_mapping HASH_family HASH_number MULTIPLICITY_max : Int) (salt_path : String)
    (forced_cell_size : Int) (s0 : CBF)
    (hc : CBF.construct env bit_mapping HASH_family HASH_number MULTIPLICITY_max salt_path
      forced_cell_size = Except.ok s0)
    (calls : List (List Nat × Int)) (s : CBF) (hs : s0.InsertAll env calls = Except.ok s) :
    s.unique_members = wrapInt32 calls.length ∧
    s.members = wrapInt32 (calls.map Prod.snd).sum ∧
    ((calls.length : Int) ≤ INT_MAX → s.unique_members = calls.length) ∧
    ((calls.map Prod.snd).sum ≤ INT_MAX → s.members = (calls.map Prod.snd).sum) ∧
    ∀ (e : List Nat) (m : Int) (s1 : CBF), s.Insert env e m = Except.ok s1 →
      s1.unique_members = wrapInt32 (s.unique_members + 1) ∧
      s1.members = wrapInt32 (s.members + m) ∧
      (s.unique_members < INT_MAX → s1.unique_members = s.unique_members + 1) ∧
      (s.members + m ≤ INT_MAX → s1.members = s.members + m) := by
  obtain ⟨hwf0, _, _, hm0, hu0, _⟩ := construct_spec hc
  obtain ⟨hu, hm, hsum⟩ := InsertAll_aggregate env calls s0 s hwf0 hs
  rw [hu0, zero_add] at hu
  rw [hm0, zero_add] at hm
  have hwf := (InsertAll_WF calls hwf0 hs).1
  refine ⟨hu, hm, ?_, ?_, ?_⟩
  · intro hle
    rw [hu]
    unfold INT_MAX at hle
    exact wrapInt32_id _ (by omega) hle
  · intro hle
    rw [hm]
    unfold INT_MAX at hle
    exact wrapInt32_id _ (by omega) hle
  · intro e m s1 hs1
    obtain ⟨h0, h1⟩ := Insert_ok_valid hwf hs1
    obtain ⟨s1', hs1', _, _, hm1, hu1, _⟩ := Insert_spec env hwf e m h0 h1
    rw [hs1] at hs1'
    injection hs1' with hs1'
    rw [← hs1'] at hm1 hu1
    have hur := hwf.unique_members_int
    have hmr := hwf.members_int
    refine ⟨hu1, hm1, ?_, ?_⟩
    · intro hlt
      rw [hu1]
      exact wrapInt32_add_fits _ _ hur.1 (by decide) (Int.add_one_le_of_lt hlt)
    · intro hle
      rw [hm1]
      exact wrapInt32_add_fits _ _ hmr.1 h0 hle

/-- C9 at the sample filter: "A" is inserted twice, with multiplicities 5 and
252; `unique_members` is 2, the number of calls, and `members` is 257. -/
theorem C9_aggregate_counters_witness :
    sampleFilter.InsertAll sampleEnv [([65], 5), ([65], 252)] =
      Except.ok (sampleFilter.afterScenario) ∧
    (sampleFilter.afterScenario.unique_members =
        wrapInt32 ([(([65] : List Nat), (5 : Int)), ([65], 252)] : List (List Nat × Int)).length ∧
      sampleFilter.afterScenario.members =
        wrapInt32 (([(([65] : List Nat), (5 : Int)), ([65], 252)] :
          List (List Nat × Int)).map Prod.snd).sum) ∧
    sampleFilter.afterScenario.unique_members = 2 ∧
    sampleFilter.afterScenario.members = 257 :=
  ⟨by decide,
    ⟨(C9_aggregate_counters sampleEnv 4 4 2 255 "salts.txt" 0 sampleFilter
        sampleFilter_construct [([65], 5), ([65], 252)] _ (by decide)).1,
      (C9_aggregate_counters sampleEnv 4 4 2 255 "salts.txt" 0 sampleFilter
        sampleFilter_construct [([65], 5), ([65], 252)] _ (by decide)).2.1⟩,
    by decide, by decide⟩

theorem sum_replicate_calls (n : Nat) :
    ((List.replicate n (([65] : List Nat), (65535 : Int))).map Prod.snd).sum = 65535 * n := by
  rw [List.map_replicate, List.sum_replicate]
  simp only [smul_eq_mul, nsmul_eq_mul]
  ring

/-- C9 fails as it is stated. On the freshly constructed filter with two-byte
cells, 32768 calls `Insert("A", 65535)` return normally and leave
`members = 2147450880`; the next call `Insert("A", 65535)` returns normally
and leaves `members = -2147450881`, which is neither the old value plus 65535
nor the sum `2147516415` of the 32769 inserted multiplicities. -/
theorem C9_counterexample :
    CBF.construct sampleEnv 1 4 1 65535 "salts.txt" 0 = Except.ok wideFilter ∧
    wideFilter.InsertAll sampleEnv (List.replicate 32768 ([65], 65535)) =
      Except.ok (wideSaturated 32767) ∧
    (wideSaturated 32767).members = 2147450880 ∧
    (wideSaturated 32767).Insert sampleEnv [65] 65535 = Except.ok (wideSaturated 32768) ∧
    (wideSaturated 32768).members = -2147450881 ∧
    (wideSaturated 32768).members ≠ (wideSaturated 32767).members + 65535 ∧
    wideFilter.InsertAll sampleEnv (List.replicate 32769 ([65], 65535)) =
      Except.ok (wideSaturated 32768) ∧
    ((List.replicate 32769 (([65] : List Nat), (65535 : Int))).map Prod.snd).sum =
      2147516415 ∧
    (wideSaturated 32768).members ≠
      ((List.replicate 32769 (([65] : List Nat), (65535 : Int))).map Prod.snd).sum :=
  ⟨wideFilter_construct, wideFilter_InsertAll 32767, by decide, wideSaturated_succ 32767,
    by decide, by decide, wideFilter_InsertAll 32768,
    by rw [sum_replicate_calls]; norm_num,
    by rw [sum_replicate_calls]; decide⟩

/-! ## The sample filter with two-byte cells and two rounds -/

set_option maxRecDepth 100000 in
theorem pairFilter_construct :
    CBF.construct sampleEnv 1 4 2 65535 "salts.txt" 0 = Except.ok pairFilter := by
  decide

theorem pairSaturated_zero :
    pairFilter.Insert sampleEnv [100, 3] 65535 = Except.ok (pairSaturated 0) := by
  decide

theorem pairSaturated_index (n : Nat) :
    CBF.Insert.digest_index sampleEnv (pairSaturated n) [100, 3] 0 = 0 ∧
    CBF.Insert.digest_index sampleEnv (pairSaturated n) [100, 3] 1 = 1 := by
  have hc : pairFilter.SameConfig (pairSaturated n) :=
    ⟨rfl, rfl, rfl, rfl, rfl, rfl, rfl, rfl, rfl, rfl⟩
  rw [hc.digest_index, hc.digest_index]
  decide

/-- A `SetCell` with multiplicity `65535` on either cell of a state of
`pairFilter` whose cells are both saturated. -/
theorem pair_SetCell (a b x y : Int) :
    ((pairState a b x y).SetCell 0 65535 =
      Except.ok (pairState (wrapInt32 (a + 65535)) b x y)) ∧
    ((pairState a b x y).SetCell 1 65535 =
      Except.ok (pairState a (wrapInt32 (b + 65535)) x y)) := by
  have h1 : wrapInt32 (65535 + 65535) = 131070 := by decide
  have h2 : wrapInt32 (131070 - 65535) = 65535 := by decide
  have h3 : toBYTE ((65535 : Int) >>> (8 : Nat)) = 255 := by decide
  have h4 : toBYTE (65535 : Int) = 255 := by decide
  have h5 : wrapUInt32 (2 * 0) = 0 := by decide
  have h6 : wrapUInt32 (0 + 1) = 1 := by decide
  have h5' : wrapUInt32 (2 * 1) = 2 := by decide
  have h6' : wrapUInt32 (2 + 1) = 3 := by decide
  have h7 : min (65535 : Int) 131070 = 65535 := by decide
  have h8 : ((2 : Int) = 1) = False := by decide
  have h9 : (((255 <<< 8 ||| 255 : Nat) : Int)) = 65535 := by decide
  constructor
  · unfold CBF.SetCell CBF.GetCell
    simp only [pairState, pairFilter, h8, if_false, if_true, h5, h6, List.getD_cons_zero,
      List.getD_cons_succ, h9, h1, h2, h7, h3, h4]
    rw [if_neg (by decide : ¬ ((65535 : Int) > 65535 ∨ (65535 : Int) < 0)),
      if_pos (by decide : (65535 : Int) > 0)]
    rw [List.set_cons_zero, List.set_cons_succ, List.set_cons_zero, List.set_cons_zero]
  · unfold CBF.SetCell CBF.GetCell
    simp only [pairState, pairFilter, h8, if_false, if_true, h5', h6', List.getD_cons_zero,
      List.getD_cons_succ, h9, h1, h2, h7, h3, h4]
    rw [if_neg (by decide : ¬ ((65535 : Int) > 65535 ∨ (65535 : Int) < 0)),
      if_pos (by decide : (65535 : Int) > 0)]
    simp only [List.set_cons_succ, List.set_cons_zero]


theorem pairSaturated_succ (n : Nat) :
    (pairSaturated n).Insert sampleEnv [100, 3] 65535 = Except.ok (pairSaturated (n + 1)) := by
  obtain ⟨hi0, hi1⟩ := pairSaturated_index n
  have hr : List.range (pairSaturated n).HASH_number.toNat = [0, 1] := by
    show List.range (2 : Int).toNat = [0, 1]
    decide
  have hc : ∀ a b x y : Int, pairFilter.SameConfig (pairState a b x y) := fun _ _ _ _ =>
    ⟨rfl, rfl, rfl, rfl, rfl, rfl, rfl, rfl, rfl, rfl⟩
  have hi1' : ∀ a b x y : Int,
      CBF.Insert.digest_index sampleEnv (pairState a b x y) [100, 3] 1 = 1 := by
    intro a b x y
    rw [(hc a b x y).digest_index]
    decide
  have h9 : wrapInt32 (wrapInt32 (65535 * (n : Int)) + 65535) =
      wrapInt32 (65535 * ((n + 1 : Nat) : Int)) := by
    have : 65535 * (n : Int) + 65535 = 65535 * ((n + 1 : Nat) : Int) := by push_cast; ring
    rw [wrapInt32_add_left, this]
  have hm : wrapInt32 (wrapInt32 (65535 * ((n : Int) + 1)) + 65535) =
      wrapInt32 (65535 * (((n + 1 : Nat) : Int) + 1)) := by
    have : 65535 * ((n : Int) + 1) + 65535 = 65535 * (((n + 1 : Nat) : Int) + 1) := by
      push_cast; ring
    rw [wrapInt32_add_left, this]
  have hu : wrapInt32 (wrapInt32 ((n : Int) + 1) + 1) = wrapInt32 (((n + 1 : Nat) : Int) + 1) := by
    have : (n : Int) + 1 + 1 = ((n + 1 : Nat) : Int) + 1 := by push_cast; ring
    rw [wrapInt32_add_left, this]
  unfold CBF.Insert
  rw [hr]
  unfold CBF.Insert.rounds
  rw [hi0]
  unfold pairSaturated
  rw [(pair_SetCell _ _ _ _).1]
  simp only []
  unfold CBF.Insert.rounds
  rw [hi1', (pair_SetCell _ _ _ _).2]
  simp only [CBF.Insert.rounds]
  rw [h9]
  show Except.ok (pairState _ _ (wrapInt32 (wrapInt32 (65535 * ((n : Int) + 1)) + 65535))
    (wrapInt32 (wrapInt32 ((n : Int) + 1) + 1))) = _
  rw [hm, hu]

theorem pairSaturated_Reachable (n : Nat) : Reachable sampleEnv (pairSaturated n) := by
  induction n with
  | zero =>
    exact Reachable.insert pairFilter _ [100, 3] 65535
      (Reachable.fresh 1 4 2 65535 "salts.txt" 0 pairFilter pairFilter_construct)
      (by decide) pairSaturated_zero
  | succ n ih =>
    exact Reachable.insert _ _ [100, 3] 65535 ih (by decide) (pairSaturated_succ n)

/-! ## C10: the totals of the ledger -/

/-- The loop of `GetOverflownCells` counts the entries other than `0`, as long
as the count is an `int`. -/
theorem foldl_count_ne_zero (l : List Int) : ∀ a : Int, 0 ≤ a →
    a + l.length ≤ INT_MAX →
    l.foldl (fun total value => if value ≠ 0 then wrapInt32 (total + 1) else total) a =
      a + (l.countP fun v => decide (v ≠ 0)) := by
  induction l with
  | nil => intro a _ _; simp
  | cons v l ih =>
    intro a ha hlen
    rw [List.length_cons] at hlen
    push_cast at hlen
    unfold INT_MAX at hlen
    rw [List.foldl_cons, List.countP_cons]
    by_cases hv : v ≠ 0
    · have hw : wrapInt32 (a + 1) = a + 1 := wrapInt32_id _ (by omega) (by omega)
      rw [if_pos hv, hw, ih (a + 1) (by omega) (by unfold INT_MAX; omega)]
      have hd : decide (v ≠ 0) = true := decide_eq_true hv
      rw [hd, if_pos rfl]
      push_cast; ring
    · rw [if_neg hv, ih a ha (by unfold INT_MAX; omega)]
      have hd : decide (v ≠ 0) = false := decide_eq_false hv
      rw [hd, if_neg (by simp), add_zero]

theorem countP_pos_of_nonneg (l : List Int) (h : ∀ v ∈ l, 0 ≤ v) :
    (l.countP fun v => decide (v ≠ 0)) = l.countP fun v => decide (v > 0) := by
  apply List.countP_congr
  intro v hv
  have := h v hv
  simp only [decide_eq_true_eq]
  omega

/-- C10, as the code has it. In every reachable filter state
`GetOverallOverflows()` is the sum of all the ledger entries reduced to a
32-bit `int`, so the sum itself whenever the sum is an `int`, and
`GetOverflownCells()` is the number of ledger entries other than `0`, so the
number of entries `> 0` whenever no entry is negative. -/
theorem C10_overflow_totals (env : Env) (s : CBF) (hs : Reachable env s) :
    s.GetOverallOverflows = wrapInt32 s.overflows.sum ∧
    (INT_MIN ≤ s.overflows.sum ∧ s.overflows.sum ≤ INT_MAX →
      s.GetOverallOverflows = s.overflows.sum) ∧
    s.GetOverflownCells = (s.overflows.countP fun v => decide (v ≠ 0)) ∧
    ((∀ v ∈ s.overflows, 0 ≤ v) →
      s.GetOverflownCells = (s.overflows.countP fun v => decide (v > 0))) := by
  have hwf := hs.WF
  obtain ⟨n, _, _, hn, hlen, _, _⟩ := WF_cells_nat hwf
  have hcount : s.GetOverflownCells = (s.overflows.countP fun v => decide (v ≠ 0)) := by
    have := foldl_count_ne_zero s.overflows 0 (le_refl _) (by
      rw [hlen]; unfold INT_MAX; omega)
    rw [zero_add] at this
    exact this
  refine ⟨GetOverallOverflows_eq s, ?_, hcount, ?_⟩
  · rintro ⟨h1, h2⟩
    rw [GetOverallOverflows_eq]
    exact wrapInt32_id _ h1 h2
  · intro hnn
    rw [hcount, countP_pos_of_nonneg _ hnn]

/-- C10 at the sample filter with two-byte cells after two insertions of "A":
the ledger is `65535, 0`. -/
theorem C10_overflow_totals_witness :
    ((wideSaturated 1).GetOverallOverflows = wrapInt32 (wideSaturated 1).overflows.sum ∧
    (INT_MIN ≤ (wideSaturated 1).overflows.sum ∧ (wideSaturated 1).overflows.sum ≤ INT_MAX →
      (wideSaturated 1).GetOverallOverflows = (wideSaturated 1).overflows.sum) ∧
    (wideSaturated 1).GetOverflownCells =
      ((wideSaturated 1).overflows.countP fun v => decide (v ≠ 0)) ∧
    ((∀ v ∈ (wideSaturated 1).overflows, 0 ≤ v) →
      (wideSaturated 1).GetOverflownCells =
        ((wideSaturated 1).overflows.countP fun v => decide (v > 0)))) ∧
    (wideSaturated 1).overflows = [65535, 0] :=
  ⟨C10_overflow_totals sampleEnv (wideSaturated 1) (wideSaturated_Reachable 1), by decide⟩

/-- C10 fails as it is stated, in both parts. The state `wideSaturated 32769`
is reachable (by 32770 calls `Insert("A", 65535)`); its ledger is
`-2147450881, 0`, so no entry is `> 0`, and `GetOverflownCells()` is 1. The
state `pairSaturated 16385` is reachable (by 16386 calls `Insert` with
multiplicity 65535); its ledger is `1073790975, 1073790975`, the sum of the
entries is `2147581950`, and `GetOverallOverflows()` is `-2147385346`. -/
theorem C10_counterexample :
    (Reachable sampleEnv (wideSaturated 32769) ∧
      (wideSaturated 32769).overflows = [-2147450881, 0] ∧
      (wideSaturated 32769).GetOverflownCells = 1 ∧
      (((wideSaturated 32769).overflows.countP fun v => decide (v > 0)) : Int) = 0 ∧
      (wideSaturated 32769).GetOverflownCells ≠
        ((wideSaturated 32769).overflows.countP fun v => decide (v > 0))) ∧
    (Reachable sampleEnv (pairSaturated 16385) ∧
      (pairSaturated 16385).overflows = [1073790975, 1073790975] ∧
      (pairSaturated 16385).overflows.sum = 2147581950 ∧
      (pairSaturated 16385).GetOverallOverflows = -2147385346 ∧
      (pairSaturated 16385).GetOverallOverflows ≠ (pairSaturated 16385).overflows.sum) :=
  ⟨⟨wideSaturated_Reachable 32769, by decide, by decide, by decide, by decide⟩,
    ⟨pairSaturated_Reachable 16385, by decide, by decide, by decide, by decide⟩⟩

/-! ## Construction: the validation of the arguments -/

/-- The loop of `CreateHashSalt` throws nothing but `std::runtime_error`. -/
theorem CreateHashSalt_loop_error (env : Env) (ks : List Nat) (e : Exception)
    (h : CBF.CreateHashSalt.loop env ks = Except.error e) : e = Exception.runtime_error := by
  induction ks with
  | nil => simp [CBF.CreateHashSalt.loop] at h
  | cons i is ih =>
    unfold CBF.CreateHashSalt.loop at h
    split at h
    · injection h with h; exact h.symm
    · split at h
      · rename_i e' he'
        injection h with h
        subst h
        exact ih he'
      · exact absurd h (by simp)

/-- Obtaining the salts throws nothing but `std::runtime_error`. -/
theorem salts_error (env : Env) (HASH_number : Int) (salt_path : String) (e : Exception)
    (h : (match env.salt_file salt_path with
      | some lines => CBF.LoadHashSalt env HASH_number lines
      | none => CBF.CreateHashSalt env HASH_number) = Except.error e) :
    e = Exception.runtime_error := by
  split at h
  · simp [CBF.LoadHashSalt] at h
  · exact CreateHashSalt_loop_error env _ e h

/-- The exceptions of the constructor. It throws `std::invalid_argument`
exactly when one of the five argument checks fails. -/
theorem construct_invalid_iff (env : Env)
    (bit_mapping HASH_family HASH_number MULTIPLICITY_max : Int) (salt_path : String)
    (forced_cell_size : Int) :
    CBF.construct env bit_mapping HASH_family HASH_number MULTIPLICITY_max salt_path
        forced_cell_size = Except.error Exception.invalid_argument ↔
      ((bit_mapping ≤ 0 ∨ bit_mapping > 32) ∨ (MULTIPLICITY_max ≤ 0 ∨ MULTIPLICITY_max > 65535) ∨
        (HASH_number ≤ 0 ∨ HASH_number > 1024) ∨ salt_path.length = 0 ∨ forced_cell_size > 2) := by
  unfold CBF.construct
  simp only [MAX_BIT_MAPPING, MAX_MULTIPLICITY, MAX_HASH_NUMBER]
  by_cases hbm : bit_mapping ≤ 0 ∨ bit_mapping > 32
  · rw [if_pos hbm]; simp only [hbm, true_or]
  rw [if_neg hbm]
  by_cases hmm : MULTIPLICITY_max ≤ 0 ∨ MULTIPLICITY_max > 65535
  · rw [if_pos hmm]; simp only [hmm, true_or, or_true]
  rw [if_neg hmm]
  by_cases hhn : HASH_number ≤ 0 ∨ HASH_number > 1024
  · rw [if_pos hhn]; simp only [hhn, true_or, or_true]
  rw [if_neg hhn]
  by_cases hsp : salt_path.length = 0
  · rw [if_pos hsp]; simp only [hsp, true_or, or_true]
  rw [if_neg hsp]
  by_cases hfc : forced_cell_size > 0 ∧ forced_cell_size > 2
  · rw [if_pos hfc]; simp only [hfc.2, or_true]
  rw [if_neg hfc]
  have hfc' : ¬ forced_cell_size > 2 := by omega
  simp only [hbm, hmm, hhn, hsp, hfc', or_false, iff_false]
  intro h
  generalize (if forced_cell_size > 0 then forced_cell_size
      else if MULTIPLICITY_max ≤ 255 then 1 else 2) = cs at h
  split at h
  · rename_i e he
    injection h with h
    have := salts_error env HASH_number salt_path e he
    rw [h] at this
    exact absurd this (by decide)
  · by_cases hsize : wrapInt32 (cs * double_to_int (2 ^ bit_mapping.toNat)) < 0
    · rw [if_pos hsize] at h
      injection h with h
      exact absurd h (by decide)
    rw [if_neg hsize] at h
    by_cases hcells : double_to_int (2 ^ bit_mapping.toNat) < 0
    · rw [if_pos hcells] at h
      injection h with h
      exact absurd h (by decide)
    rw [if_neg hcells] at h
    exact absurd h (by simp)

theorem String_length_eq_zero (s : String) : s.length = 0 ↔ s = "" := by
  constructor
  · intro h
    cases s with
    | mk d =>
      have hd : d = [] := List.length_eq_zero.1 h
      subst hd
      rfl
  · rintro rfl
    rfl

/-- The cell size of a constructed filter. -/
theorem construct_cell_size {env : Env}
    {bit_mapping HASH_family HASH_number MULTIPLICITY_max : Int}
    {salt_path : String} {forced_cell_size : Int} {s : CBF}
    (h : CBF.construct env bit_mapping HASH_family HASH_number MULTIPLICITY_max salt_path
      forced_cell_size = Except.ok s) :
    s.cell_size = (if forced_cell_size > 0 then forced_cell_size
      else if MULTIPLICITY_max ≤ 255 then 1 else 2) ∧
    s.HASH_digest_length = CBF.SetHashDigestLength HASH_family ∧
    s.BIG_end = env.is_big_endian := by
  unfold CBF.construct at h
  by_cases hbm : bit_mapping ≤ 0 ∨ bit_mapping > MAX_BIT_MAPPING
  · rw [if_pos hbm] at h; exact absurd h (by simp)
  rw [if_neg hbm] at h
  by_cases hmm : MULTIPLICITY_max ≤ 0 ∨ MULTIPLICITY_max > MAX_MULTIPLICITY
  · rw [if_pos hmm] at h; exact absurd h (by simp)
  rw [if_neg hmm] at h
  by_cases hhn : HASH_number ≤ 0 ∨ HASH_number > MAX_HASH_NUMBER
  · rw [if_pos hhn] at h; exact absurd h (by simp)
  rw [if_neg hhn] at h
  by_cases hsp : salt_path.length = 0
  · rw [if_pos hsp] at h; exact absurd h (by simp)
  rw [if_neg hsp] at h
  by_cases hfc : forced_cell_size > 0 ∧ forced_cell_size > 2
  · rw [if_pos hfc] at h; exact absurd h (by simp)
  rw [if_neg hfc] at h
  simp only at h
  generalize (if forced_cell_size > 0 then forced_cell_size
      else if MULTIPLICITY_max ≤ 255 then 1 else 2) = cs at h ⊢
  split at h
  · exact absurd h (by simp)
  by_cases hsize : wrapInt32 (cs * double_to_int (2 ^ bit_mapping.toNat)) < 0
  · rw [if_pos hsize] at h; exact absurd h (by simp)
  rw [if_neg hsize] at h
  by_cases hcells : double_to_int (2 ^ bit_mapping.toNat) < 0
  · rw [if_pos hcells] at h; exact absurd h (by simp)
  rw [if_neg hcells] at h
  injection h with h
  subst h
  exact ⟨rfl, rfl, rfl⟩

/-- Every value of `forced_cell_size` that is not positive is treated by the
constructor as the value `0`. -/
theorem construct_nonpos (env : Env)
    (bit_mapping HASH_family HASH_number MULTIPLICITY_max : Int) (salt_path : String)
    (forced_cell_size : Int) (h : forced_cell_size ≤ 0) :
    CBF.construct env bit_mapping HASH_family HASH_number MULTIPLICITY_max salt_path
        forced_cell_size =
      CBF.construct env bit_mapping HASH_family HASH_number MULTIPLICITY_max salt_path 0 := by
  have h1 : (forced_cell_size > 0) = False := eq_false (by omega)
  have h3 : ((0 : Int) > 0) = False := eq_false (by decide)
  unfold CBF.construct
  simp only [h1, h3, false_and, if_false]

/-! ## C11: the geometry of a constructed filter -/

/-- C11 on the code. The constructor accepts `bit_mapping` 31 and 32, but the
`int` field `cells` cannot hold `2^31` or `2^32`: `(int)pow(2, bit_mapping)` is
`INT_MIN`, the size of the cell array is not a valid length and the
allocation throws. The same happens for `bit_mapping = 30` with two-byte
cells, where `cells` is `2^30` and `cell_size * cells` is `INT_MIN`. Whenever
a filter is constructed, `bit_mapping ≤ 30`, `cells = 2^bit_mapping` and
`size = cells * cell_size`. -/
theorem C11_cells_overflow :
    CBF.construct sampleEnv 31 4 2 255 "salts.txt" 0 = Except.error Exception.bad_alloc ∧
    CBF.construct sampleEnv 32 4 2 255 "salts.txt" 0 = Except.error Exception.bad_alloc ∧
    CBF.construct sampleEnv 30 4 2 65535 "salts.txt" 0 = Except.error Exception.bad_alloc ∧
    double_to_int (2 ^ 31) = INT_MIN ∧ double_to_int (2 ^ 32) = INT_MIN ∧
    wrapInt32 (2 * double_to_int (2 ^ 30)) = INT_MIN ∧
    (∀ (env : Env) (bit_mapping HASH_family HASH_number MULTIPLICITY_max : Int)
      (salt_path : String) (forced_cell_size : Int) (s : CBF),
      CBF.construct env bit_mapping HASH_family HASH_number MULTIPLICITY_max salt_path
        forced_cell_size = Except.ok s →
      1 ≤ bit_mapping ∧ bit_mapping ≤ 30 ∧ s.cells = 2 ^ bit_mapping.toNat ∧
        s.size = s.cells * s.cell_size ∧ s.size ≤ INT_MAX) := by
  refine ⟨by decide, by decide, by decide, by decide, by decide, by decide, ?_⟩
  intro env bm hf hn mm sp fcs s h
  obtain ⟨hwf, _, _, _, _, hbm, _⟩ := construct_spec h
  have h1 := hwf.bit_mapping_pos
  have h2 := hwf.bit_mapping_le
  have h3 := hwf.cells
  have h4 := hwf.size
  have h5 := hwf.size_le
  rw [hbm] at h1 h2 h3
  exact ⟨h1, h2, h3, by rw [h4, mul_comm], h5⟩

/-! ## C12: the argument checks of the constructor -/

/-- C12. With `forced_cell_size` in `{0, 1, 2}`, and whatever the salt source
does, the constructor throws `std::invalid_argument` if and only if
`bit_mapping` is outside `[1, 32]`, or `MULTIPLICITY_max` is outside
`[1, 65535]`, or `HASH_number` is outside `[1, 1024]`, or `salt_path` is the
empty string; so each of the four violations alone is enough. -/
theorem C12_construct_validation (env : Env)
    (bit_mapping HASH_family HASH_number MULTIPLICITY_max : Int) (salt_path : String)
    (forced_cell_size : Int)
    (hfcs : forced_cell_size = 0 ∨ forced_cell_size = 1 ∨ forced_cell_size = 2) :
    CBF.construct env bit_mapping HASH_family HASH_number MULTIPLICITY_max salt_path
        forced_cell_size = Except.error Exception.invalid_argument ↔
      ((bit_mapping < 1 ∨ 32 < bit_mapping) ∨ (MULTIPLICITY_max < 1 ∨ 65535 < MULTIPLICITY_max) ∨
        (HASH_number < 1 ∨ 1024 < HASH_number) ∨ salt_path = "") := by
  rw [construct_invalid_iff, String_length_eq_zero]
  have hf : ¬ forced_cell_size > 2 := by omega
  constructor
  · rintro (h | h | h | h | h)
    · left; omega
    · right; left; omega
    · right; right; left; omega
    · right; right; right; exact h
    · exact absurd h hf
  · rintro (h | h | h | h)
    · left; omega
    · right; left; omega
    · right; right; left; omega
    · right; right; right; left; exact h

/-- C12 at the sample environment: `bit_mapping = 33` is refused. -/
theorem C12_construct_validation_witness :
    (CBF.construct sampleEnv 33 4 2 255 "salts.txt" 0 =
        Except.error Exception.invalid_argument ↔
      (((33 : Int) < 1 ∨ (32 : Int) < 33) ∨ ((255 : Int) < 1 ∨ (65535 : Int) < 255) ∨
        ((2 : Int) < 1 ∨ (1024 : Int) < 2) ∨ "salts.txt" = "")) ∧
    CBF.construct sampleEnv 33 4 2 255 "salts.txt" 0 = Except.error Exception.invalid_argument :=
  ⟨C12_construct_validation sampleEnv 33 4 2 255 "salts.txt" 0 (Or.inl rfl), by decide⟩

/-! ## C13: the forced cell size -/

/-- C13, as the code has it. For otherwise valid construction arguments:
every `forced_cell_size > 2` makes the constructor throw
`std::invalid_argument`; every `forced_cell_size ≤ 0`, so `0` and every
negative value, is treated as `0`; no `forced_cell_size ≤ 2` makes it throw
`std::invalid_argument`; and the filter that is constructed has
`cell_size = forced_cell_size` for the values 1 and 2, and the automatic cell
size (1 for `MULTIPLICITY_max ≤ 255`, 2 otherwise) for every value `≤ 0`. -/
theorem C13_forced_cell_size (env : Env)
    (bit_mapping HASH_family HASH_number MULTIPLICITY_max : Int) (salt_path : String)
    (forced_cell_size : Int)
    (hbm : 1 ≤ bit_mapping ∧ bit_mapping ≤ 32)
    (hmm : 1 ≤ MULTIPLICITY_max ∧ MULTIPLICITY_max ≤ 65535)
    (hhn : 1 ≤ HASH_number ∧ HASH_number ≤ 1024) (hsp : salt_path ≠ "") :
    (forced_cell_size > 2 →
      CBF.construct env bit_mapping HASH_family HASH_number MULTIPLICITY_max salt_path
        forced_cell_size = Except.error Exception.invalid_argument) ∧
    (forced_cell_size ≤ 0 →
      CBF.construct env bit_mapping HASH_family HASH_number MULTIPLICITY_max salt_path
          forced_cell_size =
        CBF.construct env bit_mapping HASH_family HASH_number MULTIPLICITY_max salt_path 0) ∧
    (forced_cell_size ≤ 2 →
      CBF.construct env bit_mapping HASH_family HASH_number MULTIPLICITY_max salt_path
        forced_cell_size ≠ Except.error Exception.invalid_argument) ∧
    (∀ s : CBF,
      CBF.construct env bit_mapping HASH_family HASH_number MULTIPLICITY_max salt_path
        forced_cell_size = Except.ok s →
      (forced_cell_size = 1 ∨ forced_cell_size = 2 → s.cell_size = forced_cell_size) ∧
      (forced_cell_size ≤ 0 → s.cell_size = if MULTIPLICITY_max ≤ 255 then 1 else 2)) := by
  have hsp' : ¬ salt_path.length = 0 := fun h => hsp ((String_length_eq_zero _).1 h)
  refine ⟨?_, ?_, ?_, ?_⟩
  · intro h
    rw [construct_invalid_iff]
    right; right; right; right; exact h
  · intro h
    exact construct_nonpos env _ _ _ _ _ _ h
  · intro h
    rw [Ne, construct_invalid_iff]
    rintro (h' | h' | h' | h' | h')
    · omega
    · omega
    · omega
    · exact hsp' h'
    · omega
  · intro s hs
    have hcs := (construct_cell_size hs).1
    constructor
    · intro h
      rw [hcs, if_pos (by omega)]
    · intro h
      rw [hcs, if_neg (by omega)]

/-- C13 at the sample environment, for `forced_cell_size = -1`. -/
theorem C13_forced_cell_size_witness :
    CBF.construct sampleEnv 4 4 2 255 "salts.txt" (-1) =
      CBF.construct sampleEnv 4 4 2 255 "salts.txt" 0 :=
  (C13_forced_cell_size sampleEnv 4 4 2 255 "salts.txt" (-1) (by decide) (by decide) (by decide)
    (by decide)).2.1 (by decide)

/-- C13 fails as it is stated: with `forced_cell_size = -1` and otherwise
valid arguments the constructor throws nothing and builds the filter it
builds for `forced_cell_size = 0`, with one-byte cells. -/
theorem C13_counterexample :
    CBF.construct sampleEnv 4 4 2 255 "salts.txt" (-1) = Except.ok sampleFilter ∧
    CBF.construct sampleEnv 4 4 2 255 "salts.txt" (-1) ≠
      Except.error Exception.invalid_argument ∧
    sampleFilter.cell_size = 1 := by
  have h : CBF.construct sampleEnv 4 4 2 255 "salts.txt" (-1) = Except.ok sampleFilter := by
    rw [construct_nonpos sampleEnv 4 4 2 255 "salts.txt" (-1) (by decide)]
    exact sampleFilter_construct
  refine ⟨h, ?_, rfl⟩
  rw [h]
  exact fun h' => by injection h'

/-! ## C14: automatic cell sizing -/

/-- C14. A filter constructed with `forced_cell_size = 0` has
`MULTIPLICITY_max` in `[1, 65535]`, `cell_size = 1` exactly when
`MULTIPLICITY_max ≤ 255` and `cell_size = 2` otherwise, so
`MULTIPLICITY_max ≤ max_counter`; and in every state the filter reaches by
`Insert` calls, `Insert` accepts every multiplicity `m` with
`0 ≤ m ≤ MULTIPLICITY_max`. -/
theorem C14_automatic_cell_size (env : Env)
    (bit_mapping HASH_family HASH_number MULTIPLICITY_max : Int) (salt_path : String) (s0 : CBF)
    (hc : CBF.construct env bit_mapping HASH_family HASH_number MULTIPLICITY_max salt_path 0 =
      Except.ok s0) :
    (1 ≤ MULTIPLICITY_max ∧ MULTIPLICITY_max ≤ 65535) ∧
    (s0.cell_size = 1 ↔ MULTIPLICITY_max ≤ 255) ∧
    (s0.cell_size = 2 ↔ ¬ MULTIPLICITY_max ≤ 255) ∧
    MULTIPLICITY_max ≤ s0.max_counter ∧
    (∀ (calls : List (List Nat × Int)) (s : CBF), s0.InsertAll env calls = Except.ok s →
      ∀ (e : List Nat) (m : Int), 0 ≤ m → m ≤ MULTIPLICITY_max →
        ∃ s1, s.Insert env e m = Except.ok s1) := by
  have hwf0 := (construct_spec hc).1
  have hcs := (construct_cell_size hc).1
  rw [if_neg (by decide)] at hcs
  have hmm : 1 ≤ MULTIPLICITY_max ∧ MULTIPLICITY_max ≤ 65535 := by
    by_contra hcon
    have : CBF.construct env bit_mapping HASH_family HASH_number MULTIPLICITY_max salt_path 0 =
        Except.error Exception.invalid_argument := by
      rw [construct_invalid_iff]
      right; left; omega
    rw [this] at hc
    exact absurd hc (by simp)
  have hmax : MULTIPLICITY_max ≤ s0.max_counter := by
    unfold CBF.max_counter
    rw [hcs]
    by_cases h : MULTIPLICITY_max ≤ 255
    · rw [if_pos h, if_pos rfl]; exact h
    · rw [if_neg h, if_neg (by decide)]; exact hmm.2
  refine ⟨hmm, ?_, ?_, hmax, ?_⟩
  · rw [hcs]
    by_cases h : MULTIPLICITY_max ≤ 255
    · rw [if_pos h]; simp [h]
    · rw [if_neg h]; simp [h]
  · rw [hcs]
    by_cases h : MULTIPLICITY_max ≤ 255
    · rw [if_pos h]; simp [h]
    · rw [if_neg h]; simp [h]
  · intro calls s hs e m h0 h1
    obtain ⟨hwf, hcfg, _⟩ := InsertAll_WF calls hwf0 hs
    obtain ⟨s1, hs1, _⟩ := Insert_spec env hwf e m h0 (by rw [hcfg.max_counter]; omega)
    exact ⟨s1, hs1⟩

/-- C14 at the sample filter (`MULTIPLICITY_max = 255`, one-byte cells). -/
theorem C14_automatic_cell_size_witness :
    ((1 : Int) ≤ 255 ∧ (255 : Int) ≤ 65535) ∧
    (sampleFilter.cell_size = 1 ↔ (255 : Int) ≤ 255) ∧
    (sampleFilter.cell_size = 2 ↔ ¬ (255 : Int) ≤ 255) ∧
    (255 : Int) ≤ sampleFilter.max_counter ∧
    (∀ (calls : List (List Nat × Int)) (s : CBF),
      sampleFilter.InsertAll sampleEnv calls = Except.ok s →
      ∀ (e : List Nat) (m : Int), 0 ≤ m → m ≤ 255 → ∃ s1, s.Insert sampleEnv e m = Except.ok s1) :=
  C14_automatic_cell_size sampleEnv 4 4 2 255 "salts.txt" sampleFilter sampleFilter_construct

/-! ## C15: from the digest to the cell index -/

/-- The fold of four bytes by shifts and bitwise or is their positional sum,
and it is below `2^32`. -/
theorem fold_bytes (a b c d : Nat) (ha : a < 256) (hb : b < 256) (hc : c < 256) (hd : d < 256) :
    wrapUInt32 ((a <<< 24) ||| (b <<< 16) ||| (c <<< 8) ||| d) =
      a * 2 ^ 24 + b * 2 ^ 16 + c * 2 ^ 8 + d := by
  have h1 : (a <<< 24) ||| (b <<< 16) = a * 2 ^ 24 + b * 2 ^ 16 := by
    rw [Nat.shiftLeft_eq, Nat.shiftLeft_eq]
    have : b * 2 ^ 16 < 2 ^ 24 := by omega
    rw [Nat.mul_comm a, Nat.mul_add_lt_is_or this]
  have h2 : (a * 2 ^ 24 + b * 2 ^ 16) ||| (c <<< 8) = a * 2 ^ 24 + b * 2 ^ 16 + c * 2 ^ 8 := by
    rw [Nat.shiftLeft_eq]
    have : c * 2 ^ 8 < 2 ^ 16 := by omega
    have e : a * 2 ^ 24 + b * 2 ^ 16 = 2 ^ 16 * (a * 2 ^ 8 + b) := by ring
    rw [e, Nat.mul_add_lt_is_or this]
  have h3 : (a * 2 ^ 24 + b * 2 ^ 16 + c * 2 ^ 8) ||| d =
      a * 2 ^ 24 + b * 2 ^ 16 + c * 2 ^ 8 + d := by
    have : d < 2 ^ 8 := by omega
    have e : a * 2 ^ 24 + b * 2 ^ 16 + c * 2 ^ 8 = 2 ^ 8 * (a * 2 ^ 16 + b * 2 ^ 8 + c) := by ring
    rw [e, Nat.mul_add_lt_is_or this]
  rw [h1, h2, h3]
  unfold wrapUInt32
  omega

theorem digest32_bytes (env : Env) (s : CBF) (string : List Nat) (k : Nat) :
    ∀ b ∈ s.digest32 env string k, b < 256 := by
  intro b hb
  unfold CBF.digest32 at hb
  simp only [List.mem_map] at hb
  obtain ⟨i, _, rfl⟩ := hb
  exact Nat.mod_lt _ (by norm_num)

/-- C15. Let `b0, b1, b2, b3` be the truncated digest of a round of an
element, and `bit_mapping` in `[1, 32]`. The four bytes are below 256, and
the cell index computed by `Insert` and the one computed by `Check` are both
`F / 2^(32 - bit_mapping)` (integer division), where
`F = b0*2^24 + b1*2^16 + b2*2^8 + b3` when `BIG_end` is set and
`F = b3*2^24 + b2*2^16 + b1*2^8 + b0` otherwise; in particular the two
indices are the same. -/
theorem C15_digest_to_index (env : Env) (s : CBF) (e : List Nat) (k : Nat)
    (hbm : 1 ≤ s.bit_mapping ∧ s.bit_mapping ≤ 32) (b0 b1 b2 b3 : Nat)
    (hd : s.digest32 env e k = [b0, b1, b2, b3]) :
    (b0 < 256 ∧ b1 < 256 ∧ b2 < 256 ∧ b3 < 256) ∧
    CBF.Insert.digest_index env s e k =
      (if s.BIG_end ≠ 0 then b0 * 2 ^ 24 + b1 * 2 ^ 16 + b2 * 2 ^ 8 + b3
        else b3 * 2 ^ 24 + b2 * 2 ^ 16 + b1 * 2 ^ 8 + b0) / 2 ^ (32 - s.bit_mapping.toNat) ∧
    CBF.Check.digest_index env s e k =
      (if s.BIG_end ≠ 0 then b0 * 2 ^ 24 + b1 * 2 ^ 16 + b2 * 2 ^ 8 + b3
        else b3 * 2 ^ 24 + b2 * 2 ^ 16 + b1 * 2 ^ 8 + b0) / 2 ^ (32 - s.bit_mapping.toNat) ∧
    CBF.Insert.digest_index env s e k = CBF.Check.digest_index env s e k := by
  have hb := digest32_bytes env s e k
  rw [hd] at hb
  have h0 : b0 < 256 := hb b0 (by simp)
  have h1 : b1 < 256 := hb b1 (by simp)
  have h2 : b2 < 256 := hb b2 (by simp)
  have h3 : b3 < 256 := hb b3 (by simp)
  have hI : CBF.Insert.digest_index env s e k =
      (if s.BIG_end ≠ 0 then
        wrapUInt32 (((s.digest32 env e k).getD 0 0 <<< 24) |||
          ((s.digest32 env e k).getD 1 0 <<< 16) |||
          ((s.digest32 env e k).getD 2 0 <<< 8) ||| (s.digest32 env e k).getD 3 0)
      else
        wrapUInt32 (((s.digest32 env e k).getD 3 0 <<< 24) |||
          ((s.digest32 env e k).getD 2 0 <<< 16) |||
          ((s.digest32 env e k).getD 1 0 <<< 8) ||| (s.digest32 env e k).getD 0 0)) >>>
        (MAX_BIT_MAPPING - s.bit_mapping).toNat := rfl
  have hC : CBF.Check.digest_index env s e k =
      (if s.BIG_end ≠ 0 then
        wrapUInt32 (((s.digest32 env e k).getD 0 0 <<< 24) |||
          ((s.digest32 env e k).getD 1 0 <<< 16) |||
          ((s.digest32 env e k).getD 2 0 <<< 8) ||| (s.digest32 env e k).getD 3 0)
      else
        wrapUInt32 (((s.digest32 env e k).getD 3 0 <<< 24) |||
          ((s.digest32 env e k).getD 2 0 <<< 16) |||
          ((s.digest32 env e k).getD 1 0 <<< 8) ||| (s.digest32 env e k).getD 0 0)) >>>
        (MAX_BIT_MAPPING - s.bit_mapping).toNat := rfl
  have hg0 : ([b0, b1, b2, b3] : List Nat).getD 0 0 = b0 := rfl
  have hg1 : ([b0, b1, b2, b3] : List Nat).getD 1 0 = b1 := rfl
  have hg2 : ([b0, b1, b2, b3] : List Nat).getD 2 0 = b2 := rfl
  have hg3 : ([b0, b1, b2, b3] : List Nat).getD 3 0 = b3 := rfl
  have key : CBF.Insert.digest_index env s e k =
      (if s.BIG_end ≠ 0 then b0 * 2 ^ 24 + b1 * 2 ^ 16 + b2 * 2 ^ 8 + b3
        else b3 * 2 ^ 24 + b2 * 2 ^ 16 + b1 * 2 ^ 8 + b0) / 2 ^ (32 - s.bit_mapping.toNat) := by
    rw [hI, hd, hg0, hg1, hg2, hg3, fold_bytes b0 b1 b2 b3 h0 h1 h2 h3,
      fold_bytes b3 b2 b1 b0 h3 h2 h1 h0, Nat.shiftRight_eq_div_pow]
    have hexp : (MAX_BIT_MAPPING - s.bit_mapping).toNat = 32 - s.bit_mapping.toNat := by
      unfold MAX_BIT_MAPPING
      omega
    rw [hexp]
  exact ⟨⟨h0, h1, h2, h3⟩, key, by rw [hC, ← hI]; exact key, by rw [hC, ← hI]⟩

/-- C15 at the sample filter: the truncated digest of round 0 of "A" is
`65, 65, 65, 65`, the host is little-endian, and the index is 4. -/
theorem C15_digest_to_index_witness :
    ((65 < 256 ∧ 65 < 256 ∧ 65 < 256 ∧ 65 < 256) ∧
    CBF.Insert.digest_index sampleEnv sampleFilter [65] 0 =
      (if sampleFilter.BIG_end ≠ 0 then 65 * 2 ^ 24 + 65 * 2 ^ 16 + 65 * 2 ^ 8 + 65
        else 65 * 2 ^ 24 + 65 * 2 ^ 16 + 65 * 2 ^ 8 + 65) /
          2 ^ (32 - sampleFilter.bit_mapping.toNat) ∧
    CBF.Check.digest_index sampleEnv sampleFilter [65] 0 =
      (if sampleFilter.BIG_end ≠ 0 then 65 * 2 ^ 24 + 65 * 2 ^ 16 + 65 * 2 ^ 8 + 65
        else 65 * 2 ^ 24 + 65 * 2 ^ 16 + 65 * 2 ^ 8 + 65) /
          2 ^ (32 - sampleFilter.bit_mapping.toNat) ∧
    CBF.Insert.digest_index sampleEnv sampleFilter [65] 0 =
      CBF.Check.digest_index sampleEnv sampleFilter [65] 0) ∧
    CBF.Insert.digest_index sampleEnv sampleFilter [65] 0 = 4 :=
  ⟨C15_digest_to_index sampleEnv sampleFilter [65] 0 (by decide) 65 65 65 65 (by decide),
    by decide⟩

/-! ## C16, C17: the scan of the cells in the statistics -/

/-- A counting loop over a list of indices counts the indices with the
property, as long as the count is an `int`. -/
theorem foldl_count_indices (P : Nat → Prop) [DecidablePred P] (l : List Nat) :
    ∀ a : Int, 0 ≤ a → a + l.length ≤ INT_MAX →
    l.foldl (fun c i => if P i then wrapInt32 (c + 1) else c) a =
      a + (l.countP fun i => decide (P i)) := by
  induction l with
  | nil => intro a _ _; simp
  | cons v l ih =>
    intro a ha hlen
    rw [List.length_cons] at hlen
    push_cast at hlen
    unfold INT_MAX at hlen
    rw [List.foldl_cons, List.countP_cons]
    by_cases hv : P v
    · have hw : wrapInt32 (a + 1) = a + 1 := wrapInt32_id _ (by omega) (by omega)
      rw [if_pos hv, hw, ih (a + 1) (by omega) (by unfold INT_MAX; omega)]
      have hd : decide (P v) = true := decide_eq_true hv
      rw [hd, if_pos rfl]
      push_cast; ring
    · rw [if_neg hv, ih a ha (by unfold INT_MAX; omega)]
      have hd : decide (P v) = false := decide_eq_false hv
      rw [hd, if_neg (by simp), add_zero]

/-- Counting over all the cells is counting cell 0 and then the cells
`1, ..., n`. -/
theorem countP_range_succ (p : Nat → Bool) (n : Nat) :
    (List.range (n + 1)).countP p = (if p 0 then 1 else 0) + (List.range' 1 n).countP p := by
  rw [List.range_eq_range', List.range'_succ, List.countP_cons, Nat.zero_add]
  omega

/-- The sparsity computed by the code, in a well-formed state: the cells
`1, ..., cells - 1` are scanned, cell 0 is not. -/
theorem GetFilterSparsity_eq {s : CBF} (hwf : s.WF) :
    s.GetFilterSparsity =
      (((List.range' 1 (s.cells - 1).toNat).countP fun i => decide (s.GetCell i ≠ 0) : Nat) : ℚ) /
        (s.cells : ℚ) := by
  obtain ⟨n, hn, _, hn30, _⟩ := WF_cells_nat hwf
  unfold CBF.GetFilterSparsity
  simp only
  rw [foldl_count_indices (fun i => s.GetCell i ≠ 0) _ 0 (le_refl _) (by
    rw [List.length_range']; unfold INT_MAX; omega)]
  rw [zero_add]
  norm_cast

/-- The a-posteriori probability computed by the code, in a well-formed
state: the cells `1, ..., cells - 1` are scanned, cell 0 is not. -/
theorem GetFilterFpp_eq {s : CBF} (hwf : s.WF) :
    s.GetFilterFpp =
      ((((List.range' 1 (s.cells - 1).toNat).countP fun i => decide (s.GetCell i > 0) : Nat) : ℚ) /
        (s.cells : ℚ)) ^ s.HASH_number := by
  obtain ⟨n, hn, _, hn30, _⟩ := WF_cells_nat hwf
  unfold CBF.GetFilterFpp
  simp only
  rw [foldl_count_indices (fun i => s.GetCell i > 0) _ 0 (le_refl _) (by
    rw [List.length_range']; unfold INT_MAX; omega)]
  rw [zero_add]
  norm_cast


/-- The sparsity of the specification is the computed one plus the share of
cell 0. -/
theorem GetFilterSparsity_spec_eq {s : CBF} (hwf : s.WF) :
    s.GetFilterSparsity_spec =
      s.GetFilterSparsity + (if s.GetCell 0 ≠ 0 then 1 else 0) / (s.cells : ℚ) := by
  obtain ⟨n, hn, hn2, _⟩ := WF_cells_nat hwf
  rw [GetFilterSparsity_eq hwf]
  unfold CBF.GetFilterSparsity_spec
  have h1 : s.cells.toNat = (n - 1) + 1 := by omega
  have h2 : (s.cells - 1).toNat = n - 1 := by omega
  rw [h1, h2, countP_range_succ]
  by_cases h0 : s.GetCell 0 ≠ 0
  · rw [if_pos h0, if_pos (decide_eq_true h0)]
    push_cast
    ring
  · rw [if_neg h0, if_neg (by rw [decide_eq_false h0]; simp)]
    push_cast
    ring

/-- The a-posteriori probability of the specification counts cell 0 as
well. -/
theorem GetFilterFpp_spec_eq {s : CBF} (hwf : s.WF) :
    s.GetFilterFpp_spec =
      (((((List.range' 1 (s.cells - 1).toNat).countP fun i => decide (s.GetCell i > 0) : Nat) :
        ℚ) + (if s.GetCell 0 > 0 then 1 else 0)) / (s.cells : ℚ)) ^ s.HASH_number := by
  obtain ⟨n, hn, hn2, _⟩ := WF_cells_nat hwf
  unfold CBF.GetFilterFpp_spec
  have h1 : s.cells.toNat = (n - 1) + 1 := by omega
  have h2 : (s.cells - 1).toNat = n - 1 := by omega
  rw [h1, h2, countP_range_succ]
  by_cases h0 : s.GetCell 0 > 0
  · rw [if_pos h0, if_pos (decide_eq_true h0)]
    push_cast
    rw [add_comm]
  · rw [if_neg h0, if_neg (by rw [decide_eq_false h0]; simp)]
    push_cast
    rw [add_comm]

set_option maxRecDepth 100000 in
/-- The test vectors of RFC 1320 for the messages "", "a" and "abc", and the
digests of the one-byte messages "A" and "F". -/
theorem MD4_digest_vectors :
    MD4.digest [] =
      [0x31, 0xd6, 0xcf, 0xe0, 0xd1, 0x6a, 0xe9, 0x31, 0xb7, 0x3c, 0x59, 0xd7, 0xe0, 0xc0, 0x89,
        0xc0] ∧
    MD4.digest [97] =
      [0xbd, 0xe5, 0x2c, 0xb3, 0x1d, 0xe3, 0x3e, 0x46, 0x24, 0x5e, 0x05, 0xfb, 0xdb, 0xd6, 0xfb,
        0x24] ∧
    MD4.digest [97, 98, 99] =
      [0xa4, 0x48, 0x01, 0x7a, 0xaf, 0x21, 0xd8, 0x52, 0x5f, 0xc1, 0x0a, 0xe8, 0x7a, 0xa6, 0x72,
        0x9d] ∧
    MD4.digest [65] =
      [0xd5, 0xef, 0x20, 0xee, 0xb3, 0xf7, 0x56, 0x79, 0xf8, 0x6c, 0xf5, 0x7f, 0x93, 0xed, 0x0f,
        0xfe] ∧
    MD4.digest [70] =
      [0x18, 0x9b, 0xb2, 0x72, 0xd9, 0x16, 0xee, 0xa5, 0xb9, 0x9b, 0x2a, 0x57, 0x2a, 0xd9, 0x3e,
        0x9a] := by
  refine ⟨?_, ?_, ?_, ?_, ?_⟩ <;> decide

set_option maxRecDepth 100000 in
theorem zeroSaltFilter_construct (big_end : Int) (h : big_end = 0 ∨ big_end = 1) :
    CBF.construct (md4Env big_end) 1 4 1 255 "salts.txt" 0 =
      Except.ok (zeroSaltFilter big_end) := by
  rcases h with h | h <;> subst h <;> decide

set_option maxRecDepth 100000 in
theorem zeroSaltInserted_Insert (big_end : Int) (h : big_end = 0 ∨ big_end = 1) :
    (zeroSaltFilter big_end).Insert (md4Env big_end) [70] 1 =
      Except.ok (zeroSaltInserted big_end) := by
  rcases h with h | h <;> subst h <;> decide

theorem zeroSaltInserted_Reachable (big_end : Int) (h : big_end = 0 ∨ big_end = 1) :
    Reachable (md4Env big_end) (zeroSaltInserted big_end) :=
  Reachable.insert (zeroSaltFilter big_end) _ [70] 1
    (Reachable.fresh 1 4 1 255 "salts.txt" 0 _ (zeroSaltFilter_construct big_end h))
    (by decide) (zeroSaltInserted_Insert big_end h)

/-- An `Insert` with a multiplicity `≥ 1` of an element with a round that maps
to cell 0 leaves cell 0 above `0`. -/
theorem Insert_cell_zero (env : Env) {s s1 : CBF} (hwf : s.WF) {e : List Nat} {m : Int}
    (k : Nat) (hk : (k : Int) < s.HASH_number)
    (h0 : CBF.Insert.digest_index env s e k = 0) (hm : 1 ≤ m)
    (hs : s.Insert env e m = Except.ok s1) : s1.WF ∧ 0 < s1.GetCell 0 := by
  obtain ⟨hm0, hm1⟩ := Insert_ok_valid hwf hs
  obtain ⟨s1', hs1', hwf1, _, _, _, _, hge⟩ := Insert_spec env hwf e m hm0 hm1
  rw [hs] at hs1'
  injection hs1' with hs1'
  subst hs1'
  have := hge k hk
  rw [h0] at this
  exact ⟨hwf1, by omega⟩

/-- C16 on the code. The loop of `GetFilterSparsity` starts at cell 1, so the
sparsity it returns leaves cell 0 out: in every well-formed state the value
of the specification is the returned value plus `1 / cells` when cell 0 reads
other than `0`. So, whatever the digests are, after an `Insert` with a
multiplicity `≥ 1` of an element with a round that maps to cell 0 the
returned value is not the value of the specification. With the MD4 of
RFC 1320, a salt of 128 zero bytes read from the salt file, two one-byte
cells and one round, the element "F" maps to cell 0 on a little-endian and on
a big-endian host: after `Insert("F", 1)` cell 0 reads 1 and cell 1 reads 0,
`GetFilterSparsity()` is `0` and the value of the specification is `1/2`. -/
theorem C16_sparsity_skips_cell_zero :
    (∀ s : CBF, s.WF →
      s.GetFilterSparsity =
        (((List.range' 1 (s.cells - 1).toNat).countP fun i => decide (s.GetCell i ≠ 0) : Nat) :
          ℚ) / (s.cells : ℚ) ∧
      s.GetFilterSparsity_spec =
        s.GetFilterSparsity + (if s.GetCell 0 ≠ 0 then 1 else 0) / (s.cells : ℚ)) ∧
    (∀ (env : Env) (s s1 : CBF) (e : List Nat) (m : Int) (k : Nat),
      Reachable env s → (k : Int) < s.HASH_number →
      CBF.Insert.digest_index env s e k = 0 → 1 ≤ m → s.Insert env e m = Except.ok s1 →
      s1.GetCell 0 ≠ 0 ∧
        s1.GetFilterSparsity_spec = s1.GetFilterSparsity + 1 / (s1.cells : ℚ) ∧
        s1.GetFilterSparsity ≠ s1.GetFilterSparsity_spec) ∧
    (∀ big_end : Int, big_end = 0 ∨ big_end = 1 →
      CBF.construct (md4Env big_end) 1 4 1 255 "salts.txt" 0 =
        Except.ok (zeroSaltFilter big_end) ∧
      (md4Env big_end).MD4 [70] =
        [0x18, 0x9b, 0xb2, 0x72, 0xd9, 0x16, 0xee, 0xa5, 0xb9, 0x9b, 0x2a, 0x57, 0x2a, 0xd9,
          0x3e, 0x9a] ∧
      CBF.Insert.digest_index (md4Env big_end) (zeroSaltFilter big_end) [70] 0 = 0 ∧
      (zeroSaltFilter big_end).Insert (md4Env big_end) [70] 1 =
        Except.ok (zeroSaltInserted big_end) ∧
      (zeroSaltInserted big_end).cells = 2 ∧
      (zeroSaltInserted big_end).GetCell 0 = 1 ∧ (zeroSaltInserted big_end).GetCell 1 = 0 ∧
      (zeroSaltInserted big_end).GetFilterSparsity = 0 ∧
      (zeroSaltInserted big_end).GetFilterSparsity_spec = 1 / 2) := by
  refine ⟨fun s h => ⟨GetFilterSparsity_eq h, GetFilterSparsity_spec_eq h⟩, ?_, ?_⟩
  · intro env s s1 e m k hs hk h0 hm hins
    obtain ⟨hwf1, hpos⟩ := Insert_cell_zero env hs.WF k hk h0 hm hins
    have hne : s1.GetCell 0 ≠ 0 := by omega
    obtain ⟨n, hn, hn2, _⟩ := WF_cells_nat hwf1
    have hspec := GetFilterSparsity_spec_eq hwf1
    rw [if_pos hne] at hspec
    refine ⟨hne, hspec, ?_⟩
    rw [hspec]
    have hc : (0 : ℚ) < 1 / (s1.cells : ℚ) := by
      rw [hn]
      have : (0 : ℚ) < ((n : Int) : ℚ) := by exact_mod_cast (by omega : 0 < n)
      positivity
    intro heq
    linarith
  · intro big_end hb
    have hwf := (zeroSaltInserted_Reachable big_end hb).WF
    have hidx : CBF.Insert.digest_index (md4Env big_end) (zeroSaltFilter big_end) [70] 0 = 0 := by
      rcases hb with h | h <;> subst h <;> decide
    have hcode : (zeroSaltInserted big_end).GetFilterSparsity = 0 := by
      rw [GetFilterSparsity_eq hwf]
      have hc : ((List.range' 1 ((zeroSaltInserted big_end).cells - 1).toNat).countP
          fun i => decide ((zeroSaltInserted big_end).GetCell i ≠ 0)) = 0 := by
        rcases hb with h | h <;> subst h <;> decide
      rw [hc]
      simp
    have hg0 : (zeroSaltInserted big_end).GetCell 0 = 1 := by
      rcases hb with h | h <;> subst h <;> decide
    have hg1 : (zeroSaltInserted big_end).GetCell 1 = 0 := by
      rcases hb with h | h <;> subst h <;> decide
    refine ⟨zeroSaltFilter_construct big_end hb, MD4_digest_vectors.2.2.2.2, hidx,
      zeroSaltInserted_Insert big_end hb, rfl, hg0, hg1, hcode, ?_⟩
    rw [GetFilterSparsity_spec_eq hwf, hcode, hg0]
    have hcells : ((zeroSaltInserted big_end).cells : ℚ) = 2 := by
      show (((2 : Int)) : ℚ) = 2
      norm_num
    rw [hcells]
    norm_num

/-- C17 on the code. The loop of `GetFilterFpp` starts at cell 1, so the
fraction it raises to the power `HASH_number` leaves cell 0 out, while the
fraction of the specification counts it. So, whatever the digests are, after
an `Insert` with a multiplicity `≥ 1` of an element with a round that maps to
cell 0 the returned value is below the value of the specification. With the
MD4 of RFC 1320, a salt of 128 zero bytes read from the salt file, two
one-byte cells and one round, the element "F" maps to cell 0 on a
little-endian and on a big-endian host: after `Insert("F", 1)` cell 0 reads 1
and cell 1 reads 0, `GetFilterFpp()` is `0` and the value of the
specification is `1/2`. -/
theorem C17_fpp_skips_cell_zero :
    (∀ s : CBF, s.WF →
      s.GetFilterFpp =
        ((((List.range' 1 (s.cells - 1).toNat).countP fun i => decide (s.GetCell i > 0) : Nat) :
          ℚ) / (s.cells : ℚ)) ^ s.HASH_number ∧
      s.GetFilterFpp_spec =
        (((((List.range' 1 (s.cells - 1).toNat).countP fun i => decide (s.GetCell i > 0) : Nat) :
          ℚ) + (if s.GetCell 0 > 0 then 1 else 0)) / (s.cells : ℚ)) ^ s.HASH_number) ∧
    (∀ (env : Env) (s s1 : CBF) (e : List Nat) (m : Int) (k : Nat),
      Reachable env s → (k : Int) < s.HASH_number →
      CBF.Insert.digest_index env s e k = 0 → 1 ≤ m → s.Insert env e m = Except.ok s1 →
      s1.GetCell 0 > 0 ∧ s1.GetFilterFpp < s1.GetFilterFpp_spec ∧
        s1.GetFilterFpp ≠ s1.GetFilterFpp_spec) ∧
    (∀ big_end : Int, big_end = 0 ∨ big_end = 1 →
      CBF.construct (md4Env big_end) 1 4 1 255 "salts.txt" 0 =
        Except.ok (zeroSaltFilter big_end) ∧
      (md4Env big_end).MD4 [70] =
        [0x18, 0x9b, 0xb2, 0x72, 0xd9, 0x16, 0xee, 0xa5, 0xb9, 0x9b, 0x2a, 0x57, 0x2a, 0xd9,
          0x3e, 0x9a] ∧
      CBF.Insert.digest_index (md4Env big_end) (zeroSaltFilter big_end) [70] 0 = 0 ∧
      (zeroSaltFilter big_end).Insert (md4Env big_end) [70] 1 =
        Except.ok (zeroSaltInserted big_end) ∧
      (zeroSaltInserted big_end).cells = 2 ∧ (zeroSaltInserted big_end).HASH_number = 1 ∧
      (zeroSaltInserted big_end).GetCell 0 = 1 ∧ (zeroSaltInserted big_end).GetCell 1 = 0 ∧
      (zeroSaltInserted big_end).GetFilterFpp = 0 ∧
      (zeroSaltInserted big_end).GetFilterFpp_spec = 1 / 2) := by
  refine ⟨fun s h => ⟨GetFilterFpp_eq h, GetFilterFpp_spec_eq h⟩, ?_, ?_⟩
  · intro env s s1 e m k hs hk h0 hm hins
    obtain ⟨hwf1, hpos⟩ := Insert_cell_zero env hs.WF k hk h0 hm hins
    obtain ⟨n, hn, hn2, _⟩ := WF_cells_nat hwf1
    obtain ⟨r, hr⟩ : ∃ r : Nat, s1.HASH_number = r :=
      ⟨s1.HASH_number.toNat, by have := hwf1.HASH_number_pos; omega⟩
    have hr0 : r ≠ 0 := by have := hwf1.HASH_number_pos; omega
    have hlt : s1.GetFilterFpp < s1.GetFilterFpp_spec := by
      rw [GetFilterFpp_eq hwf1, GetFilterFpp_spec_eq hwf1, if_pos hpos, hr, zpow_natCast,
        zpow_natCast, hn]
      have hcpos : (0 : ℚ) < ((n : Int) : ℚ) := by exact_mod_cast (by omega : 0 < n)
      refine pow_lt_pow_left₀ ?_ (by positivity) hr0
      exact div_lt_div_of_pos_right (by linarith) hcpos
    exact ⟨hpos, hlt, ne_of_lt hlt⟩
  · intro big_end hb
    have hwf := (zeroSaltInserted_Reachable big_end hb).WF
    have hidx : CBF.Insert.digest_index (md4Env big_end) (zeroSaltFilter big_end) [70] 0 = 0 := by
      rcases hb with h | h <;> subst h <;> decide
    have hc : ((List.range' 1 ((zeroSaltInserted big_end).cells - 1).toNat).countP
        fun i => decide ((zeroSaltInserted big_end).GetCell i > 0)) = 0 := by
      rcases hb with h | h <;> subst h <;> decide
    have hg0 : (zeroSaltInserted big_end).GetCell 0 = 1 := by
      rcases hb with h | h <;> subst h <;> decide
    have hg1 : (zeroSaltInserted big_end).GetCell 1 = 0 := by
      rcases hb with h | h <;> subst h <;> decide
    have hcells : ((zeroSaltInserted big_end).cells : ℚ) = 2 := by
      show (((2 : Int)) : ℚ) = 2
      norm_num
    have hhn : (zeroSaltInserted big_end).HASH_number = 1 := rfl
    refine ⟨zeroSaltFilter_construct big_end hb, MD4_digest_vectors.2.2.2.2, hidx,
      zeroSaltInserted_Insert big_end hb, rfl, rfl, hg0, hg1, ?_, ?_⟩
    · rw [GetFilterFpp_eq hwf, hc, hhn]
      simp
    · rw [GetFilterFpp_spec_eq hwf, hc, hhn, hcells, hg0]
      norm_num

/-! ## Insertion with multiplicity `0` -/

theorem set_getD_self (l : List Nat) : ∀ i : Nat, i < l.length → l.set i (l.getD i 0) = l := by
  induction l with
  | nil => intro i h; simp at h
  | cons a l ih =>
    intro i h
    cases i with
    | zero => rfl
    | succ i =>
      rw [List.getD_cons_succ, List.set_cons_succ, ih i (by simpa using h)]

/-- A `SetCell` with multiplicity `0` changes nothing. -/
theorem SetCell_zero {s : CBF} (hwf : s.WF) (i : Nat) (hi : (i : Int) < s.cells) :
    s.SetCell i 0 = Except.ok s := by
  have hr := GetCell_range hwf i
  have hmax : s.max_counter = 255 ∨ s.max_counter = 65535 := by
    unfold CBF.max_counter; split <;> simp
  rw [SetCell_eq hwf i 0 (le_refl _) (by omega)]
  obtain ⟨n, hn, hn2, hn3, hno, hf1, hf2⟩ := WF_cells_nat hwf
  have hin : i < n := by omega
  have hov : ¬ (s.GetCell i > s.max_counter) := by omega
  rw [add_zero, if_neg hov, min_eq_right hr.2]
  have hfilter : (if s.cell_size = 1 then s.filter.set i (toBYTE (s.GetCell i))
      else (s.filter.set (wrapUInt32 (2 * i)) (toBYTE (s.GetCell i >>> (8 : Nat)))).set
        (wrapUInt32 (wrapUInt32 (2 * i) + 1)) (toBYTE (s.GetCell i))) = s.filter := by
    rcases hwf.cell_size with hc | hc
    · rw [if_pos hc]
      have hb := getD_lt_of_bytes s.filter hwf.filter_bytes i
      have hg : s.GetCell i = (s.filter.getD i 0 : Int) := by
        unfold CBF.GetCell; rw [if_pos hc]
      rw [hg, toBYTE_lo _ (by omega)]
      have : ((s.filter.getD i 0 : Nat) : Int).toNat % 256 = s.filter.getD i 0 := by omega
      rw [this]
      exact set_getD_self _ _ (by rw [hf1 hc]; exact hin)
    · have hne : ¬ s.cell_size = 1 := by omega
      rw [if_neg hne]
      have ha : wrapUInt32 (2 * i) = 2 * i := wrapUInt32_id _ (by omega)
      have hb : wrapUInt32 (2 * i + 1) = 2 * i + 1 := wrapUInt32_id _ (by omega)
      have h1 := getD_lt_of_bytes s.filter hwf.filter_bytes (2 * i)
      have h2 := getD_lt_of_bytes s.filter hwf.filter_bytes (2 * i + 1)
      have hg : s.GetCell i =
          ((256 * s.filter.getD (2 * i) 0 + s.filter.getD (2 * i + 1) 0 : Nat) : Int) := by
        unfold CBF.GetCell
        rw [if_neg hne, if_pos hc, ha, hb, byte_fold _ _ h2]
      rw [ha, hb, hg, toBYTE_hi _ (by omega) (by omega), toBYTE_lo _ (by omega)]
      have e1 : ((256 * s.filter.getD (2 * i) 0 + s.filter.getD (2 * i + 1) 0 : Nat) : Int).toNat
          / 256 = s.filter.getD (2 * i) 0 := by omega
      have e2 : ((256 * s.filter.getD (2 * i) 0 + s.filter.getD (2 * i + 1) 0 : Nat) : Int).toNat
          % 256 = s.filter.getD (2 * i + 1) 0 := by omega
      rw [e1, e2, set_getD_self _ _ (by rw [hf2 hc]; omega)]
      exact set_getD_self _ _ (by rw [hf2 hc]; omega)
  rw [hfilter]

/-- The round loop of `Insert` with multiplicity `0` changes nothing. -/
theorem Insert_rounds_zero (env : Env) (string : List Nat) {s : CBF} (hwf : s.WF)
    (ks : List Nat) : CBF.Insert.rounds env string 0 ks s = Except.ok s := by
  induction ks with
  | nil => rfl
  | cons k ks ih =>
    unfold CBF.Insert.rounds
    rw [SetCell_zero hwf _ (digest_index_lt hwf env string k)]
    exact ih

/-- An `Insert` with multiplicity `0` returns normally and changes nothing
but `unique_members`. -/
theorem Insert_zero (env : Env) (string : List Nat) {s : CBF} (hwf : s.WF) :
    s.Insert env string 0 =
      Except.ok { s with unique_members := wrapInt32 (s.unique_members + 1) } := by
  unfold CBF.Insert
  rw [Insert_rounds_zero env string hwf]
  have hm := hwf.members_int
  unfold INT_MIN INT_MAX at hm
  have : wrapInt32 (s.members + 0) = s.members := by
    rw [add_zero]; exact wrapInt32_id _ hm.1 hm.2
  simp only [this]

/-! ## The sample filter with 1024 rounds -/

/-- The loop of `CreateHashSalt` when the random source never fails. -/
theorem CreateHashSalt_loop_ok (env : Env) (g : Nat → List Nat)
    (hg : ∀ i, env.RAND_bytes i = some (g i)) (ks : List Nat) :
    CBF.CreateHashSalt.loop env ks =
      Except.ok (ks.map fun i => (List.range MAX_INPUT_SIZE).map fun j => (g i).getD j 0 % 256) := by
  induction ks with
  | nil => rfl
  | cons i is ih =>
    unfold CBF.CreateHashSalt.loop
    rw [hg i]
    simp only [ih, List.map_cons]

theorem roundsFilter_construct :
    CBF.construct sampleEnv 1 4 1024 255 "salts.txt" 0 = Except.ok roundsFilter := by
  have hn : (1024 : Int).toNat = 1024 := rfl
  have hsalt : CBF.CreateHashSalt sampleEnv 1024 =
      Except.ok ((List.range 1024).map fun i =>
        (List.range MAX_INPUT_SIZE).map fun j =>
          (List.replicate 128 (16 * i % 256)).getD j 0 % 256) := by
    unfold CBF.CreateHashSalt
    rw [CreateHashSalt_loop_ok sampleEnv (fun i => List.replicate 128 (16 * i % 256))
      (fun i => rfl), hn]
  have hcells : double_to_int (2 ^ (1 : Int).toNat) = 2 := by decide
  have hsize : wrapInt32 (1 * 2) = 2 := by decide
  have hfile : sampleEnv.salt_file "salts.txt" = none := rfl
  have hbig : sampleEnv.is_big_endian = 0 := rfl
  have hdl : CBF.SetHashDigestLength 4 = 16 := by decide
  have hrep : List.replicate (2 : Int).toNat (0 : Nat) = [0, 0] := rfl
  have hrep' : List.replicate (2 : Int).toNat (0 : Int) = [0, 0] := rfl
  unfold CBF.construct
  rw [if_neg (by decide), if_neg (by decide), if_neg (by decide), if_neg (by decide),
    if_neg (by decide)]
  have hcs : (if (0 : Int) > 0 then (0 : Int) else if (255 : Int) ≤ 255 then 1 else 2) = 1 := by
    decide
  simp only [hfile, hsalt, hcells, hcs, hsize]
  rw [if_neg (by decide), if_neg (by decide), hbig, hdl, hrep, hrep']
  unfold roundsFilter
  rfl

set_option maxRecDepth 100000 in
theorem roundsInserted_Reachable (n : Nat) : Reachable sampleEnv (roundsInserted n) := by
  induction n with
  | zero =>
    have h : roundsInserted 0 = roundsFilter := by
      unfold roundsInserted
      have : wrapInt32 ((0 : Nat) : Int) = 0 := by decide
      rw [this]
      rfl
    rw [h]
    exact Reachable.fresh 1 4 1024 255 "salts.txt" 0 roundsFilter roundsFilter_construct
  | succ n ih =>
    refine Reachable.insert (roundsInserted n) _ [65] 0 ih (by decide) ?_
    rw [Insert_zero sampleEnv [65] ih.WF]
    have : wrapInt32 ((roundsInserted n).unique_members + 1) = wrapInt32 ((n + 1 : Nat) : Int) := by
      show wrapInt32 (wrapInt32 (n : Int) + 1) = _
      rw [wrapInt32_add_left]
      push_cast
      rfl
    rw [this]
    rfl

/-! ## C18: the a-priori false positive probability -/

/-- C18, as the code has it. In every reachable state
`GetFilterAPrioriFpp()` is
`(1 - (1 - 1/cells)^E)^HASH_number`, where the exponent `E` is the product
`HASH_number * unique_members` reduced to a 32-bit `int`; it is the value
`(1 - (1 - 1/cells)^(HASH_number * unique_members))^HASH_number` of the
specification whenever that product is an `int`, and it is `0` when
`unique_members` is `0`, as on a freshly constructed filter. -/
theorem C18_a_priori_fpp (env : Env) (s : CBF) (hs : Reachable env s) :
    s.GetFilterAPrioriFpp =
      (1 - (1 - 1 / (s.cells : ℚ)) ^ wrapInt32 (s.HASH_number * s.unique_members)) ^
        s.HASH_number ∧
    (INT_MIN ≤ s.HASH_number * s.unique_members ∧ s.HASH_number * s.unique_members ≤ INT_MAX →
      s.GetFilterAPrioriFpp = s.GetFilterAPrioriFpp_spec) ∧
    (s.unique_members = 0 → s.GetFilterAPrioriFpp = 0) := by
  have hwf := hs.WF
  refine ⟨rfl, ?_, ?_⟩
  · rintro ⟨h1, h2⟩
    unfold CBF.GetFilterAPrioriFpp CBF.GetFilterAPrioriFpp_spec
    rw [wrapInt32_id _ h1 h2]
  · intro h0
    unfold CBF.GetFilterAPrioriFpp
    have hz : wrapInt32 (s.HASH_number * s.unique_members) = 0 := by
      rw [h0, mul_zero]; decide
    have hne : s.HASH_number ≠ 0 := by
      have := hwf.HASH_number_pos
      omega
    simp only [hz, zpow_zero, sub_self]
    exact zero_zpow _ hne

/-- C18 at the sample filter, where `unique_members` is `0`. -/
theorem C18_a_priori_fpp_witness :
    (sampleFilter.GetFilterAPrioriFpp =
      (1 - (1 - 1 / (sampleFilter.cells : ℚ)) ^
        wrapInt32 (sampleFilter.HASH_number * sampleFilter.unique_members)) ^
        sampleFilter.HASH_number ∧
    (INT_MIN ≤ sampleFilter.HASH_number * sampleFilter.unique_members ∧
        sampleFilter.HASH_number * sampleFilter.unique_members ≤ INT_MAX →
      sampleFilter.GetFilterAPrioriFpp = sampleFilter.GetFilterAPrioriFpp_spec) ∧
    (sampleFilter.unique_members = 0 → sampleFilter.GetFilterAPrioriFpp = 0)) ∧
    sampleFilter.unique_members = 0 :=
  ⟨C18_a_priori_fpp sampleEnv sampleFilter sampleFilter_Reachable, rfl⟩

/-- C18 fails as it is stated. The state `roundsInserted 4194304` is reached
from the freshly constructed filter with two cells and 1024 rounds by 4194304
calls `Insert("A", 0)`; `unique_members` is 4194304 and the product
`HASH_number * unique_members` is `2^32`, which the `int` product of the code
turns into `0`. `GetFilterAPrioriFpp()` is `0`, as on a fresh filter, and the
value of the specification is not. -/
theorem C18_counterexample :
    Reachable sampleEnv (roundsInserted 4194304) ∧
    (roundsInserted 4194304).cells = 2 ∧
    (roundsInserted 4194304).HASH_number = 1024 ∧
    (roundsInserted 4194304).unique_members = 4194304 ∧
    wrapInt32 ((roundsInserted 4194304).HASH_number *
      (roundsInserted 4194304).unique_members) = 0 ∧
    (roundsInserted 4194304).GetFilterAPrioriFpp = 0 ∧
    (roundsInserted 4194304).GetFilterAPrioriFpp_spec ≠ 0 ∧
    (roundsInserted 4194304).GetFilterAPrioriFpp ≠
      (roundsInserted 4194304).GetFilterAPrioriFpp_spec := by
  have hu : (roundsInserted 4194304).unique_members = 4194304 := by
    show wrapInt32 ((4194304 : Nat) : Int) = 4194304
    decide
  have hhn : (roundsInserted 4194304).HASH_number = 1024 := rfl
  have hcells : (roundsInserted 4194304).cells = 2 := rfl
  have hw : wrapInt32 ((roundsInserted 4194304).HASH_number *
      (roundsInserted 4194304).unique_members) = 0 := by
    rw [hu, hhn]; decide
  have hcode : (roundsInserted 4194304).GetFilterAPrioriFpp = 0 := by
    unfold CBF.GetFilterAPrioriFpp
    simp only [hw, zpow_zero, sub_self]
    rw [hhn]
    exact zero_zpow _ (by decide)
  have hgen : ∀ N : Nat, N ≠ 0 →
      ((1 : ℚ) - (1 - 1 / ((2 : Int) : ℚ)) ^ ((N : Nat) : Int)) ^ (1024 : Int) ≠ 0 := by
    intro N hN
    have hhalf : (1 : ℚ) - 1 / ((2 : Int) : ℚ) = 1 / 2 := by norm_num
    rw [hhalf, zpow_natCast]
    have hlt : ((1 : ℚ) / 2) ^ N < 1 :=
      pow_lt_one₀ (by norm_num) (by norm_num) hN
    have hpos : (0 : ℚ) < 1 - (1 / 2) ^ N := sub_pos.2 hlt
    exact ne_of_gt (zpow_pos hpos _)
  have hspec : (roundsInserted 4194304).GetFilterAPrioriFpp_spec ≠ 0 := by
    unfold CBF.GetFilterAPrioriFpp_spec
    rw [hu, hhn, hcells]
    have hprod : (1024 : Int) * 4194304 = ((4294967296 : Nat) : Int) := by decide
    rw [hprod]
    exact hgen 4294967296 (by decide)
  exact ⟨roundsInserted_Reachable 4194304, hcells, hhn, hu, hw, hcode, hspec,
    by rw [hcode]; exact hspec.symm⟩

/-! ## C19: counters never decrease -/

/-- C19. Every cell of a freshly constructed filter reads `0`, and an `Insert`
that returns normally on a reachable state leaves no cell of the filter with a
smaller value than it had before the call. -/
theorem C19_counters_never_decrease (env : Env) :
    (∀ (bit_mapping HASH_family HASH_number MULTIPLICITY_max : Int) (salt_path : String)
        (forced_cell_size : Int) (s0 : CBF),
      CBF.construct env bit_mapping HASH_family HASH_number MULTIPLICITY_max salt_path
        forced_cell_size = Except.ok s0 →
      ∀ i : Nat, s0.GetCell i = 0) ∧
    (∀ (s s1 : CBF) (string : List Nat) (multiplicity : Int),
      Reachable env s → s.Insert env string multiplicity = Except.ok s1 →
      ∀ i : Nat, (i : Int) < s.cells → s.GetCell i ≤ s1.GetCell i) := by
  refine ⟨?_, ?_⟩
  · intro bm hf hn mm path fcs s0 h i
    obtain ⟨hwf, hz, _⟩ := construct_spec h
    exact GetCell_zero hwf hz i
  · intro s s1 string m hs h i hi
    exact Insert_GetCell_le hs.WF h i hi

/-- C19 at the sample filter with two-byte cells: every cell of the fresh
filter is `0`, and the second insertion of "A" decreases no cell. -/
theorem C19_counters_never_decrease_witness :
    (∀ i : Nat, wideFilter.GetCell i = 0) ∧
    (∀ i : Nat, (i : Int) < (wideSaturated 0).cells →
      (wideSaturated 0).GetCell i ≤ (wideSaturated 1).GetCell i) :=
  ⟨(C19_counters_never_decrease sampleEnv).1 1 4 1 65535 "salts.txt" 0 wideFilter
      wideFilter_construct,
    (C19_counters_never_decrease sampleEnv).2 (wideSaturated 0) (wideSaturated 1) [65] 65535
      (wideSaturated_Reachable 0) (wideSaturated_succ 0)⟩

/-! ## C20: the overflow ledger -/

/-- One `SetCell` adds to each ledger entry an amount between `0` and the
multiplicity, and reduces the sum to a 32-bit `int`. -/
theorem SetCell_ledger_step {s s1 : CBF} (hwf : s.WF) (i : Nat) (hi : (i : Int) < s.cells)
    (m : Int) (h0 : 0 ≤ m) (h1 : m ≤ s.max_counter) (hs : s.SetCell i m = Except.ok s1)
    (j : Nat) :
    ∃ D : Int, 0 ≤ D ∧ D ≤ m ∧
      s1.overflows.getD j 0 = wrapInt32 (s.overflows.getD j 0 + D) := by
  by_cases hji : j = i
  · subst hji
    refine ⟨max 0 (s.GetCell j + m - s.max_counter), le_max_left _ _, ?_,
      SetCell_ledger_same hwf j hi m h0 h1 hs⟩
    have := (GetCell_range hwf j).2
    exact max_le h0 (by linarith)
  · refine ⟨0, le_refl _, h0, ?_⟩
    rw [SetCell_ledger_other hwf i m h0 h1 hs j hji, add_zero]
    have hr := getD_int hwf.overflows_int j
    exact (wrapInt32_id _ hr.1 hr.2).symm

/-- The round loop of `Insert` adds to each ledger entry an amount between `0`
and the number of rounds times the multiplicity. -/
theorem Insert_rounds_ledger_step (env : Env) (string : List Nat) (m : Int) (h0 : 0 ≤ m)
    (ks : List Nat) :
    ∀ s s1 : CBF, s.WF → m ≤ s.max_counter →
      CBF.Insert.rounds env string m ks s = Except.ok s1 →
      ∀ j : Nat, ∃ D : Int, 0 ≤ D ∧ D ≤ (ks.length : Int) * m ∧
        s1.overflows.getD j 0 = wrapInt32 (s.overflows.getD j 0 + D) := by
  induction ks with
  | nil =>
    intro s s1 hwf _ h j
    simp only [CBF.Insert.rounds] at h
    injection h with h
    subst h
    refine ⟨0, le_refl _, by simp, ?_⟩
    rw [add_zero]
    have hr := getD_int hwf.overflows_int j
    exact (wrapInt32_id _ hr.1 hr.2).symm
  | cons k ks ih =>
    intro s s1 hwf h1 h j
    obtain ⟨s2, hs2⟩ := SetCell_ok hwf (CBF.Insert.digest_index env s string k) m h0 h1
    simp only [CBF.Insert.rounds, hs2] at h
    have hlt := digest_index_lt hwf env string k
    have hc := (SetCell_SameConfig hwf _ m h0 h1 hs2).1
    obtain ⟨D1, hD1, hD1m, he1⟩ := SetCell_ledger_step hwf _ hlt m h0 h1 hs2 j
    obtain ⟨D2, hD2, hD2m, he2⟩ := ih s2 s1 (SetCell_WF hwf _ m h0 h1 hs2)
      (by rw [hc.max_counter]; exact h1) h j
    refine ⟨D1 + D2, add_nonneg hD1 hD2, ?_, ?_⟩
    · rw [List.length_cons]
      push_cast
      linarith
    · rw [he2, he1, wrapInt32_add_left, add_assoc]

/-- An `Insert` that returns normally adds to each ledger entry an amount
between `0` and `HASH_number` times the multiplicity, and reduces the sum to a
32-bit `int`. -/
theorem Insert_ledger_step (env : Env) {s s1 : CBF} (hwf : s.WF) {string : List Nat} {m : Int}
    (hs : s.Insert env string m = Except.ok s1) (j : Nat) :
    ∃ D : Int, 0 ≤ D ∧ D ≤ s.HASH_number * m ∧
      s1.overflows.getD j 0 = wrapInt32 (s.overflows.getD j 0 + D) := by
  obtain ⟨h0, h1⟩ := Insert_ok_valid hwf hs
  unfold CBF.Insert at hs
  split at hs
  · exact absurd hs (by simp)
  · rename_i s2 hs2
    injection hs with hs
    subst hs
    obtain ⟨D, hD, hDm, he⟩ := Insert_rounds_ledger_step env string m h0 _ s s2 hwf h1 hs2 j
    refine ⟨D, hD, ?_, he⟩
    rw [List.length_range] at hDm
    have hn : ((s.HASH_number.toNat : Nat) : Int) = s.HASH_number :=
      Int.toNat_of_nonneg (by have := hwf.HASH_number_pos; omega)
    rw [hn] at hDm
    exact hDm

/-- A sequence of `Insert` calls that return normally adds to each ledger entry
an amount between `0` and `HASH_number` times the sum of the multiplicities. -/
theorem InsertAll_ledger_step (env : Env) (calls : List (List Nat × Int)) :
    ∀ s s1 : CBF, s.WF → s.InsertAll env calls = Except.ok s1 →
      ∀ j : Nat, ∃ D : Int, 0 ≤ D ∧ D ≤ s.HASH_number * (calls.map Prod.snd).sum ∧
        s1.overflows.getD j 0 = wrapInt32 (s.overflows.getD j 0 + D) := by
  induction calls with
  | nil =>
    intro s s1 hwf h j
    simp only [CBF.InsertAll] at h
    injection h with h
    subst h
    refine ⟨0, le_refl _, by simp, ?_⟩
    rw [add_zero]
    have hr := getD_int hwf.overflows_int j
    exact (wrapInt32_id _ hr.1 hr.2).symm
  | cons c calls ih =>
    intro s s1 hwf h j
    obtain ⟨e, m⟩ := c
    simp only [CBF.InsertAll] at h
    split at h
    · exact absurd h (by simp)
    · rename_i s2 hs2
      obtain ⟨h0, h1⟩ := Insert_ok_valid hwf hs2
      obtain ⟨s2', hs2', hwf2, hc, _⟩ := Insert_spec env hwf e m h0 h1
      rw [hs2] at hs2'
      injection hs2' with hs2'
      subst hs2'
      obtain ⟨D1, hD1, hD1m, he1⟩ := Insert_ledger_step env hwf hs2 j
      obtain ⟨D2, hD2, hD2m, he2⟩ := ih s2 s1 hwf2 h j
      rw [hc.HASH_number] at hD2m
      refine ⟨D1 + D2, add_nonneg hD1 hD2, ?_, ?_⟩
      · rw [List.map_cons, List.sum_cons, mul_add]
        exact add_le_add hD1m hD2m
      · rw [he2, he1, wrapInt32_add_left, add_assoc]

/-- The loop of `Check` does not read the ledger. -/
theorem Check_rounds_overflows (env : Env) (s : CBF) (o : List Int) (string : List Nat)
    (ks : List Nat) : ∀ counter : Int,
    CBF.Check.rounds env { s with overflows := o } string ks counter =
      CBF.Check.rounds env s string ks counter := by
  induction ks with
  | nil => intro counter; rfl
  | cons k ks ih =>
    intro counter
    simp only [CBF.Check.rounds]
    rw [ih]
    rfl

/-- C20, as the code has it. Let `s` be the state reached from a freshly
constructed filter by a sequence of `Insert` calls that returned normally, and
let one more `Insert` with multiplicity `m` return normally with the state
`s1`. Every ledger entry of `s` is an amount between `0` and `HASH_number`
times the sum of the multiplicities, reduced to a 32-bit `int`, so no entry is
negative as long as that product is an `int`. The last `Insert` adds to every
entry an amount between `0` and `HASH_number * m` and reduces the sum to a
32-bit `int`, so it decreases no entry whose value plus `HASH_number * m` is
an `int`. `GetCell` and `Check` give the same results whatever the ledger
holds. -/
theorem C20_overflow_ledger (env : Env)
    (bit_mapping HASH_family HASH_number MULTIPLICITY_max : Int) (salt_path : String)
    (forced_cell_size : Int) (s0 s s1 : CBF) (calls : List (List Nat × Int))
    (string : List Nat) (m : Int)
    (h0 : CBF.construct env bit_mapping HASH_family HASH_number MULTIPLICITY_max salt_path
      forced_cell_size = Except.ok s0)
    (hs : s0.InsertAll env calls = Except.ok s)
    (hi : s.Insert env string m = Except.ok s1) :
    (∀ j : Nat, ∃ D : Int, 0 ≤ D ∧ D ≤ s.HASH_number * (calls.map Prod.snd).sum ∧
      s.overflows.getD j 0 = wrapInt32 D) ∧
    (s.HASH_number * (calls.map Prod.snd).sum ≤ INT_MAX → ∀ v ∈ s.overflows, 0 ≤ v) ∧
    (∀ j : Nat, ∃ D : Int, 0 ≤ D ∧ D ≤ s.HASH_number * m ∧
      s1.overflows.getD j 0 = wrapInt32 (s.overflows.getD j 0 + D)) ∧
    (∀ j : Nat, s.overflows.getD j 0 + s.HASH_number * m ≤ INT_MAX →
      s.overflows.getD j 0 ≤ s1.overflows.getD j 0) ∧
    (∀ (o : List Int) (i : Nat), CBF.GetCell { s with overflows := o } i = s.GetCell i) ∧
    (∀ (o : List Int) (e : List Nat),
      CBF.Check env { s with overflows := o } e = s.Check env e) := by
  obtain ⟨hwf0, _, hz, _⟩ := construct_spec h0
  obtain ⟨hwf, hc, _⟩ := InsertAll_WF calls hwf0 hs
  have hfresh : ∀ j : Nat, s0.overflows.getD j 0 = 0 := by
    intro j
    rw [List.getD_eq_getElem?_getD]
    rcases hj : s0.overflows[j]? with _ | b
    · rfl
    · simp only [Option.getD_some]
      exact hz b (List.mem_iff_getElem?.2 ⟨j, hj⟩)
  have hall : ∀ j : Nat, ∃ D : Int, 0 ≤ D ∧ D ≤ s.HASH_number * (calls.map Prod.snd).sum ∧
      s.overflows.getD j 0 = wrapInt32 D := by
    intro j
    obtain ⟨D, hD, hDm, he⟩ := InsertAll_ledger_step env calls s0 s hwf0 hs j
    rw [hfresh j, zero_add] at he
    rw [← hc.HASH_number] at hDm
    exact ⟨D, hD, hDm, he⟩
  have hstep := Insert_ledger_step env hwf hi
  refine ⟨hall, ?_, hstep, ?_, fun _ _ => rfl, ?_⟩
  · intro hb v hv
    obtain ⟨j, hj⟩ := List.mem_iff_getElem?.1 hv
    obtain ⟨D, hD, hDm, he⟩ := hall j
    rw [List.getD_eq_getElem?_getD, hj, Option.getD_some] at he
    unfold INT_MAX at hb
    rw [he, wrapInt32_id D (by linarith) (le_trans hDm hb)]
    exact hD
  · intro j hb
    obtain ⟨D, hD, hDm, he⟩ := hstep j
    have hr := getD_int hwf.overflows_int j
    unfold INT_MIN at hr
    unfold INT_MAX at hb
    rw [he, wrapInt32_id _ (by linarith [hr.1]) (by linarith)]
    linarith
  · intro o e
    exact Check_rounds_overflows env s o e _ INT_MAX

/-- C20 at the sample filter with two-byte cells: the state after one
insertion of "A" with multiplicity 65535, and a second such insertion. -/
theorem C20_overflow_ledger_witness :
    ((∀ j : Nat, ∃ D : Int, 0 ≤ D ∧
        D ≤ (wideSaturated 0).HASH_number *
          ((List.replicate 1 (([65] : List Nat), (65535 : Int))).map Prod.snd).sum ∧
        (wideSaturated 0).overflows.getD j 0 = wrapInt32 D) ∧
      ((wideSaturated 0).HASH_number *
          ((List.replicate 1 (([65] : List Nat), (65535 : Int))).map Prod.snd).sum ≤ INT_MAX →
        ∀ v ∈ (wideSaturated 0).overflows, 0 ≤ v) ∧
      (∀ j : Nat, ∃ D : Int, 0 ≤ D ∧ D ≤ (wideSaturated 0).HASH_number * 65535 ∧
        (wideSaturated 1).overflows.getD j 0 =
          wrapInt32 ((wideSaturated 0).overflows.getD j 0 + D)) ∧
      (∀ j : Nat, (wideSaturated 0).overflows.getD j 0 +
          (wideSaturated 0).HASH_number * 65535 ≤ INT_MAX →
        (wideSaturated 0).overflows.getD j 0 ≤ (wideSaturated 1).overflows.getD j 0) ∧
      (∀ (o : List Int) (i : Nat),
        CBF.GetCell { wideSaturated 0 with overflows := o } i = (wideSaturated 0).GetCell i) ∧
      (∀ (o : List Int) (e : List Nat),
        CBF.Check sampleEnv { wideSaturated 0 with overflows := o } e =
          (wideSaturated 0).Check sampleEnv e)) ∧
    (wideSaturated 0).overflows = [0, 0] ∧ (wideSaturated 1).overflows = [65535, 0] :=
  ⟨C20_overflow_ledger sampleEnv 1 4 1 65535 "salts.txt" 0 wideFilter (wideSaturated 0)
      (wideSaturated 1) (List.replicate 1 ([65], 65535)) [65] 65535 wideFilter_construct
      (wideFilter_InsertAll 0) (wideSaturated_succ 0),
    by decide, by decide⟩

/-- C20 fails as it is stated. The state `wideSaturated 32768` is reached from
the freshly constructed filter with two two-byte cells and one round by 32769
calls `Insert("A", 65535)`; its ledger is `2147450880, 0`. One more call
`Insert("A", 65535)` returns normally with the state `wideSaturated 32769`,
whose ledger is `-2147450881, 0`: the entry of cell 0 has decreased and is
negative. -/
theorem C20_counterexample :
    Reachable sampleEnv (wideSaturated 32768) ∧
    (wideSaturated 32768).Insert sampleEnv [65] 65535 = Except.ok (wideSaturated 32769) ∧
    Reachable sampleEnv (wideSaturated 32769) ∧
    (wideSaturated 32768).overflows = [2147450880, 0] ∧
    (wideSaturated 32769).overflows = [-2147450881, 0] ∧
    (wideSaturated 32769).overflows.getD 0 0 < (wideSaturated 32768).overflows.getD 0 0 ∧
    ¬ (∀ v ∈ (wideSaturated 32769).overflows, 0 ≤ v) :=
  ⟨wideSaturated_Reachable 32768, wideSaturated_succ 32768, wideSaturated_Reachable 32769,
    by decide, by decide, by decide, by decide⟩

/-! ## C21: the binomial coefficient -/

theorem wrapInt64_id (x : Int) (h0 : -9223372036854775808 ≤ x) (h1 : x ≤ 9223372036854775807) :
    wrapInt64 x = x := by
  unfold wrapInt64; omega

theorem getD_replicate_zero (n i : Nat) : (List.replicate n (0 : Int)).getD i 0 = 0 := by
  rw [List.getD_eq_getElem?_getD, List.getElem?_replicate]
  split <;> rfl

/-- A run of the inner loop of `binomialCoeff` over rounds other than `t`
leaves the entry `t` of the row as it was. -/
theorem binomial_fold_other (t : Nat) (js : List Nat) (h : ∀ j ∈ js, j ≠ t) :
    ∀ C : List Int,
      (js.foldl (fun C j => C.set j (wrapInt64 (C.getD j 0 + C.getD (j - 1) 0))) C).getD t 0 =
        C.getD t 0 := by
  induction js with
  | nil => intro C; rfl
  | cons j js ih =>
    intro C
    rw [List.foldl_cons, ih (fun j' hj' => h j' (List.mem_cons_of_mem _ hj')), getD_set,
      if_neg]
    intro hc
    exact h j (List.mem_cons_self _ _) hc.1

/-- The inner loop of `binomialCoeff` from `j = m` down to `1` on a row with
more than `m` entries: every entry `1, ..., m` becomes the sum of its old
value and the old value of the entry before it, the other entries stay. -/
theorem binomial_fold_getD (m : Nat) : ∀ C : List Int, m < C.length →
    ((List.range' 1 m).reverse.foldl
        (fun C j => C.set j (wrapInt64 (C.getD j 0 + C.getD (j - 1) 0))) C).length =
      C.length ∧
    ∀ j : Nat,
      ((List.range' 1 m).reverse.foldl
          (fun C j => C.set j (wrapInt64 (C.getD j 0 + C.getD (j - 1) 0))) C).getD j 0 =
        if 1 ≤ j ∧ j ≤ m then wrapInt64 (C.getD j 0 + C.getD (j - 1) 0) else C.getD j 0 := by
  induction m with
  | zero =>
    intro C _
    refine ⟨rfl, fun j => ?_⟩
    rw [if_neg (by omega)]
    rfl
  | succ m ih =>
    intro C hC
    rw [List.range'_1_concat, List.reverse_append, List.reverse_singleton, List.singleton_append,
      List.foldl_cons]
    have hlen : (C.set (1 + m) (wrapInt64 (C.getD (1 + m) 0 + C.getD (1 + m - 1) 0))).length =
        C.length := List.length_set _ _ _
    obtain ⟨h1, h2⟩ := ih (C.set (1 + m) (wrapInt64 (C.getD (1 + m) 0 + C.getD (1 + m - 1) 0)))
      (by rw [hlen]; omega)
    refine ⟨h1.trans hlen, fun j => ?_⟩
    rw [h2 j]
    by_cases hj : 1 ≤ j ∧ j ≤ m
    · rw [if_pos hj, if_pos ⟨hj.1, by omega⟩, getD_set, getD_set, if_neg (by omega),
        if_neg (by omega)]
    · rw [if_neg hj, getD_set]
      by_cases hjm : j = 1 + m
      · subst hjm
        rw [if_pos ⟨rfl, by omega⟩, if_pos ⟨by omega, by omega⟩]
      · rw [if_neg (by omega), if_neg (by omega)]

/-- The rows of `binomialCoeff`: after the rows `1, ..., i` the array holds the
binomial coefficients of `i`, as long as they fit a `long`. -/
theorem binomial_rows (k n : Nat)
    (hfit : ∀ i : Nat, i ≤ n → ∀ j : Nat, j ≤ k → (Nat.choose i j : Int) ≤ LONG_MAX) :
    ∀ i : Nat, i ≤ n →
      ((List.range' 1 i).foldl (binomialCoeff.row k)
          ((List.replicate (k + 1) (0 : Int)).set 0 1)).length = k + 1 ∧
      ∀ j : Nat, j ≤ k →
        ((List.range' 1 i).foldl (binomialCoeff.row k)
          ((List.replicate (k + 1) (0 : Int)).set 0 1)).getD j 0 = (Nat.choose i j : Int) := by
  intro i
  induction i with
  | zero =>
    intro _
    refine ⟨by simp, fun j hj => ?_⟩
    simp only [List.range'_zero, List.foldl_nil]
    rw [getD_set]
    rcases j with _ | j
    · rw [if_pos ⟨rfl, by simp⟩]; simp
    · rw [if_neg (by omega), getD_replicate_zero]; simp
  | succ i ih =>
    intro hi
    obtain ⟨hlen, hrow⟩ := ih (by omega)
    rw [List.range'_1_concat, List.foldl_append, List.foldl_cons, List.foldl_nil]
    generalize (List.range' 1 i).foldl (binomialCoeff.row k)
      ((List.replicate (k + 1) (0 : Int)).set 0 1) = C at hlen hrow ⊢
    unfold binomialCoeff.row
    have hmin : (min (((1 + i : Nat) : Int)) (k : Int)).toNat = min (1 + i) k := by
      rw [← Nat.cast_min]; exact Int.toNat_natCast _
    rw [hmin]
    obtain ⟨h1, h2⟩ := binomial_fold_getD (min (1 + i) k) _ (by rw [hlen]; omega)
    refine ⟨h1.trans hlen, fun j hj => ?_⟩
    rw [h2 j]
    by_cases hc : 1 ≤ j ∧ j ≤ min (1 + i) k
    · rw [if_pos hc, hrow j hj, hrow (j - 1) (by omega)]
      obtain ⟨j', rfl⟩ : ∃ j', j = j' + 1 := ⟨j - 1, by omega⟩
      have hch : (Nat.choose (i + 1) (j' + 1) : Int) =
          (Nat.choose i (j' + 1) : Int) + (Nat.choose i (j' + 1 - 1) : Int) := by
        rw [Nat.add_sub_cancel, Nat.choose_succ_succ]; push_cast; ring
      rw [← hch]
      have hb := hfit (i + 1) hi (j' + 1) hj
      unfold LONG_MAX at hb
      exact wrapInt64_id _ (by have := Int.natCast_nonneg ((i + 1).choose (j' + 1)); omega) hb
    · rw [if_neg hc, hrow j hj]
      rcases j with _ | j
      · simp
      · have hlt : i + 1 < j + 1 := by
          rcases Nat.lt_or_ge (i + 1) (j + 1) with h | h
          · exact h
          · exact absurd ⟨by omega, by omega⟩ hc
        rw [Nat.choose_eq_zero_of_lt hlt, Nat.choose_eq_zero_of_lt (by omega)]

/-- The rows `i < k` of `binomialCoeff` leave the entry `k` of the array as it
was. -/
theorem binomial_rows_other (k : Int) (rows : List Nat) (h : ∀ i ∈ rows, (i : Int) < k) :
    ∀ C : List Int, (rows.foldl (binomialCoeff.row k) C).getD k.toNat 0 = C.getD k.toNat 0 := by
  induction rows with
  | nil => intro C; rfl
  | cons i rows ih =>
    intro C
    rw [List.foldl_cons, ih (fun i' hi' => h i' (List.mem_cons_of_mem _ hi'))]
    unfold binomialCoeff.row
    apply binomial_fold_other
    intro j hj
    rw [List.mem_reverse, List.mem_range'_1] at hj
    have hi := h i (List.mem_cons_self _ _)
    omega

/-- C21. For `0 ≤ k ≤ n < INT_MAX`, when the binomial coefficients
`C(n, 0), ..., C(n, k)` fit a `long` (then so does every entry of the rows
before), `binomialCoeff(n, k)` returns `C(n, k)`; and for `0 ≤ n < k` it
returns `0`. -/
theorem C21_binomial_coefficient (n k : Int) :
    (0 ≤ k → k ≤ n → n < INT_MAX →
      (∀ j : Nat, (j : Int) ≤ k → (Nat.choose n.toNat j : Int) ≤ LONG_MAX) →
      binomialCoeff n k = (Nat.choose n.toNat k.toNat : Int)) ∧
    (0 ≤ n → n < k → binomialCoeff n k = 0) := by
  refine ⟨?_, ?_⟩
  · intro hk hkn hn hfit
    obtain ⟨k', rfl⟩ := Int.eq_ofNat_of_zero_le hk
    obtain ⟨n', rfl⟩ := Int.eq_ofNat_of_zero_le (le_trans hk hkn)
    unfold INT_MAX at hn
    unfold binomialCoeff
    have hw : (wrapInt32 ((k' : Int) + 1)).toNat = k' + 1 := by
      rw [wrapInt32_id _ (by omega) (by omega)]
      omega
    simp only [hw, Int.toNat_natCast]
    have hfit' : ∀ i : Nat, i ≤ n' → ∀ j : Nat, j ≤ k' → (Nat.choose i j : Int) ≤ LONG_MAX := by
      intro i hi j hj
      have h1 := hfit j (by omega)
      rw [Int.toNat_natCast] at h1
      have h2 : (Nat.choose i j : Int) ≤ (Nat.choose n' j : Int) := by
        exact_mod_cast Nat.choose_le_choose j hi
      exact le_trans h2 h1
    exact (binomial_rows k' n' hfit' n' (le_refl _)).2 k' (le_refl _)
  · intro hn hnk
    unfold binomialCoeff
    simp only []
    rw [binomial_rows_other k _ (by
      intro i hi
      rw [List.mem_range'_1] at hi
      omega), getD_set, if_neg (by omega), getD_replicate_zero]

/-- C21 at `n = 5`, `k = 2`, where the coefficient is `10`, and at `n = 2`,
`k = 5`, where the result is `0`. -/
theorem C21_binomial_coefficient_witness :
    binomialCoeff 5 2 = (Nat.choose (5 : Int).toNat (2 : Int).toNat : Int) ∧
    binomialCoeff 5 2 = 10 ∧ binomialCoeff 2 5 = 0 :=
  ⟨(C21_binomial_coefficient 5 2).1 (by decide) (by decide) (by decide)
      (by
        intro j hj
        have hj' : j ≤ 2 := by omega
        interval_cases j <;> decide),
    by decide, (C21_binomial_coefficient 2 5).2 (by decide) (by decide)⟩

/-! ## C22: the layout of a cell -/

/-- The bytes read by `GetCell`: one byte for one-byte cells, the bytes `2i`
and `2i + 1`, the first being the high one, for two-byte cells. -/
theorem GetCell_layout {s : CBF} (hwf : s.WF) (i : Nat) (hi : (i : Int) < s.cells) :
    (s.cell_size = 1 → s.GetCell i = (s.filter.getD i 0 : Int)) ∧
    (s.cell_size = 2 →
      s.GetCell i = 256 * (s.filter.getD (2 * i) 0 : Int) + (s.filter.getD (2 * i + 1) 0 : Int)) := by
  obtain ⟨n, hn, _, hn2, _⟩ := WF_cells_nat hwf
  have hin : i < n := by rw [hn] at hi; exact_mod_cast hi
  refine ⟨?_, ?_⟩
  · intro hc
    unfold CBF.GetCell
    rw [if_pos hc]
  · intro hc
    unfold CBF.GetCell
    rw [if_neg (by rw [hc]; decide), if_pos hc, wrapUInt32_id (2 * i) (by omega),
      wrapUInt32_id (2 * i + 1) (by omega),
      byte_fold _ _ (getD_lt_of_bytes s.filter hwf.filter_bytes (2 * i + 1))]
    push_cast
    ring

/-- A successful `SetCell` was given a valid multiplicity. -/
theorem SetCell_ok_valid {s s1 : CBF} (i : Nat) (m : Int)
    (hs : s.SetCell i m = Except.ok s1) : 0 ≤ m ∧ m ≤ s.max_counter := by
  by_contra hc
  have hm : m < 0 ∨ s.max_counter < m := by omega
  rw [SetCell_error s i m hm] at hs
  exact absurd hs (by simp)

/-- C22. In a well-formed state, for a cell index `i < cells`: with one-byte
cells `GetCell(i)` is the byte `filter[i]`, in `[0, 255]`; with two-byte cells
it is `256 * filter[2i] + filter[2i+1]`, in `[0, 65535]`; the result does not
depend on `BIG_end`; and after a `SetCell(i, m)` that returns normally the
bytes of the cell hold the stored value `min(max_counter, old + m)` in this
layout, and `GetCell(i)` reads it back. -/
theorem C22_cell_layout (s : CBF) (hwf : s.WF) (i : Nat) (hi : (i : Int) < s.cells) :
    (s.cell_size = 1 →
      s.GetCell i = (s.filter.getD i 0 : Int) ∧ 0 ≤ s.GetCell i ∧ s.GetCell i ≤ 255) ∧
    (s.cell_size = 2 →
      s.GetCell i =
          256 * (s.filter.getD (2 * i) 0 : Int) + (s.filter.getD (2 * i + 1) 0 : Int) ∧
        s.filter.getD (2 * i) 0 < 256 ∧ s.filter.getD (2 * i + 1) 0 < 256 ∧
        0 ≤ s.GetCell i ∧ s.GetCell i ≤ 65535) ∧
    (∀ b : Int, CBF.GetCell { s with BIG_end := b } i = s.GetCell i) ∧
    (∀ (m : Int) (s1 : CBF), s.SetCell i m = Except.ok s1 →
      (s.cell_size = 1 → (s1.filter.getD i 0 : Int) = min 255 (s.GetCell i + m)) ∧
      (s.cell_size = 2 →
        (s1.filter.getD (2 * i) 0 : Int) = min 65535 (s.GetCell i + m) / 256 ∧
        (s1.filter.getD (2 * i + 1) 0 : Int) = min 65535 (s.GetCell i + m) % 256) ∧
      s1.GetCell i = min s.max_counter (s.GetCell i + m)) := by
  have hr := GetCell_range hwf i
  have hl := GetCell_layout hwf i hi
  refine ⟨?_, ?_, fun _ => rfl, ?_⟩
  · intro hc
    have hm : s.max_counter = 255 := by unfold CBF.max_counter; rw [if_pos hc]
    rw [hm] at hr
    exact ⟨hl.1 hc, hr.1, hr.2⟩
  · intro hc
    have hm : s.max_counter = 65535 := by
      unfold CBF.max_counter; rw [if_neg (by rw [hc]; decide)]
    rw [hm] at hr
    exact ⟨hl.2 hc, getD_lt_of_bytes s.filter hwf.filter_bytes _,
      getD_lt_of_bytes s.filter hwf.filter_bytes _, hr.1, hr.2⟩
  · intro m s1 hs
    obtain ⟨h0, h1⟩ := SetCell_ok_valid i m hs
    have hwf1 := SetCell_WF hwf i m h0 h1 hs
    have hc1 := (SetCell_SameConfig hwf i m h0 h1 hs).1
    have hget := SetCell_GetCell_same hwf i hi m h0 h1 hs
    have hl1 := GetCell_layout hwf1 i (by rw [hc1.cells]; exact hi)
    refine ⟨?_, ?_, hget⟩
    · intro hc
      have hm : s.max_counter = 255 := by unfold CBF.max_counter; rw [if_pos hc]
      rw [← hl1.1 (by rw [hc1.cell_size]; exact hc), hget, hm]
    · intro hc
      have hm : s.max_counter = 65535 := by
        unfold CBF.max_counter; rw [if_neg (by rw [hc]; decide)]
      have h2 := hl1.2 (by rw [hc1.cell_size]; exact hc)
      rw [hget, hm] at h2
      have hb1 := getD_lt_of_bytes s1.filter hwf1.filter_bytes (2 * i)
      have hb2 := getD_lt_of_bytes s1.filter hwf1.filter_bytes (2 * i + 1)
      omega

/-- C22 at the sample filter with two-byte cells after one insertion of "A":
cell 0 holds the bytes `255, 255` and reads 65535. -/
theorem C22_cell_layout_witness :
    ((wideSaturated 0).cell_size = 1 →
      (wideSaturated 0).GetCell 0 = ((wideSaturated 0).filter.getD 0 0 : Int) ∧
        0 ≤ (wideSaturated 0).GetCell 0 ∧ (wideSaturated 0).GetCell 0 ≤ 255) ∧
    ((wideSaturated 0).cell_size = 2 →
      (wideSaturated 0).GetCell 0 =
          256 * ((wideSaturated 0).filter.getD (2 * 0) 0 : Int) +
            ((wideSaturated 0).filter.getD (2 * 0 + 1) 0 : Int) ∧
        (wideSaturated 0).filter.getD (2 * 0) 0 < 256 ∧
        (wideSaturated 0).filter.getD (2 * 0 + 1) 0 < 256 ∧
        0 ≤ (wideSaturated 0).GetCell 0 ∧ (wideSaturated 0).GetCell 0 ≤ 65535) ∧
    (∀ b : Int, CBF.GetCell { wideSaturated 0 with BIG_end := b } 0 =
      (wideSaturated 0).GetCell 0) ∧
    (∀ (m : Int) (s1 : CBF), (wideSaturated 0).SetCell 0 m = Except.ok s1 →
      ((wideSaturated 0).cell_size = 1 →
        (s1.filter.getD 0 0 : Int) = min 255 ((wideSaturated 0).GetCell 0 + m)) ∧
      ((wideSaturated 0).cell_size = 2 →
        (s1.filter.getD (2 * 0) 0 : Int) = min 65535 ((wideSaturated 0).GetCell 0 + m) / 256 ∧
        (s1.filter.getD (2 * 0 + 1) 0 : Int) =
          min 65535 ((wideSaturated 0).GetCell 0 + m) % 256) ∧
      s1.GetCell 0 = min (wideSaturated 0).max_counter ((wideSaturated 0).GetCell 0 + m)) :=
  C22_cell_layout (wideSaturated 0) (wideSaturated_Reachable 0).WF 0 (by decide)

/-! ## C23: loading the salts -/

/-- The bytes of a buffer of `MAX_INPUT_SIZE` bytes, copied one by one, are the
buffer. -/
theorem copy_salt (decoded : List Nat) (hlen : decoded.length = MAX_INPUT_SIZE)
    (hb : ∀ b ∈ decoded, b < 256) :
    ((List.range MAX_INPUT_SIZE).map fun j => decoded.getD j 0 % 256) = decoded := by
  apply List.ext_getElem
  · simp [hlen]
  · intro n h1 h2
    have hlt : decoded[n] < 256 := hb _ (List.getElem_mem h2)
    simp [List.getD_eq_getElem?_getD, List.getElem?_eq_getElem h2, Nat.mod_eq_of_lt hlt]

set_option maxRecDepth 100000 in
/-- C23 on the code. `LoadHashSalt` has no failure path: whatever the file
holds it yields `HASH_number` salts, taking `MAX_INPUT_SIZE` bytes from the
decoding of each line it could or could not read. When the file has at least
`HASH_number` lines and each of the first `HASH_number` lines decodes to 128
bytes, salt `i` is the decoding of line `i`. With a salt file of one line
that decodes to two bytes, the constructor builds a filter with two rounds. -/
theorem C23_load_hash_salt_unchecked :
    (∀ (env : Env) (HASH_number : Int) (lines : List String),
      ∃ salts, CBF.LoadHashSalt env HASH_number lines = Except.ok salts ∧
        salts.length = HASH_number.toNat) ∧
    (∀ (env : Env) (HASH_number : Int) (lines : List String),
      (∀ i : Nat, i < HASH_number.toNat →
        (env.base64_decode (lines.getD i "")).length = MAX_INPUT_SIZE ∧
        ∀ b ∈ env.base64_decode (lines.getD i ""), b < 256) →
      CBF.LoadHashSalt env HASH_number lines =
        Except.ok ((List.range HASH_number.toNat).map fun i =>
          env.base64_decode (lines.getD i ""))) ∧
    shortFileEnv.salt_file "salts.txt" = some ["AQI="] ∧
    shortFileEnv.base64_decode "AQI=" = [1, 2] ∧
    CBF.LoadHashSalt shortFileEnv 2 ["AQI="] =
      Except.ok [1 :: 2 :: List.replicate 126 0, List.replicate 128 0] ∧
    CBF.construct shortFileEnv 4 4 2 255 "salts.txt" 0 =
      Except.ok { sampleFilter with
        HASH_salt := [1 :: 2 :: List.replicate 126 0, List.replicate 128 0] } := by
  refine ⟨?_, ?_, rfl, by decide, by decide, by decide⟩
  · intro env HASH_number lines
    exact ⟨_, rfl, by simp⟩
  · intro env HASH_number lines h
    unfold CBF.LoadHashSalt
    congr 1
    apply List.map_congr_left
    intro i hi
    rw [List.mem_range] at hi
    exact copy_salt _ (h i hi).1 (h i hi).2

/-! ## C24: the frame of `SetCell` -/

/-- The bytes of the cell array that a `SetCell` leaves as they were. -/
theorem SetCell_bytes_other {s s1 : CBF} (hwf : s.WF) (i : Nat) (hi : (i : Int) < s.cells)
    (m : Int) (h0 : 0 ≤ m) (h1 : m ≤ s.max_counter) (hs : s.SetCell i m = Except.ok s1) :
    s1.filter.length = s.filter.length ∧
    (s.cell_size = 1 → ∀ b : Nat, b ≠ i → s1.filter.getD b 0 = s.filter.getD b 0) ∧
    (s.cell_size = 2 → ∀ b : Nat, b ≠ 2 * i → b ≠ 2 * i + 1 →
      s1.filter.getD b 0 = s.filter.getD b 0) := by
  obtain ⟨n, hn, _, hn2, _⟩ := WF_cells_nat hwf
  have hin : i < n := by rw [hn] at hi; exact_mod_cast hi
  rw [SetCell_eq hwf i m h0 h1] at hs
  injection hs with hs
  subst hs
  refine ⟨?_, ?_, ?_⟩
  · show (if s.cell_size = 1 then _ else _ : List Nat).length = _
    split <;> simp
  · intro hc b hb
    show (if s.cell_size = 1 then _ else _ : List Nat).getD b 0 = _
    rw [if_pos hc, getD_set, if_neg (by omega)]
  · intro hc b hb1 hb2
    show (if s.cell_size = 1 then _ else _ : List Nat).getD b 0 = _
    rw [if_neg (by rw [hc]; decide), wrapUInt32_id (2 * i) (by omega),
      wrapUInt32_id (2 * i + 1) (by omega), getD_set, if_neg (by omega), getD_set,
      if_neg (by omega)]

/-- C24. In a well-formed state, for a cell index `i < cells` and a
multiplicity `0 ≤ m ≤ max_counter`, `SetCell(i, m)` returns normally and
leaves `GetCell(j)` and `overflows[j]` as they were for every `j ≠ i`; it
writes no byte of the cell array other than byte `i` (one-byte cells) or the
bytes `2i` and `2i + 1` (two-byte cells); the lengths of the cell array and
of the ledger, `members`, `unique_members` and the configuration stay. -/
theorem C24_set_cell_frame (s : CBF) (hwf : s.WF) (i : Nat) (hi : (i : Int) < s.cells)
    (m : Int) (h0 : 0 ≤ m) (h1 : m ≤ s.max_counter) :
    ∃ s1, s.SetCell i m = Except.ok s1 ∧
      (∀ j : Nat, (j : Int) < s.cells → j ≠ i → s1.GetCell j = s.GetCell j) ∧
      (∀ j : Nat, j ≠ i → s1.overflows.getD j 0 = s.overflows.getD j 0) ∧
      s1.overflows.length = s.overflows.length ∧
      s1.filter.length = s.filter.length ∧
      (s.cell_size = 1 → ∀ b : Nat, b ≠ i → s1.filter.getD b 0 = s.filter.getD b 0) ∧
      (s.cell_size = 2 → ∀ b : Nat, b ≠ 2 * i → b ≠ 2 * i + 1 →
        s1.filter.getD b 0 = s.filter.getD b 0) ∧
      s1.members = s.members ∧ s1.unique_members = s.unique_members ∧ s.SameConfig s1 := by
  obtain ⟨s1, hs⟩ := SetCell_ok hwf i m h0 h1
  obtain ⟨hc, hm, hu⟩ := SetCell_SameConfig hwf i m h0 h1 hs
  obtain ⟨hb0, hb1, hb2⟩ := SetCell_bytes_other hwf i hi m h0 h1 hs
  have hwf1 := SetCell_WF hwf i m h0 h1 hs
  refine ⟨s1, hs, fun j hj hji => SetCell_GetCell_other hwf i hi m h0 h1 hs j hj hji,
    fun j hji => SetCell_ledger_other hwf i m h0 h1 hs j hji, ?_, hb0, hb1, hb2, hm, hu, hc⟩
  have e1 := hwf1.overflows_length
  have e2 := hwf.overflows_length
  rw [hc.cells, ← e2] at e1
  exact_mod_cast e1

/-- C24 at the sample filter with two-byte cells after one insertion of "A",
for `SetCell(1, 7)`. -/
theorem C24_set_cell_frame_witness :
    ∃ s1, (wideSaturated 0).SetCell 1 7 = Except.ok s1 ∧
      (∀ j : Nat, (j : Int) < (wideSaturated 0).cells → j ≠ 1 →
        s1.GetCell j = (wideSaturated 0).GetCell j) ∧
      (∀ j : Nat, j ≠ 1 → s1.overflows.getD j 0 = (wideSaturated 0).overflows.getD j 0) ∧
      s1.overflows.length = (wideSaturated 0).overflows.length ∧
      s1.filter.length = (wideSaturated 0).filter.length ∧
      ((wideSaturated 0).cell_size = 1 → ∀ b : Nat, b ≠ 1 →
        s1.filter.getD b 0 = (wideSaturated 0).filter.getD b 0) ∧
      ((wideSaturated 0).cell_size = 2 → ∀ b : Nat, b ≠ 2 * 1 → b ≠ 2 * 1 + 1 →
        s1.filter.getD b 0 = (wideSaturated 0).filter.getD b 0) ∧
      s1.members = (wideSaturated 0).members ∧
      s1.unique_members = (wideSaturated 0).unique_members ∧
      (wideSaturated 0).SameConfig s1 :=
  C24_set_cell_frame (wideSaturated 0) (wideSaturated_Reachable 0).WF 1 (by decide) 7
    (by decide) (by decide)

/-! ## C25: the hash family codes -/

theorem SetHashDigestLength_other (f : Int) (hf : f ≠ 1 ∧ f ≠ 4 ∧ f ≠ 5) :
    CBF.SetHashDigestLength f = 16 := by
  unfold CBF.SetHashDigestLength
  rw [if_neg hf.1, if_neg hf.2.1, if_neg hf.2.2]
  rfl

/-- The constructor with an unrecognised hash family code builds the filter it
builds with the code 4, but for the code stored in `HASH_family`. -/
theorem construct_family (env : Env) (f : Int) (hf : f ≠ 1 ∧ f ≠ 4 ∧ f ≠ 5)
    (bit_mapping HASH_number MULTIPLICITY_max : Int) (salt_path : String)
    (forced_cell_size : Int) (s4 : CBF)
    (h : CBF.construct env bit_mapping 4 HASH_number MULTIPLICITY_max salt_path
      forced_cell_size = Except.ok s4) :
    CBF.construct env bit_mapping f HASH_number MULTIPLICITY_max salt_path forced_cell_size =
      Except.ok { s4 with HASH_family := f } := by
  unfold CBF.construct at h ⊢
  rw [SetHashDigestLength_other f hf]
  have h4 : CBF.SetHashDigestLength 4 = 16 := rfl
  rw [h4] at h
  by_cases c1 : bit_mapping ≤ 0 ∨ bit_mapping > MAX_BIT_MAPPING
  · rw [if_pos c1] at h; exact absurd h (by simp)
  rw [if_neg c1] at h ⊢
  by_cases c2 : MULTIPLICITY_max ≤ 0 ∨ MULTIPLICITY_max > MAX_MULTIPLICITY
  · rw [if_pos c2] at h; exact absurd h (by simp)
  rw [if_neg c2] at h ⊢
  by_cases c3 : HASH_number ≤ 0 ∨ HASH_number > MAX_HASH_NUMBER
  · rw [if_pos c3] at h; exact absurd h (by simp)
  rw [if_neg c3] at h ⊢
  by_cases c4 : salt_path.length = 0
  · rw [if_pos c4] at h; exact absurd h (by simp)
  rw [if_neg c4] at h ⊢
  by_cases c5 : forced_cell_size > 0 ∧ forced_cell_size > 2
  · rw [if_pos c5] at h; exact absurd h (by simp)
  rw [if_neg c5] at h ⊢
  simp only at h ⊢
  generalize (if forced_cell_size > 0 then forced_cell_size
      else if MULTIPLICITY_max ≤ 255 then 1 else 2) = cs at h ⊢
  split at h
  · exact absurd h (by simp)
  by_cases hsize : wrapInt32 (cs * double_to_int (2 ^ bit_mapping.toNat)) < 0
  · rw [if_pos hsize] at h; exact absurd h (by simp)
  rw [if_neg hsize] at h ⊢
  by_cases hcells : double_to_int (2 ^ bit_mapping.toNat) < 0
  · rw [if_pos hcells] at h; exact absurd h (by simp)
  rw [if_neg hcells] at h ⊢
  injection h with h
  subst h
  rfl

/-- C25. For every hash family code `f` other than 1, 4 and 5:
`SetHashDigestLength` stores 16, as for the code 4, while the code 1 gives 20
and the code 5 gives 16; `Hash` computes the digest it computes for the code
4 (MD4), while the code 1 gives SHA1 and the code 5 gives MD5; so a filter
with the code `f` computes, in `Insert` and in `Check`, the cell index that
the same filter with the code 4 computes, for every element and round; and
the constructor called with `f` builds the filter it builds with the code 4,
with the same salts and the same digest length, but for the stored code. -/
theorem C25_hash_family_fallback (env : Env) (f : Int) (hf : f ≠ 1 ∧ f ≠ 4 ∧ f ≠ 5) :
    (CBF.SetHashDigestLength f = 16 ∧ CBF.SetHashDigestLength 4 = 16 ∧
      CBF.SetHashDigestLength 1 = 20 ∧ CBF.SetHashDigestLength 5 = 16) ∧
    (∀ (s : CBF) (d : List Nat),
      CBF.Hash env { s with HASH_family := f } d = env.MD4 d ∧
      CBF.Hash env { s with HASH_family := 4 } d = env.MD4 d ∧
      CBF.Hash env { s with HASH_family := 1 } d = env.SHA1 d ∧
      CBF.Hash env { s with HASH_family := 5 } d = env.MD5 d) ∧
    (∀ (s : CBF) (e : List Nat) (k : Nat),
      CBF.Insert.digest_index env { s with HASH_family := f } e k =
        CBF.Insert.digest_index env { s with HASH_family := 4 } e k ∧
      CBF.Check.digest_index env { s with HASH_family := f } e k =
        CBF.Check.digest_index env { s with HASH_family := 4 } e k) ∧
    (∀ (bit_mapping HASH_number MULTIPLICITY_max : Int) (salt_path : String)
        (forced_cell_size : Int) (s4 : CBF),
      CBF.construct env bit_mapping 4 HASH_number MULTIPLICITY_max salt_path
        forced_cell_size = Except.ok s4 →
      CBF.construct env bit_mapping f HASH_number MULTIPLICITY_max salt_path
          forced_cell_size = Except.ok { s4 with HASH_family := f } ∧
        s4.HASH_family = 4 ∧ s4.HASH_digest_length = 16) := by
  have hhash : ∀ (s : CBF) (d : List Nat),
      CBF.Hash env { s with HASH_family := f } d = env.MD4 d := by
    intro s d
    unfold CBF.Hash
    simp only [if_neg hf.1, if_neg hf.2.1, if_neg hf.2.2]
  have hhash4 : ∀ (s : CBF) (d : List Nat),
      CBF.Hash env { s with HASH_family := 4 } d = env.MD4 d := fun _ _ => rfl
  refine ⟨⟨SetHashDigestLength_other f hf, rfl, rfl, rfl⟩,
    fun s d => ⟨hhash s d, rfl, rfl, rfl⟩, ?_, ?_⟩
  · intro s e k
    unfold CBF.Check.digest_index CBF.Insert.digest_index
    simp only [hhash, hhash4]
    exact ⟨trivial, trivial⟩
  · intro bm hn mm path fcs s4 h
    obtain ⟨_, _, _, _, _, _, _, hfam, _⟩ := construct_spec h
    exact ⟨construct_family env f hf bm hn mm path fcs s4 h, hfam,
      (construct_cell_size h).2.1⟩

/-- C25 at the code 7: the constructor builds the sample filter but for the
stored code, and the two rounds of "A" map to the same cells. -/
theorem C25_hash_family_fallback_witness :
    ((7 : Int) ≠ 1 ∧ (7 : Int) ≠ 4 ∧ (7 : Int) ≠ 5) ∧
    CBF.SetHashDigestLength 7 = 16 ∧
    (CBF.Insert.digest_index sampleEnv { sampleFilter with HASH_family := 7 } [65] 1 =
        CBF.Insert.digest_index sampleEnv { sampleFilter with HASH_family := 4 } [65] 1 ∧
      CBF.Check.digest_index sampleEnv { sampleFilter with HASH_family := 7 } [65] 1 =
        CBF.Check.digest_index sampleEnv { sampleFilter with HASH_family := 4 } [65] 1) ∧
    (CBF.construct sampleEnv 4 7 2 255 "salts.txt" 0 =
        Except.ok { sampleFilter with HASH_family := 7 } ∧
      sampleFilter.HASH_family = 4 ∧ sampleFilter.HASH_digest_length = 16) :=
  ⟨by decide, (C25_hash_family_fallback sampleEnv 7 (by decide)).1.1,
    (C25_hash_family_fallback sampleEnv 7 (by decide)).2.2.1 sampleFilter [65] 1,
    (C25_hash_family_fallback sampleEnv 7 (by decide)).2.2.2 4 2 255 "salts.txt" 0 sampleFilter
      sampleFilter_construct⟩

/-! ## C26: the cell-contents dump -/

/-- The loop of the dump, started at cell `t` with `d` cells to go, writes the
values of the cells `t, ..., t + d - 1` and ends. -/
theorem SaveToDisk_loop_spec {s : CBF} (hwf : s.WF) (n : Nat) (hn : s.cells = n) (d : Nat) :
    ∀ (t fuel : Nat) (out : List Nat), t + d = n → d ≤ fuel →
      CBF.SaveToDisk.loop s fuel (s.cell_size * t) out =
        some (out ++ (List.range' t d).map fun i => (s.GetCell i).toNat) := by
  have hsize := hwf.size
  have hle := hwf.size_le
  rw [hn] at hsize
  induction d with
  | zero =>
    intro t fuel out ht _
    have hnot : ¬ s.cell_size * (t : Int) < s.size := by
      rw [hsize]
      have : t = n := by omega
      rw [this]
      exact lt_irrefl _
    rcases fuel with _ | fuel
    · unfold CBF.SaveToDisk.loop
      rw [if_neg hnot]
      simp
    · unfold CBF.SaveToDisk.loop
      rw [if_neg hnot]
      simp
  | succ d ih =>
    intro t fuel out ht hfuel
    obtain ⟨fuel, rfl⟩ : ∃ f, fuel = f + 1 := ⟨fuel - 1, by omega⟩
    have htn : (t : Int) < s.cells := by rw [hn]; exact_mod_cast (by omega : t < n)
    have hlay := GetCell_layout hwf t htn
    have hr := GetCell_range hwf t
    unfold CBF.SaveToDisk.loop
    rcases hwf.cell_size with hc | hc
    · rw [hc] at hsize
      have hlt : s.cell_size * (t : Int) < s.size := by rw [hsize, hc]; omega
      have hnext : wrapInt32 (s.cell_size * (t : Int) + s.cell_size) =
          s.cell_size * ((t + 1 : Nat) : Int) := by
        rw [hc]
        rw [wrapInt32_id _ (by omega) (by omega)]
        push_cast; ring
      have hidx : (s.cell_size * (t : Int)).toNat = t := by rw [hc]; omega
      have hval : wrapUInt32 (s.filter.getD t 0) = (s.GetCell t).toNat := by
        rw [hlay.1 hc, Int.toNat_natCast]
        exact wrapUInt32_id _ (by
          have := getD_lt_of_bytes s.filter hwf.filter_bytes t
          omega)
      rw [if_pos hlt]
      simp only [if_pos hc]
      rw [hnext, hidx, hval, ih (t + 1) fuel _ (by omega) (by omega), List.range'_succ]
      simp
    · have hne : ¬ s.cell_size = 1 := by rw [hc]; decide
      rw [hc] at hsize
      have hlt : s.cell_size * (t : Int) < s.size := by rw [hsize, hc]; omega
      have hnext : wrapInt32 (s.cell_size * (t : Int) + s.cell_size) =
          s.cell_size * ((t + 1 : Nat) : Int) := by
        rw [hc]
        rw [wrapInt32_id _ (by omega) (by omega)]
        push_cast; ring
      have hidx : (s.cell_size * (t : Int)).toNat = 2 * t := by rw [hc]; omega
      have hidx1 : (wrapInt32 (s.cell_size * (t : Int) + 1)).toNat = 2 * t + 1 := by
        rw [hc, wrapInt32_id _ (by omega) (by omega)]
        omega
      have hb1 := getD_lt_of_bytes s.filter hwf.filter_bytes (2 * t)
      have hb2 := getD_lt_of_bytes s.filter hwf.filter_bytes (2 * t + 1)
      have hval : wrapUInt32 ((s.filter.getD (2 * t) 0 <<< 8) ||| s.filter.getD (2 * t + 1) 0) =
          (s.GetCell t).toNat := by
        rw [hlay.2 hc, byte_fold _ _ hb2, wrapUInt32_id _ (by omega)]
        omega
      rw [if_pos hlt]
      simp only [if_neg hne, if_pos hc]
      rw [hnext, hidx, hidx1, hval, ih (t + 1) fuel _ (by omega) (by omega), List.range'_succ]
      simp

/-- C26. In a well-formed state, so for one-byte and for two-byte cells, the
loop of the cell-contents dump ends within `cells` iterations, writes
exactly `cells` values, and the `i`-th value is `GetCell(i)`. -/
theorem C26_cell_dump (s : CBF) (hwf : s.WF) (fuel : Nat) (hfuel : s.cells.toNat ≤ fuel) :
    ∃ out : List Nat, CBF.SaveToDisk.cells s fuel = some out ∧
      (out.length : Int) = s.cells ∧
      ∀ i : Nat, (i : Int) < s.cells → (out.getD i 0 : Int) = s.GetCell i := by
  obtain ⟨n, hn, _⟩ := WF_cells_nat hwf
  have hn' : s.cells.toNat = n := by rw [hn]; exact Int.toNat_natCast n
  have h := SaveToDisk_loop_spec hwf n hn n 0 fuel [] (by omega) (by omega)
  rw [Nat.cast_zero, mul_zero, List.nil_append] at h
  refine ⟨_, h, ?_, ?_⟩
  · rw [List.length_map, List.length_range', hn]
  · intro i hi
    have hin : i < n := by rw [hn] at hi; exact_mod_cast hi
    have hr := GetCell_range hwf i
    rw [List.getD_eq_getElem?_getD, List.getElem?_map, List.getElem?_range' _ _ hin]
    simp only [Option.map_some', Option.getD_some, Nat.one_mul, Nat.zero_add]
    exact Int.toNat_of_nonneg hr.1

/-- C26 at the sample filter with two-byte cells after one insertion of "A":
the dump is `65535, 0`. -/
theorem C26_cell_dump_witness :
    (∃ out : List Nat, CBF.SaveToDisk.cells (wideSaturated 0) 2 = some out ∧
      (out.length : Int) = (wideSaturated 0).cells ∧
      ∀ i : Nat, (i : Int) < (wideSaturated 0).cells →
        (out.getD i 0 : Int) = (wideSaturated 0).GetCell i) ∧
    CBF.SaveToDisk.cells (wideSaturated 0) 2 = some [65535, 0] :=
  ⟨C26_cell_dump (wideSaturated 0) (wideSaturated_Reachable 0).WF 2 (by decide), by decide⟩

/-! ## C29: the bound on the multiplicity -/

/-- An `Insert` with a multiplicity outside `[0, max_counter]` throws
`std::invalid_argument` and leaves the filter as it was. -/
theorem Insert_invalid (env : Env) {s : CBF} (hwf : s.WF) (e : List Nat) (m : Int)
    (hm : m < 0 ∨ s.max_counter < m) :
    s.Insert env e m = Except.error (Exception.invalid_argument, s) := by
  rcases h : s.Insert env e m with ⟨ex, s1⟩ | s1
  · obtain ⟨h1, h2, _⟩ := Insert_error env s e m ex s1 h
    rw [h1, h2]
  · have := Insert_ok_valid hwf h
    omega

/-- C29. Whether `Insert` accepts a multiplicity depends on `cell_size` only:
in a well-formed state `Insert(e, m)` returns normally exactly when
`0 ≤ m ≤ 255` for one-byte cells and `0 ≤ m ≤ 65535` otherwise, whatever
`MULTIPLICITY_max` is. A filter constructed with `MULTIPLICITY_max = 5` and
automatic cell size accepts `Insert(e, 200)` in every state it reaches, and a
filter constructed with `MULTIPLICITY_max = 1000` and `forced_cell_size = 1`
rejects every multiplicity in `[256, 1000]` with `std::invalid_argument`. -/
theorem C29_bound_from_cell_size (env : Env) :
    (∀ (s : CBF) (e : List Nat) (m : Int), s.WF →
      ((∃ s1, s.Insert env e m = Except.ok s1) ↔
        (0 ≤ m ∧ m ≤ if s.cell_size = 1 then 255 else 65535))) ∧
    (∀ (bit_mapping HASH_family HASH_number : Int) (salt_path : String) (s0 s : CBF)
        (calls : List (List Nat × Int)) (e : List Nat),
      CBF.construct env bit_mapping HASH_family HASH_number 5 salt_path 0 = Except.ok s0 →
      s0.InsertAll env calls = Except.ok s →
      s.MULTIPLICITY_max = 5 ∧ s.cell_size = 1 ∧ ∃ s1, s.Insert env e 200 = Except.ok s1) ∧
    (∀ (bit_mapping HASH_family HASH_number : Int) (salt_path : String) (s0 s : CBF)
        (calls : List (List Nat × Int)) (e : List Nat) (m : Int),
      CBF.construct env bit_mapping HASH_family HASH_number 1000 salt_path 1 = Except.ok s0 →
      s0.InsertAll env calls = Except.ok s → 256 ≤ m → m ≤ 1000 →
      s.MULTIPLICITY_max = 1000 ∧ s.cell_size = 1 ∧
        s.Insert env e m = Except.error (Exception.invalid_argument, s)) := by
  refine ⟨?_, ?_, ?_⟩
  · intro s e m hwf
    constructor
    · rintro ⟨s1, h⟩
      exact Insert_ok_valid hwf h
    · rintro ⟨h0, h1⟩
      obtain ⟨s1, h, _⟩ := Insert_spec env hwf e m h0 h1
      exact ⟨s1, h⟩
  · intro bm hf hn path s0 s calls e h0 hs
    obtain ⟨hwf0, _, _, _, _, _, _, _, hmm⟩ := construct_spec h0
    obtain ⟨hwf, hc, _⟩ := InsertAll_WF calls hwf0 hs
    have hcs : s.cell_size = 1 := by
      rw [hc.cell_size, (construct_cell_size h0).1]
      decide
    have hmax : s.max_counter = 255 := by unfold CBF.max_counter; rw [if_pos hcs]
    obtain ⟨s1, h, _⟩ := Insert_spec env hwf e 200 (by decide) (by rw [hmax]; decide)
    exact ⟨by rw [hc.MULTIPLICITY_max, hmm], hcs, s1, h⟩
  · intro bm hf hn path s0 s calls e m h0 hs hm1 hm2
    obtain ⟨hwf0, _, _, _, _, _, _, _, hmm⟩ := construct_spec h0
    obtain ⟨hwf, hc, _⟩ := InsertAll_WF calls hwf0 hs
    have hcs : s.cell_size = 1 := by
      rw [hc.cell_size, (construct_cell_size h0).1]
      decide
    have hmax : s.max_counter = 255 := by unfold CBF.max_counter; rw [if_pos hcs]
    exact ⟨by rw [hc.MULTIPLICITY_max, hmm], hcs,
      Insert_invalid env hwf e m (Or.inr (by rw [hmax]; omega))⟩

set_option maxRecDepth 100000 in
/-- C29 at the two filters of the claim, built in the sample environment with
sixteen cells and two rounds: the first accepts `Insert("A", 200)`, the second
rejects `Insert("A", 1000)`. -/
theorem C29_bound_from_cell_size_witness :
    (CBF.construct sampleEnv 4 4 2 5 "salts.txt" 0 =
        Except.ok { sampleFilter with MULTIPLICITY_max := 5 } ∧
      ∃ s1, CBF.Insert sampleEnv { sampleFilter with MULTIPLICITY_max := 5 } [65] 200 =
        Except.ok s1) ∧
    (CBF.construct sampleEnv 4 4 2 1000 "salts.txt" 1 =
        Except.ok { sampleFilter with MULTIPLICITY_max := 1000 } ∧
      CBF.Insert sampleEnv { sampleFilter with MULTIPLICITY_max := 1000 } [65] 1000 =
        Except.error (Exception.invalid_argument,
          { sampleFilter with MULTIPLICITY_max := 1000 })) :=
  ⟨⟨by decide,
      ((C29_bound_from_cell_size sampleEnv).2.1 4 4 2 "salts.txt"
        { sampleFilter with MULTIPLICITY_max := 5 } { sampleFilter with MULTIPLICITY_max := 5 }
        [] [65] (by decide) rfl).2.2⟩,
    ⟨by decide,
      ((C29_bound_from_cell_size sampleEnv).2.2 4 4 2 "salts.txt"
        { sampleFilter with MULTIPLICITY_max := 1000 }
        { sampleFilter with MULTIPLICITY_max := 1000 }
        [] [65] 1000 (by decide) rfl (by decide) (by decide)).2.2⟩⟩

/-! ## C30: insertion with multiplicity `0` -/

/-- On a filter whose cells are all `0`, `Check` returns `0`. -/
theorem Check_zero (env : Env) {s : CBF} (hwf : s.WF) (hz : ∀ b ∈ s.filter, b = 0)
    (e : List Nat) : s.Check env e = 0 := by
  unfold CBF.Check
  obtain ⟨n, hn⟩ : ∃ n, s.HASH_number.toNat = n + 1 :=
    ⟨s.HASH_number.toNat - 1, by have := hwf.HASH_number_pos; omega⟩
  rw [hn, List.range_succ_eq_map]
  unfold CBF.Check.rounds
  simp only [GetCell_zero hwf hz]
  rw [if_pos (by decide)]
  decide

/-- C30, as the code has it. In every reachable state `Insert(e, 0)` returns
normally and leaves the cell array, so every counter, the ledger, `members`
and the configuration as they were; `unique_members` becomes
`unique_members + 1` reduced to a 32-bit `int`, which is an increment by 1
whenever `unique_members < INT_MAX`. When every cell of the filter is `0`, as
on a fresh filter, `Check(e)` returns `0` after the call. -/
theorem C30_insert_zero (env : Env) (s : CBF) (hs : Reachable env s) (e : List Nat) :
    ∃ s1, s.Insert env e 0 = Except.ok s1 ∧
      s1.filter = s.filter ∧ (∀ i : Nat, s1.GetCell i = s.GetCell i) ∧
      s1.overflows = s.overflows ∧ s1.members = s.members ∧
      s1.unique_members = wrapInt32 (s.unique_members + 1) ∧
      (s.unique_members < INT_MAX → s1.unique_members = s.unique_members + 1) ∧
      s.SameConfig s1 ∧
      ((∀ b ∈ s.filter, b = 0) → s1.Check env e = 0) := by
  have hwf := hs.WF
  have h := Insert_zero env e hwf
  have hwf1 := Insert_WF hwf h
  refine ⟨_, h, rfl, fun _ => rfl, rfl, rfl, rfl, ?_, Insert_SameConfig hwf h, ?_⟩
  · intro hlt
    have hu := hwf.unique_members_int
    unfold INT_MIN at hu
    unfold INT_MAX at hlt
    exact wrapInt32_id _ (by omega) (by omega)
  · intro hz
    exact Check_zero env hwf1 hz e

/-- C30 at the sample filter and the element "A". -/
theorem C30_insert_zero_witness :
    ∃ s1, sampleFilter.Insert sampleEnv [65] 0 = Except.ok s1 ∧
      s1.filter = sampleFilter.filter ∧ (∀ i : Nat, s1.GetCell i = sampleFilter.GetCell i) ∧
      s1.overflows = sampleFilter.overflows ∧ s1.members = sampleFilter.members ∧
      s1.unique_members = wrapInt32 (sampleFilter.unique_members + 1) ∧
      (sampleFilter.unique_members < INT_MAX →
        s1.unique_members = sampleFilter.unique_members + 1) ∧
      sampleFilter.SameConfig s1 ∧
      ((∀ b ∈ sampleFilter.filter, b = 0) → s1.Check sampleEnv [65] = 0) :=
  C30_insert_zero sampleEnv sampleFilter sampleFilter_Reachable [65]

/-- C30 fails as it is stated. The state `roundsInserted 2147483647` is
reached from a freshly constructed filter by 2147483647 calls `Insert("A", 0)`
and has `unique_members = 2147483647`; one more `Insert("A", 0)` returns
normally and leaves `unique_members = -2147483648`, which is not an increment
by 1. -/
theorem C30_counterexample :
    Reachable sampleEnv (roundsInserted 2147483647) ∧
    (roundsInserted 2147483647).unique_members = 2147483647 ∧
    ∃ s1, (roundsInserted 2147483647).Insert sampleEnv [65] 0 = Except.ok s1 ∧
      s1.unique_members = -2147483648 ∧
      s1.unique_members ≠ (roundsInserted 2147483647).unique_members + 1 := by
  have hr := roundsInserted_Reachable 2147483647
  have hu : (roundsInserted 2147483647).unique_members = 2147483647 := by
    show wrapInt32 ((2147483647 : Nat) : Int) = 2147483647
    decide
  refine ⟨hr, hu, _, Insert_zero sampleEnv [65] hr.WF, ?_, ?_⟩
  · show wrapInt32 ((roundsInserted 2147483647).unique_members + 1) = -2147483648
    rw [hu]; decide
  · show wrapInt32 ((roundsInserted 2147483647).unique_members + 1) ≠ _
    rw [hu]; decide

/-! ## The rounds of an element, counted per cell -/

theorem wrapInt32_add_right (a b : Int) : wrapInt32 (a + wrapInt32 b) = wrapInt32 (a + b) := by
  rw [add_comm, wrapInt32_add_left, add_comm]

theorem wrapInt32_cancel (c x y : Int) (h : wrapInt32 (c + x) = wrapInt32 (c + y))
    (hx : INT_MIN ≤ x ∧ x ≤ INT_MAX) (hy : INT_MIN ≤ y ∧ y ≤ INT_MAX) : x = y := by
  unfold INT_MIN INT_MAX at hx hy
  unfold wrapInt32 at h
  omega

theorem hits_cons (env : Env) (s : CBF) (e : List Nat) (k : Nat) (ks : List Nat) (j : Nat) :
    s.hits env e (k :: ks) j =
      s.hits env e ks j + if CBF.Insert.digest_index env s e k = j then 1 else 0 := by
  unfold CBF.hits
  rw [List.countP_cons]
  by_cases h : CBF.Insert.digest_index env s e k = j <;> simp [h]

theorem hits_congr (env : Env) {s s1 : CBF} (hc : s.SameConfig s1) (e : List Nat)
    (ks : List Nat) (j : Nat) : s1.hits env e ks j = s.hits env e ks j := by
  unfold CBF.hits
  have : CBF.Insert.digest_index env s1 e = CBF.Insert.digest_index env s e :=
    funext (hc.digest_index env e)
  rw [this]

/-- One `SetCell` adds the multiplicity to the sum of the cell and of its
ledger entry, up to the reduction of the entry to a 32-bit `int`, and leaves
the sums of the other cells. -/
theorem SetCell_total {s s1 : CBF} (hwf : s.WF) (i : Nat) (hi : (i : Int) < s.cells)
    (m : Int) (h0 : 0 ≤ m) (h1 : m ≤ s.max_counter) (hs : s.SetCell i m = Except.ok s1)
    (j : Nat) (hj : (j : Int) < s.cells) :
    wrapInt32 (s1.GetCell j + s1.overflows.getD j 0) =
      wrapInt32 (s.GetCell j + s.overflows.getD j 0 + if i = j then m else 0) := by
  by_cases hij : i = j
  · subst hij
    rw [if_pos rfl, SetCell_GetCell_same hwf i hi m h0 h1 hs,
      SetCell_ledger_same hwf i hi m h0 h1 hs, wrapInt32_add_right]
    have hr := GetCell_range hwf i
    have : min s.max_counter (s.GetCell i + m) +
        (s.overflows.getD i 0 + max 0 (s.GetCell i + m - s.max_counter)) =
        s.GetCell i + s.overflows.getD i 0 + m := by omega
    rw [this]
  · rw [if_neg hij, add_zero, SetCell_GetCell_other hwf i hi m h0 h1 hs j hj (Ne.symm hij),
      SetCell_ledger_other hwf i m h0 h1 hs j (Ne.symm hij)]

/-- The round loop of `Insert`, without any assumption on the cell indices of
the rounds: each cell grows by the multiplicity once for every round that
maps the element to it, up to `max_counter`, and the sum of the cell and of
its ledger entry grows by the same amount, up to the reduction of the entry
to a 32-bit `int`. -/
theorem Insert_rounds_count (env : Env) (e : List Nat) (m : Int) (h0 : 0 ≤ m)
    (ks : List Nat) :
    ∀ s s1 : CBF, s.WF → m ≤ s.max_counter →
      CBF.Insert.rounds env e m ks s = Except.ok s1 →
      ∀ j : Nat, (j : Int) < s.cells →
        s1.GetCell j = min s.max_counter (s.GetCell j + m * (s.hits env e ks j : Int)) ∧
        wrapInt32 (s1.GetCell j + s1.overflows.getD j 0) =
          wrapInt32 (s.GetCell j + s.overflows.getD j 0 + m * (s.hits env e ks j : Int)) := by
  induction ks with
  | nil =>
    intro s s1 hwf _ h j hj
    simp only [CBF.Insert.rounds] at h
    injection h with h
    subst h
    have hr := GetCell_range hwf j
    have hh : s.hits env e [] j = 0 := rfl
    rw [hh]
    simp only [Nat.cast_zero, mul_zero, add_zero]
    exact ⟨(min_eq_right hr.2).symm, trivial⟩
  | cons k ks ih =>
    intro s s1 hwf h1 h j hj
    obtain ⟨s2, hs2⟩ := SetCell_ok hwf (CBF.Insert.digest_index env s e k) m h0 h1
    simp only [CBF.Insert.rounds, hs2] at h
    have hlt := digest_index_lt hwf env e k
    have hc := (SetCell_SameConfig hwf _ m h0 h1 hs2).1
    obtain ⟨ih1, ih2⟩ := ih s2 s1 (SetCell_WF hwf _ m h0 h1 hs2)
      (by rw [hc.max_counter]; exact h1) h j (by rw [hc.cells]; exact hj)
    rw [hc.max_counter, hits_congr env hc] at ih1
    rw [hits_congr env hc] at ih2
    have htot := SetCell_total hwf _ hlt m h0 h1 hs2 j hj
    have hX : 0 ≤ m * (s.hits env e ks j : Int) :=
      mul_nonneg h0 (Int.natCast_nonneg _)
    have hr := GetCell_range hwf j
    have hcast : m * ((s.hits env e (k :: ks) j : Nat) : Int) =
        m * (s.hits env e ks j : Int) +
          if CBF.Insert.digest_index env s e k = j then m else 0 := by
      rw [hits_cons]
      split <;> push_cast <;> ring
    rw [hcast]
    generalize m * (s.hits env e ks j : Int) = X at ih1 ih2 hX
    refine ⟨?_, ?_⟩
    · rw [ih1]
      by_cases hjk : CBF.Insert.digest_index env s e k = j
      · rw [if_pos hjk]
        have hsame := SetCell_GetCell_same hwf _ hlt m h0 h1 hs2
        rw [hjk] at hsame
        rw [hsame]
        omega
      · rw [if_neg hjk, add_zero,
          SetCell_GetCell_other hwf _ hlt m h0 h1 hs2 j hj (Ne.symm hjk)]
    · rw [ih2, ← wrapInt32_add_left, htot, wrapInt32_add_left]
      have : s.GetCell j + s.overflows.getD j 0 +
            (if CBF.Insert.digest_index env s e k = j then m else 0) + X =
          s.GetCell j + s.overflows.getD j 0 +
            (X + if CBF.Insert.digest_index env s e k = j then m else 0) := by ring
      rw [this]

/-- An `Insert` that returns normally, without any assumption on the cell
indices of the rounds: the cells, the sums of a cell and its ledger entry,
and the aggregate counters. -/
theorem Insert_count (env : Env) {s s1 : CBF} (hwf : s.WF) {e : List Nat} {m : Int}
    (hs : s.Insert env e m = Except.ok s1) :
    (∀ j : Nat, (j : Int) < s.cells →
      s1.GetCell j =
          min s.max_counter
            (s.GetCell j + m * (s.hits env e (List.range s.HASH_number.toNat) j : Int)) ∧
        wrapInt32 (s1.GetCell j + s1.overflows.getD j 0) =
          wrapInt32 (s.GetCell j + s.overflows.getD j 0 +
            m * (s.hits env e (List.range s.HASH_number.toNat) j : Int))) ∧
    s1.members = wrapInt32 (s.members + m) ∧
    s1.unique_members = wrapInt32 (s.unique_members + 1) := by
  obtain ⟨h0, h1⟩ := Insert_ok_valid hwf hs
  obtain ⟨s1', hs1', _, _, hm, hu, _⟩ := Insert_spec env hwf e m h0 h1
  rw [hs] at hs1'
  injection hs1' with hs1'
  subst hs1'
  refine ⟨?_, hm, hu⟩
  unfold CBF.Insert at hs
  split at hs
  · exact absurd hs (by simp)
  · rename_i s2 hs2
    injection hs with hs
    subst hs
    intro j hj
    exact Insert_rounds_count env e m h0 _ s s2 hwf h1 hs2 j hj

/-! ## C27: conservation of the inserted multiplicity -/

theorem list_ext_getD {α : Type} (d : α) (l l1 : List α) (hlen : l.length = l1.length)
    (h : ∀ b : Nat, b < l.length → l.getD b d = l1.getD b d) : l = l1 := by
  apply List.ext_getElem hlen
  intro n h1 h2
  have := h n h1
  rw [List.getD_eq_getElem?_getD, List.getD_eq_getElem?_getD, List.getElem?_eq_getElem h1,
    List.getElem?_eq_getElem h2] at this
  exact this

/-- Two well-formed states of one filter that agree on every cell have the same
cell array. -/
theorem filter_eq_of_cells {s s1 : CBF} (hwf : s.WF) (hwf1 : s1.WF) (hc : s.SameConfig s1)
    (h : ∀ j : Nat, (j : Int) < s.cells → s1.GetCell j = s.GetCell j) :
    s1.filter = s.filter := by
  obtain ⟨n, hn, _, hn2, _, hl1, hl2⟩ := WF_cells_nat hwf
  obtain ⟨n1, hn1, _, _, _, hl1', hl2'⟩ := WF_cells_nat hwf1
  have hnn : n1 = n := by
    have := hc.cells
    rw [hn, hn1] at this
    exact_mod_cast this
  subst hnn
  rcases hwf.cell_size with hcs | hcs
  · have hcs1 : s1.cell_size = 1 := by rw [hc.cell_size]; exact hcs
    apply list_ext_getD 0 _ _ (by rw [hl1' hcs1, hl1 hcs])
    intro b hb
    rw [hl1' hcs1] at hb
    have hb' : (b : Int) < s.cells := by rw [hn]; exact_mod_cast hb
    have e := h b hb'
    rw [(GetCell_layout hwf b hb').1 hcs,
      (GetCell_layout hwf1 b (by rw [hc.cells]; exact hb')).1 hcs1] at e
    exact_mod_cast e
  · have hcs1 : s1.cell_size = 2 := by rw [hc.cell_size]; exact hcs
    apply list_ext_getD 0 _ _ (by rw [hl2' hcs1, hl2 hcs])
    intro b hb
    rw [hl2' hcs1] at hb
    have hb' : ((b / 2 : Nat) : Int) < s.cells := by
      rw [hn]; exact_mod_cast (by omega : b / 2 < n1)
    have e := h (b / 2) hb'
    rw [(GetCell_layout hwf (b / 2) hb').2 hcs,
      (GetCell_layout hwf1 (b / 2) (by rw [hc.cells]; exact hb')).2 hcs1] at e
    have b1 := getD_lt_of_bytes s.filter hwf.filter_bytes (2 * (b / 2))
    have b2 := getD_lt_of_bytes s.filter hwf.filter_bytes (2 * (b / 2) + 1)
    have b3 := getD_lt_of_bytes s1.filter hwf1.filter_bytes (2 * (b / 2))
    have b4 := getD_lt_of_bytes s1.filter hwf1.filter_bytes (2 * (b / 2) + 1)
    rcases Nat.mod_two_eq_zero_or_one b with hm | hm
    · have hb2 : b = 2 * (b / 2) := by omega
      rw [hb2]
      omega
    · have hb2 : b = 2 * (b / 2) + 1 := by omega
      rw [hb2]
      omega

/-- Two well-formed states of one filter are the same state when they agree on
every cell, on every ledger entry and on the two aggregate counters. -/
theorem state_eq_of_cells {s s1 s2 : CBF} (hwf1 : s1.WF) (hwf2 : s2.WF)
    (hc1 : s.SameConfig s1) (hc2 : s.SameConfig s2)
    (hcell : ∀ j : Nat, (j : Int) < s.cells → s2.GetCell j = s1.GetCell j)
    (hov : ∀ j : Nat, (j : Int) < s.cells → s2.overflows.getD j 0 = s1.overflows.getD j 0)
    (hm : s2.members = s1.members) (hu : s2.unique_members = s1.unique_members) :
    s2 = s1 := by
  have hc12 : s1.SameConfig s2 :=
    ⟨by rw [hc2.HASH_salt, hc1.HASH_salt], by rw [hc2.bit_mapping, hc1.bit_mapping],
      by rw [hc2.cells, hc1.cells], by rw [hc2.cell_size, hc1.cell_size],
      by rw [hc2.size, hc1.size], by rw [hc2.HASH_family, hc1.HASH_family],
      by rw [hc2.HASH_number, hc1.HASH_number],
      by rw [hc2.HASH_digest_length, hc1.HASH_digest_length],
      by rw [hc2.MULTIPLICITY_max, hc1.MULTIPLICITY_max], by rw [hc2.BIG_end, hc1.BIG_end]⟩
  have hf : s2.filter = s1.filter :=
    filter_eq_of_cells hwf1 hwf2 hc12 (fun j hj => hcell j (by rw [← hc1.cells]; exact hj))
  have ho : s2.overflows = s1.overflows := by
    have hl1 := hwf1.overflows_length
    have hl2 := hwf2.overflows_length
    apply list_ext_getD 0 _ _ (by rw [hc12.cells, ← hl1] at hl2; exact_mod_cast hl2)
    intro b hb
    exact hov b (by rw [← hc2.cells, ← hl2]; exact_mod_cast hb)
  obtain ⟨e1, e2, e3, e4, e5, e6, e7, e8, e9, e10⟩ := hc12
  cases s1
  cases s2
  simp only at hf ho hm hu e1 e2 e3 e4 e5 e6 e7 e8 e9 e10
  subst hf ho hm hu e1 e2 e3 e4 e5 e6 e7 e8 e9 e10
  rfl

/-- Two `Insert` calls in a row, without any assumption on the cell indices:
the cells, the sums of a cell and its ledger entry and the aggregate
counters of the final state, in terms of the first state. -/
theorem Insert_twice (env : Env) {s sa s2 : CBF} (hwf : s.WF) {a b : List Nat} {m1 m2 : Int}
    (hsa : s.Insert env a m1 = Except.ok sa) (hs2 : sa.Insert env b m2 = Except.ok s2) :
    s2.WF ∧ s.SameConfig s2 ∧
    (∀ j : Nat, (j : Int) < s.cells →
      s2.GetCell j =
          min s.max_counter
            (s.GetCell j + (m1 * (s.hits env a (List.range s.HASH_number.toNat) j : Int) +
              m2 * (s.hits env b (List.range s.HASH_number.toNat) j : Int))) ∧
        wrapInt32 (s2.GetCell j + s2.overflows.getD j 0) =
          wrapInt32 (s.GetCell j + s.overflows.getD j 0 +
            (m1 * (s.hits env a (List.range s.HASH_number.toNat) j : Int) +
              m2 * (s.hits env b (List.range s.HASH_number.toNat) j : Int)))) ∧
    s2.members = wrapInt32 (s.members + (m1 + m2)) ∧
    s2.unique_members = wrapInt32 (s.unique_members + 1 + 1) := by
  have hwfa := Insert_WF hwf hsa
  have hca := Insert_SameConfig hwf hsa
  have hwf2 := Insert_WF hwfa hs2
  have hc2 := Insert_SameConfig hwfa hs2
  obtain ⟨h10, h11⟩ := Insert_ok_valid hwf hsa
  obtain ⟨h20, h21⟩ := Insert_ok_valid hwfa hs2
  obtain ⟨hA, hmA, huA⟩ := Insert_count env hwf hsa
  obtain ⟨hB, hmB, huB⟩ := Insert_count env hwfa hs2
  refine ⟨hwf2, hca.trans hc2, ?_, ?_, ?_⟩
  · intro j hj
    obtain ⟨hA1, hA2⟩ := hA j hj
    obtain ⟨hB1, hB2⟩ := hB j (by rw [hca.cells]; exact hj)
    rw [hca.max_counter, hca.HASH_number, hits_congr env hca] at hB1
    rw [hca.HASH_number, hits_congr env hca] at hB2
    have hX : 0 ≤ m1 * (s.hits env a (List.range s.HASH_number.toNat) j : Int) :=
      mul_nonneg h10 (Int.natCast_nonneg _)
    have hY : 0 ≤ m2 * (s.hits env b (List.range s.HASH_number.toNat) j : Int) :=
      mul_nonneg h20 (Int.natCast_nonneg _)
    have hr := GetCell_range hwf j
    generalize m1 * (s.hits env a (List.range s.HASH_number.toNat) j : Int) = X
      at hA1 hA2 hX
    generalize m2 * (s.hits env b (List.range s.HASH_number.toNat) j : Int) = Y
      at hB1 hB2 hY
    refine ⟨?_, ?_⟩
    · rw [hB1, hA1]
      omega
    · rw [hB2, ← wrapInt32_add_left, hA2, wrapInt32_add_left, add_assoc]
  · rw [hmB, hmA, wrapInt32_add_left, add_assoc]
  · rw [huB, huA, wrapInt32_add_left]

/-- C28. In every reachable state, for elements `a` and `b` and
multiplicities `m1`, `m2` in `[0, max_counter]`, the calls `Insert(a, m1)`,
`Insert(b, m2)` return normally in either order, and the two orders end in
the same state: the same cell array, overflow ledger, `members`,
`unique_members` and configuration. -/
theorem C28_insert_order (env : Env) (s : CBF) (hs : Reachable env s) (a b : List Nat)
    (m1 m2 : Int) (h1 : 0 ≤ m1 ∧ m1 ≤ s.max_counter) (h2 : 0 ≤ m2 ∧ m2 ≤ s.max_counter) :
    ∃ sa sb s2 : CBF,
      s.Insert env a m1 = Except.ok sa ∧ sa.Insert env b m2 = Except.ok s2 ∧
      s.Insert env b m2 = Except.ok sb ∧ sb.Insert env a m1 = Except.ok s2 := by
  have hwf := hs.WF
  obtain ⟨sa, hsa, hwfa, hca, _⟩ := Insert_spec env hwf a m1 h1.1 h1.2
  obtain ⟨sb, hsb, hwfb, hcb, _⟩ := Insert_spec env hwf b m2 h2.1 h2.2
  obtain ⟨s2, hs2, _⟩ := Insert_spec env hwfa b m2 h2.1 (by rw [hca.max_counter]; exact h2.2)
  obtain ⟨s3, hs3, _⟩ := Insert_spec env hwfb a m1 h1.1 (by rw [hcb.max_counter]; exact h1.2)
  obtain ⟨hwf2, hc2, hcell2, hm2, hu2⟩ := Insert_twice env hwf hsa hs2
  obtain ⟨hwf3, hc3, hcell3, hm3, hu3⟩ := Insert_twice env hwf hsb hs3
  have heq : s3 = s2 := by
    apply state_eq_of_cells hwf2 hwf3 hc2 hc3
    · intro j hj
      rw [(hcell3 j hj).1, (hcell2 j hj).1, add_comm (m2 * _)]
    · intro j hj
      have e2 := (hcell2 j hj).2
      have e3 := (hcell3 j hj).2
      rw [add_comm (m2 * _)] at e3
      rw [← e2] at e3
      have hcj : s3.GetCell j = s2.GetCell j := by
        rw [(hcell3 j hj).1, (hcell2 j hj).1, add_comm (m2 * _)]
      rw [hcj] at e3
      exact wrapInt32_cancel _ _ _ e3 (getD_int hwf3.overflows_int j)
        (getD_int hwf2.overflows_int j)
    · rw [hm3, hm2, add_comm m2]
    · rw [hu3, hu2]
  rw [heq] at hs3
  exact ⟨sa, sb, s2, hsa, hs2, hsb, hs3⟩

/-- C28 at the sample filter with two-byte cells after one insertion of "A",
where the cell of "A" is saturated: `Insert("A", 65535)` and `Insert("B", 7)`
in either order. -/
theorem C28_insert_order_witness :
    ∃ sa sb s2 : CBF,
      (wideSaturated 0).Insert sampleEnv [65] 65535 = Except.ok sa ∧
      sa.Insert sampleEnv [66] 7 = Except.ok s2 ∧
      (wideSaturated 0).Insert sampleEnv [66] 7 = Except.ok sb ∧
      sb.Insert sampleEnv [65] 65535 = Except.ok s2 :=
  C28_insert_order sampleEnv (wideSaturated 0) (wideSaturated_Reachable 0) [65] [66] 65535 7
    (by decide) (by decide)

/-! ## C31: the bounds of the cell index -/

/-- The cell index of a round is below `2^bit_mapping`, for every
`bit_mapping` in `[1, 32]`. -/
theorem digest_index_lt_pow (env : Env) (s : CBF) (string : List Nat) (k : Nat)
    (hbm : 1 ≤ s.bit_mapping ∧ s.bit_mapping ≤ 32) :
    CBF.Insert.digest_index env s string k < 2 ^ s.bit_mapping.toNat := by
  have key : ∀ x : Nat, wrapUInt32 x >>> (MAX_BIT_MAPPING - s.bit_mapping).toNat <
      2 ^ s.bit_mapping.toNat := by
    intro x
    unfold wrapUInt32 MAX_BIT_MAPPING
    rw [Nat.shiftRight_eq_div_pow]
    obtain ⟨n, hn⟩ : ∃ n : Nat, s.bit_mapping = n := ⟨s.bit_mapping.toNat, by omega⟩
    rw [hn]
    have h32 : ((32 : Int) - n).toNat = 32 - n := by omega
    rw [h32]; simp only [Int.toNat_ofNat]
    have hn32 : n ≤ 32 := by omega
    rw [Nat.div_lt_iff_lt_mul (by positivity)]
    have hpow : 2 ^ n * 2 ^ (32 - n) = 4294967296 := by
      rw [← pow_add]
      have : n + (32 - n) = 32 := by omega
      rw [this]; norm_num
    rw [hpow]; exact Nat.mod_lt _ (by norm_num)
  unfold CBF.Insert.digest_index
  simp only
  split
  · exact key _
  · exact key _

/-- C31. For every digest function, either value of `BIG_end` and every
`bit_mapping` in `[1, 32]`, the cell index that `Insert` and `Check` compute
for a round is below `2^bit_mapping`. In a state with `cells = 2^bit_mapping`,
cells of one or two bytes, a cell array of `cell_size * cells` bytes and a
ledger of `cells` entries, the index is below `cells`, the ledger entry and
the bytes that `GetCell` and `SetCell` access at the index are inside the
ledger and the cell array, and `GetCell` returns a value `≥ 0`, so not the
`-1` of its error branch; a `SetCell` that returns normally keeps the lengths
of the two buffers, `cells` and `cell_size`, so the same holds in every round
of an `Insert`. -/
theorem C31_index_bounds (env : Env) (s : CBF) (e : List Nat) (k : Nat)
    (hbm : 1 ≤ s.bit_mapping ∧ s.bit_mapping ≤ 32) :
    (CBF.Insert.digest_index env s e k < 2 ^ s.bit_mapping.toNat ∧
      CBF.Check.digest_index env s e k < 2 ^ s.bit_mapping.toNat) ∧
    (s.cells = 2 ^ s.bit_mapping.toNat → (s.cell_size = 1 ∨ s.cell_size = 2) →
      (s.filter.length : Int) = s.cell_size * s.cells →
      (s.overflows.length : Int) = s.cells →
      ((CBF.Insert.digest_index env s e k : Int) < s.cells ∧
        CBF.Insert.digest_index env s e k < s.overflows.length ∧
        (s.cell_size = 1 → CBF.Insert.digest_index env s e k < s.filter.length) ∧
        (s.cell_size = 2 →
          wrapUInt32 (2 * CBF.Insert.digest_index env s e k) < s.filter.length ∧
          wrapUInt32 (wrapUInt32 (2 * CBF.Insert.digest_index env s e k) + 1) <
            s.filter.length) ∧
        s.GetCell (CBF.Insert.digest_index env s e k) ≠ -1 ∧
        0 ≤ s.GetCell (CBF.Insert.digest_index env s e k) ∧
        ∀ (i : Nat) (m : Int) (s1 : CBF), s.SetCell i m = Except.ok s1 →
          s1.filter.length = s.filter.length ∧ s1.overflows.length = s.overflows.length ∧
          s1.cells = s.cells ∧ s1.cell_size = s.cell_size ∧
          s1.bit_mapping = s.bit_mapping)) := by
  have hlt := digest_index_lt_pow env s e k hbm
  refine ⟨⟨hlt, hlt⟩, ?_⟩
  intro hcells hcs hfl hol
  generalize CBF.Insert.digest_index env s e k = i at hlt ⊢
  have hic : (i : Int) < s.cells := by rw [hcells]; exact_mod_cast hlt
  have hge : 0 ≤ s.GetCell i := by
    unfold CBF.GetCell
    rcases hcs with hc | hc
    · rw [if_pos hc]; exact Int.natCast_nonneg _
    · rw [if_neg (by rw [hc]; decide), if_pos hc]; exact Int.natCast_nonneg _
  refine ⟨hic, ?_, ?_, ?_, by omega, hge, ?_⟩
  · have : (i : Int) < (s.overflows.length : Int) := by rw [hol]; exact hic
    exact_mod_cast this
  · intro hc
    rw [hc, one_mul] at hfl
    have : (i : Int) < (s.filter.length : Int) := by rw [hfl]; exact hic
    exact_mod_cast this
  · intro hc
    rw [hc] at hfl
    unfold wrapUInt32
    have h1 : (2 * i) % 4294967296 ≤ 2 * i := Nat.mod_le _ _
    have h2 : ((2 * i) % 4294967296 + 1) % 4294967296 ≤ (2 * i) % 4294967296 + 1 :=
      Nat.mod_le _ _
    have h3 : 2 * (i : Int) + 1 < (s.filter.length : Int) := by rw [hfl]; omega
    have h4 : 2 * i + 1 < s.filter.length := by exact_mod_cast h3
    exact ⟨by omega, by omega⟩
  · intro i' m s1 hs
    obtain ⟨h0, h1⟩ := SetCell_ok_valid i' m hs
    have hv : ¬ (m > s.max_counter ∨ m < 0) := by omega
    unfold CBF.SetCell at hs
    have hmc : (if s.cell_size = 1 then (255 : Int) else 65535) = s.max_counter := rfl
    simp only [hmc] at hs
    rw [if_neg hv] at hs
    injection hs with hs
    subst hs
    refine ⟨?_, ?_, rfl, rfl, rfl⟩
    · show (if s.cell_size = 1 then _ else _ : List Nat).length = _
      split
      · simp
      · split <;> simp
    · show (if _ then _ else _ : List Int).length = _
      split <;> simp

/-- C31 at the sample filter, for round 0 of the element "A": the index is
cell 4 of 16. -/
theorem C31_index_bounds_witness :
    (1 ≤ sampleFilter.bit_mapping ∧ sampleFilter.bit_mapping ≤ 32) ∧
    (CBF.Insert.digest_index sampleEnv sampleFilter [65] 0 <
        2 ^ sampleFilter.bit_mapping.toNat ∧
      CBF.Check.digest_index sampleEnv sampleFilter [65] 0 <
        2 ^ sampleFilter.bit_mapping.toNat) ∧
    ((CBF.Insert.digest_index sampleEnv sampleFilter [65] 0 : Int) < sampleFilter.cells ∧
      CBF.Insert.digest_index sampleEnv sampleFilter [65] 0 < sampleFilter.overflows.length ∧
      (sampleFilter.cell_size = 1 →
        CBF.Insert.digest_index sampleEnv sampleFilter [65] 0 < sampleFilter.filter.length) ∧
      (sampleFilter.cell_size = 2 →
        wrapUInt32 (2 * CBF.Insert.digest_index sampleEnv sampleFilter [65] 0) <
            sampleFilter.filter.length ∧
          wrapUInt32 (wrapUInt32 (2 * CBF.Insert.digest_index sampleEnv sampleFilter [65] 0) + 1) <
            sampleFilter.filter.length) ∧
      sampleFilter.GetCell (CBF.Insert.digest_index sampleEnv sampleFilter [65] 0) ≠ -1 ∧
      0 ≤ sampleFilter.GetCell (CBF.Insert.digest_index sampleEnv sampleFilter [65] 0) ∧
      ∀ (i : Nat) (m : Int) (s1 : CBF), sampleFilter.SetCell i m = Except.ok s1 →
        s1.filter.length = sampleFilter.filter.length ∧
        s1.overflows.length = sampleFilter.overflows.length ∧
        s1.cells = sampleFilter.cells ∧ s1.cell_size = sampleFilter.cell_size ∧
        s1.bit_mapping = sampleFilter.bit_mapping) ∧
    CBF.Insert.digest_index sampleEnv sampleFilter [65] 0 = 4 :=
  ⟨by decide, (C31_index_bounds sampleEnv sampleFilter [65] 0 (by decide)).1,
    (C31_index_bounds sampleEnv sampleFilter [65] 0 (by decide)).2 (by decide) (by decide)
      (by decide) (by decide),
    by decide⟩

end cbf
